import Mathlib

/-!
# golang-clickhouse: a shallow embedding of `clickhouse.go`

The development follows the source file top to bottom: the connection
configuration (`Conn`), the query executor (`Conn.doQuery`), the row decoder
(`Conn.Fetch`, `Iter.Next`, `Iter.Close`) and the typed accessors of a row
(`Result.String`, `Result.Int8`, ...).

Conventions.
* A Go `string` or `[]byte` is a `Str`, its list of characters.  The code only
  ever cuts strings at ASCII characters (tab, newline, `<`, `;`, ...), so the
  character view and the byte view agree on every cut.  Where the code depends on
  a size in bytes (the buffer of the scanner), the size is that of the UTF-8
  encoding (`byteLen`).
* A Go `error` is an `Option Str`: `none` is `nil`, `some text` is an error whose
  `Error()` is `text`.
* Several return values are a tuple, in the order of the Go signature.
* A run-time panic (index out of range, nil dereference) is `Except.error`.
* The process-wide `logger` and the `stdout` switch only print; they never
  change a returned value or the control flow and are left out.
-/

namespace Clickhouse

/-- A Go string, as the list of its characters -/
abbrev Str := List Char

/-! ## Formatting and parsing of integers (`fmt` with the verb d, `strconv`) -/

/-- The character of a decimal digit -/
def digitChar (d : Nat) : Char := Char.ofNat (48 + d)

/-- Decimal digits of `n`, most significant first, put in front of `acc`;
the first argument bounds the number of digits -/
def natDigits : Nat → Nat → Str → Str
  | 0, _, acc => acc
  | fuel + 1, n, acc =>
    if n < 10 then digitChar n :: acc
    else natDigits fuel (n / 10) (digitChar (n % 10) :: acc)

/-- Base-10 text of a natural number (`strconv.FormatUint(n, 10)`) -/
def formatUint (n : Nat) : Str := natDigits (n + 1) n []

/-- Base-10 text of an integer (`strconv.FormatInt(i, 10)`, the verb d of `fmt`) -/
def formatInt (i : Int) : Str :=
  if i < 0 then '-' :: formatUint i.natAbs else formatUint i.natAbs

/-- The two reasons for which `strconv` rejects a number -/
inductive NumErrKind where
  /-- The value is `strconv.ErrSyntax` -/
  | syntaxErr
  /-- The value is `strconv.ErrRange` -/
  | rangeErr
  /-- The bit size is not between 0 and 64 -/
  | bitSizeErr (bitSize : Int)
  deriving DecidableEq, Repr

/-- Go's `strconv.NumError`: the failing function, the input and the reason -/
structure NumError where
  Func : Str
  Num : Str
  Err : NumErrKind
  deriving DecidableEq, Repr

/-- The value 1<<64 - 1 -/
def maxUint64 : Nat := 2 ^ 64 - 1

/-- The loop of `strconv.ParseUint` for base 10: `n` is the `uint64` accumulator,
`maxVal` the largest value of the bit size -/
def parseUintLoop (maxVal : Nat) : Str → Nat → Nat × Option NumErrKind
  | [], n => (n, none)
  | c :: cs, n =>
    if 48 ≤ c.toNat ∧ c.toNat ≤ 57 then
      let d := c.toNat - 48
      -- n >= cutoff, with cutoff = maxUint64/10 + 1: n*10 overflows
      if n ≥ maxUint64 / 10 + 1 then (maxVal, some .rangeErr)
      else
        let n10 := (n * 10) % 2 ^ 64
        let n1 := (n10 + d) % 2 ^ 64
        -- n1 < n || n1 > maxVal: n+d overflows
        if n1 < n10 ∨ n1 > maxVal then (maxVal, some .rangeErr)
        else parseUintLoop maxVal cs n1
    else (0, some .syntaxErr)

/-- Go's `strconv.ParseUint(s, 10, bitSize)` -/
def ParseUint (s : Str) (bitSize : Int) : Nat × Option NumError :=
  if s = [] then (0, some ⟨"ParseUint".toList, s, .syntaxErr⟩)
  else if bitSize < 0 ∨ bitSize > 64 then (0, some ⟨"ParseUint".toList, s, .bitSizeErr bitSize⟩)
  else
    let bits := if bitSize = 0 then 64 else bitSize.toNat
    match parseUintLoop (2 ^ bits - 1) s 0 with
    | (n, none) => (n, none)
    | (n, some k) => (n, some ⟨"ParseUint".toList, s, k⟩)

/-- Conversion of an integer to the signed type of `w` bits (two's complement) -/
def wrapInt (w : Nat) (i : Int) : Int := (i + 2 ^ (w - 1)) % 2 ^ w - 2 ^ (w - 1)

/-- The second half of `strconv.ParseInt`: the digits are converted as an unsigned number
and its range is checked; `s` is the whole input, `neg` says that it had a minus sign -/
def parseIntSigned (s digits : Str) (neg : Bool) (bitSize : Int) : Int × Option NumError :=
  match ParseUint digits bitSize with
  | (_, some ⟨_, _, .syntaxErr⟩) => (0, some ⟨"ParseInt".toList, s, .syntaxErr⟩)
  | (_, some ⟨_, _, .bitSizeErr b⟩) => (0, some ⟨"ParseInt".toList, s, .bitSizeErr b⟩)
  | (un, _) =>
    let bits := if bitSize = 0 then 64 else bitSize.toNat
    let cutoff : Nat := 2 ^ (bits - 1)
    if ¬ neg ∧ un ≥ cutoff then (((cutoff : Int) - 1), some ⟨"ParseInt".toList, s, .rangeErr⟩)
    else if neg ∧ un > cutoff then (-(cutoff : Int), some ⟨"ParseInt".toList, s, .rangeErr⟩)
    else
      let n := wrapInt 64 (un : Int)
      (if neg then wrapInt 64 (-n) else n, none)

/-- Go's `strconv.ParseInt(s, 10, bitSize)`: the leading sign is picked off first -/
def ParseInt (s : Str) (bitSize : Int) : Int × Option NumError :=
  match s with
  | [] => (0, some ⟨"ParseInt".toList, s, .syntaxErr⟩)
  | c :: cs => parseIntSigned s (if c = '+' ∨ c = '-' then cs else s) (decide (c = '-')) bitSize

/-! ## The parts of the standard library that are taken as given -/

/-- Go's `time.ParseError` message, before it is rendered as text -/
inductive ParseMessage where
  /-- The empty message: value element and layout element did not fit -/
  | cannotParse
  /-- The message `: <what> out of range` -/
  | outOfRange (what : Str)
  /-- The message `: extra text: <rest>` -/
  | extraText (rest : Str)
  /-- The message `: day out of range` -/
  | dayOutOfRange
  deriving DecidableEq, Repr

/-- Go's `time.ParseError` -/
structure ParseError where
  Layout : Str
  Value : Str
  LayoutElem : Str
  ValueElem : Str
  Message : ParseMessage
  deriving DecidableEq, Repr

/-- Functions of the Go standard library whose results the code only passes on:
how `strconv` and `time` quote a string in an error text, the floating-point side
of `strconv`, and the URL check of `http.NewRequest` -/
structure StdLib where
  /-- The function `strconv.Quote` -/
  Quote : Str → Str
  /-- The text of a `time.ParseError` (its method `Error`) -/
  parseErrorText : ParseError → Str
  /-- The values of type `float64` -/
  F64 : Type
  /-- The values of type `float32` -/
  F32 : Type
  /-- The `float64` constant 0 -/
  zero64 : F64
  /-- The function `strconv.ParseFloat`: the value and the error -/
  ParseFloat : Str → Int → F64 × Option NumError
  /-- The conversion `float32(f)` -/
  toFloat32 : F64 → F32
  /-- The error of `http.NewRequest` for a URL it cannot parse, `none` for a URL it accepts -/
  urlError : Str → Option Str
  /-- The function `url.QueryEscape` -/
  QueryEscape : Str → Str

/-- Text of a `strconv` failure reason (`ErrSyntax`, `ErrRange`, the bit size error) -/
def NumErrKind.Error : NumErrKind → Str
  | .syntaxErr => "invalid syntax".toList
  | .rangeErr => "value out of range".toList
  | .bitSizeErr b => "invalid bit size ".toList ++ formatInt b

/-- The method `Error` of `strconv.NumError` -/
def NumError.Error (L : StdLib) (e : NumError) : Str :=
  "strconv.".toList ++ e.Func ++ ": parsing ".toList ++ L.Quote e.Num ++ ": ".toList ++ e.Err.Error

/-! ## `time.Parse` for the two layouts of the code -/

/-- A `time.Time` in UTC, by its calendar fields -/
structure Time where
  year : Nat
  month : Nat
  day : Nat
  hour : Nat
  min : Nat
  sec : Nat
  nsec : Nat
  deriving DecidableEq, Repr

/-- The zero value `time.Time{}`: January 1 of year 1, 00:00:00 UTC -/
def Time.zero : Time := ⟨1, 1, 1, 0, 0, 0, 0⟩

/-- The layout elements that occur in `2006-01-02 15:04:05` -/
inductive Std where
  /-- The element `2006` -/
  | stdLongYear
  /-- The element `01` -/
  | stdZeroMonth
  /-- The element `02` -/
  | stdZeroDay
  /-- The element `15` -/
  | stdHour
  /-- The element `04` -/
  | stdZeroMinute
  /-- The element `05` -/
  | stdZeroSecond
  deriving DecidableEq, Repr

/-- The layout text of an element -/
def Std.text : Std → Str
  | .stdLongYear => "2006".toList
  | .stdZeroMonth => "01".toList
  | .stdZeroDay => "02".toList
  | .stdHour => "15".toList
  | .stdZeroMinute => "04".toList
  | .stdZeroSecond => "05".toList

/-- Whether a character is a decimal digit -/
def isDigitChar (c : Char) : Bool := decide (48 ≤ c.toNat ∧ c.toNat ≤ 57)

/-- Go's `time.isDigit(s, i)` -/
def isDigit (s : Str) (i : Nat) : Bool :=
  match s.get? i with
  | some c => isDigitChar c
  | none => false

/-- Go's `time.cutspace`: drops the leading spaces -/
def cutspace : Str → Str
  | ' ' :: s => cutspace s
  | s => s

/-- Go's `time.skip`: `value` without the layout text `pre` in front, where a run of
spaces of the layout stands for any run of spaces of the value; an error is `errBad`
with the value as far as it was read -/
def skip : Nat → Str → Str → Except Str Str
  | 0, value, _ => .error value
  | _ + 1, value, [] => .ok value
  | fuel + 1, value, ' ' :: pre =>
    match value with
    | c :: _ => if c ≠ ' ' then .error value else skip fuel (cutspace value) (cutspace pre)
    | [] => skip fuel (cutspace value) (cutspace pre)
  | fuel + 1, value, p :: pre =>
    match value with
    | c :: rest => if c ≠ p then .error value else skip fuel rest pre
    | [] => .error value

/-- Go's `time.getnum`: a number of one or two digits (of exactly two when `fixed`)
and the rest of the text; `none` is `errBad` -/
def getnum (s : Str) (fixed : Bool) : Option (Nat × Str) :=
  match s with
  | c0 :: c1 :: rest =>
    if ¬ isDigitChar c0 then none
    else if ¬ isDigitChar c1 then (if fixed then none else some (c0.toNat - 48, c1 :: rest))
    else some ((c0.toNat - 48) * 10 + (c1.toNat - 48), rest)
  | [c0] =>
    if ¬ isDigitChar c0 then none
    else if fixed then none else some (c0.toNat - 48, [])
  | [] => none

/-- Value of a text made of decimal digits only (Go's `time.atoi` on such a text) -/
def atoiDigits : Str → Nat → Option Nat
  | [], n => some n
  | c :: cs, n => if isDigitChar c then atoiDigits cs (n * 10 + (c.toNat - 48)) else none

/-- Go's `time.isLeap` -/
def isLeap (year : Nat) : Bool := year % 4 = 0 ∧ (year % 100 ≠ 0 ∨ year % 400 = 0)

/-- Go's `time.daysIn` -/
def daysIn (month year : Nat) : Nat :=
  if month = 2 then (if isLeap year then 29 else 28)
  else if month = 4 ∨ month = 6 ∨ month = 9 ∨ month = 11 then 30 else 31

/-- The time being constructed by `time.Parse` and the text still to be read -/
structure ParseState where
  year : Nat := 0
  month : Nat := 0
  day : Nat := 0
  hour : Nat := 0
  min : Nat := 0
  sec : Nat := 0
  nsec : Nat := 0
  value : Str
  deriving DecidableEq, Repr

/-- The fractional second that `time.Parse` reads after the seconds although the layout
has none: a period or comma and at least one digit; at most nine digits count -/
def parseFraction (st : ParseState) : ParseState :=
  match st.value with
  | c :: d :: rest =>
    if (c = '.' ∨ c = ',') ∧ isDigitChar d then
      let digits := (d :: rest).takeWhile isDigitChar
      let used := digits.take 9
      match atoiDigits used 0 with
      | some ns => { st with nsec := ns * 10 ^ (9 - used.length), value := (d :: rest).dropWhile isDigitChar }
      | none => st
    else st
  | _ => st

/-- One element of the layout read from the value: the new state, or the message of the
`ParseError` and the value element it names -/
def parseStd (std : Std) (st : ParseState) : Except (ParseMessage × Str) ParseState :=
  match std with
  | .stdLongYear =>
    if st.value.length < 4 ∨ ¬ isDigit st.value 0 then .error (.cannotParse, st.value)
    else match atoiDigits (st.value.take 4) 0 with
      | some y => .ok { st with year := y, value := st.value.drop 4 }
      | none => .error (.cannotParse, st.value)
  | .stdZeroMonth =>
    match getnum st.value true with
    | some (m, rest) =>
      if m = 0 ∨ 12 < m then .error (.outOfRange "month".toList, rest)
      else .ok { st with month := m, value := rest }
    | none => .error (.cannotParse, st.value)
  | .stdZeroDay =>
    match getnum st.value true with
    | some (d, rest) => .ok { st with day := d, value := rest }
    | none => .error (.cannotParse, st.value)
  | .stdHour =>
    match getnum st.value false with
    | some (h, rest) =>
      if 24 ≤ h then .error (.outOfRange "hour".toList, rest)
      else .ok { st with hour := h, value := rest }
    | none => .error (.cannotParse, st.value)
  | .stdZeroMinute =>
    match getnum st.value true with
    | some (m, rest) =>
      if 60 ≤ m then .error (.outOfRange "minute".toList, rest)
      else .ok { st with min := m, value := rest }
    | none => .error (.cannotParse, st.value)
  | .stdZeroSecond =>
    match getnum st.value true with
    | some (s, rest) =>
      if 60 ≤ s then .error (.outOfRange "second".toList, rest)
      else .ok (parseFraction { st with sec := s, value := rest })
    | none => .error (.cannotParse, st.value)

/-- The loop of `time.Parse` over the chunks of the layout, each a literal text followed
by an element -/
def parseChunks (layout value : Str) : List (Str × Std) → ParseState → Except ParseError ParseState
  | [], st => .ok st
  | (pre, std) :: chunks, st =>
    match skip (pre.length + 1) st.value pre with
    | .error v => .error ⟨layout, value, pre, v, .cannotParse⟩
    | .ok v =>
      match parseStd std { st with value := v } with
      | .error (msg, elem) => .error ⟨layout, value, std.text, elem, msg⟩
      | .ok st1 => parseChunks layout value chunks st1

/-- Go's `time.Parse(layout, value)` for a layout given with its chunks: after the last
element nothing may follow, and the day has to exist in its month -/
def timeParse (layout : Str) (chunks : List (Str × Std)) (value : Str) : Except ParseError Time :=
  match parseChunks layout value chunks { value := value } with
  | .error e => .error e
  | .ok st =>
    if st.value ≠ [] then .error ⟨layout, value, [], st.value, .extraText st.value⟩
    else if st.day < 1 ∨ st.day > daysIn st.month st.year then
      .error ⟨layout, value, [], st.value, .dayOutOfRange⟩
    else .ok ⟨st.year, st.month, st.day, st.hour, st.min, st.sec, st.nsec⟩

/-- The chunks of the layout `2006-01-02` -/
def dateLayout : List (Str × Std) :=
  [([], .stdLongYear), (['-'], .stdZeroMonth), (['-'], .stdZeroDay)]

/-- The chunks of the layout `2006-01-02 15:04:05` -/
def dateTimeLayout : List (Str × Std) :=
  dateLayout ++ [([' '], .stdHour), ([':'], .stdZeroMinute), ([':'], .stdZeroSecond)]

/-! ## Maps -/

/-- A Go map with string keys: its entries, one for each key.  The nil map is the map
without entries; the code reads from a nil map but never writes to one -/
structure GoMap (β : Type) where
  entries : List (Str × β)
  deriving DecidableEq, Repr

/-- The value stored for a key in a list of entries -/
def lookupEntry {β : Type} : List (Str × β) → Str → Option β
  | [], _ => none
  | (k, v) :: es, key => if k = key then some v else lookupEntry es key

/-- The entries after `m[key] = v` -/
def assignEntry {β : Type} : List (Str × β) → Str → β → List (Str × β)
  | [], key, v => [(key, v)]
  | (k, w) :: es, key, v => if k = key then (k, v) :: es else (k, w) :: assignEntry es key v

/-- The map without entries (`make(map[string]T)`, and the nil map when read) -/
def GoMap.empty {β : Type} : GoMap β := ⟨[]⟩

/-- The expression `m[key]` with its `ok` flag: `none` when the key is absent -/
def GoMap.get {β : Type} (m : GoMap β) (key : Str) : Option β := lookupEntry m.entries key

/-- The statement `m[key] = v` -/
def GoMap.set {β : Type} (m : GoMap β) (key : Str) (v : β) : GoMap β :=
  ⟨assignEntry m.entries key v⟩

/-! ## Row record: typed accessors (source lines 254 to 437) -/

/-- The type `Result` of the source -/
structure Result where
  data : GoMap Str
  deriving DecidableEq, Repr

/-- The zero value `Result{}` -/
def Result.zero : Result := ⟨GoMap.empty⟩

/-- The method `Result.String` -/
def Result.String (result : Result) (column : Str) : Str × Option Str :=
  match result.data.get column with
  | none => ([], some ("Can't get value by `".toList ++ column ++ "`".toList))
  | some value => (value, none)

/-- The method `Result.Bytes` -/
def Result.Bytes (result : Result) (column : Str) : Str × Option Str :=
  match result.String column with
  | (_, some err) => ([], some err)
  | (value, none) => (value, none)

/-- The method `Result.getUInt` -/
def Result.getUInt (L : StdLib) (result : Result) (column : Str) (bitSize : Int) :
    Nat × Option Str :=
  match result.String column with
  | (_, some err) => (0, some err)
  | (value, none) =>
    match ParseUint value bitSize with
    | (_, some err) =>
      (0, some ("Can't convert value ".toList ++ value ++ " to uint".toList ++ formatInt bitSize
        ++ ": ".toList ++ err.Error L))
    | (i, none) => (i, none)

/-- The method `Result.UInt8`; `uint8(i)` keeps the low 8 bits -/
def Result.UInt8 (L : StdLib) (result : Result) (column : Str) : Nat × Option Str :=
  let (i, err) := result.getUInt L column 8
  (i % 2 ^ 8, err)

/-- The method `Result.UInt16` -/
def Result.UInt16 (L : StdLib) (result : Result) (column : Str) : Nat × Option Str :=
  let (i, err) := result.getUInt L column 16
  (i % 2 ^ 16, err)

/-- The method `Result.UInt32` -/
def Result.UInt32 (L : StdLib) (result : Result) (column : Str) : Nat × Option Str :=
  let (i, err) := result.getUInt L column 32
  (i % 2 ^ 32, err)

/-- The method `Result.UInt64` -/
def Result.UInt64 (L : StdLib) (result : Result) (column : Str) : Nat × Option Str :=
  let (i, err) := result.getUInt L column 64
  (i % 2 ^ 64, err)

/-- The method `Result.getInt` -/
def Result.getInt (L : StdLib) (result : Result) (column : Str) (bitSize : Int) :
    Int × Option Str :=
  match result.String column with
  | (_, some err) => (0, some err)
  | (value, none) =>
    match ParseInt value bitSize with
    | (_, some err) =>
      (0, some ("Can't convert value ".toList ++ value ++ " to int".toList ++ formatInt bitSize
        ++ ": ".toList ++ err.Error L))
    | (i, none) => (i, none)

/-- The method `Result.Int8`; `int8(i)` keeps the low 8 bits, read as a signed number -/
def Result.Int8 (L : StdLib) (result : Result) (column : Str) : Int × Option Str :=
  let (i, err) := result.getInt L column 8
  (wrapInt 8 i, err)

/-- The method `Result.Int16` -/
def Result.Int16 (L : StdLib) (result : Result) (column : Str) : Int × Option Str :=
  let (i, err) := result.getInt L column 16
  (wrapInt 16 i, err)

/-- The method `Result.Int32` -/
def Result.Int32 (L : StdLib) (result : Result) (column : Str) : Int × Option Str :=
  let (i, err) := result.getInt L column 32
  (wrapInt 32 i, err)

/-- The method `Result.Int64` -/
def Result.Int64 (L : StdLib) (result : Result) (column : Str) : Int × Option Str :=
  let (i, err) := result.getInt L column 64
  (wrapInt 64 i, err)

/-- The method `Result.getFloat` -/
def Result.getFloat (L : StdLib) (result : Result) (column : Str) (bitSize : Int) :
    L.F64 × Option Str :=
  match result.String column with
  | (_, some err) => (L.zero64, some err)
  | (value, none) =>
    match L.ParseFloat value bitSize with
    | (_, some err) =>
      (L.zero64, some ("Can't convert value ".toList ++ value ++ " to float".toList
        ++ formatInt bitSize ++ ": ".toList ++ err.Error L))
    | (f, none) => (f, none)

/-- The method `Result.Float32` -/
def Result.Float32 (L : StdLib) (result : Result) (column : Str) : L.F32 × Option Str :=
  let (f, err) := result.getFloat L column 32
  (L.toFloat32 f, err)

/-- The method `Result.Float64` -/
def Result.Float64 (L : StdLib) (result : Result) (column : Str) : L.F64 × Option Str :=
  let (f, err) := result.getFloat L column 64
  (f, err)

/-- The method `Result.Date` -/
def Result.Date (L : StdLib) (result : Result) (column : Str) : Time × Option Str :=
  match result.String column with
  | (_, some err) => (Time.zero, some err)
  | (value, none) =>
    match timeParse "2006-01-02".toList dateLayout value with
    | .error err =>
      (Time.zero, some ("Can't convert value ".toList ++ value ++ " to date: ".toList
        ++ L.parseErrorText err))
    | .ok t => (t, none)

/-- The method `Result.DateTime` -/
def Result.DateTime (L : StdLib) (result : Result) (column : Str) : Time × Option Str :=
  match result.String column with
  | (_, some err) => (Time.zero, some err)
  | (value, none) =>
    match timeParse "2006-01-02 15:04:05".toList dateTimeLayout value with
    | .error err =>
      (Time.zero, some ("Can't convert value ".toList ++ value ++ " to datetime: ".toList
        ++ L.parseErrorText err))
    | .ok t => (t, none)

/-! ## Regular expressions (`regexp`), for the two patterns of the code -/

/-- Syntax of the regular expressions that occur in the code -/
inductive Re where
  /-- A literal text -/
  | lit (s : Str)
  /-- One or more characters of a class, as many as possible first -/
  | plus (p : Char → Bool)
  /-- Any number of characters of a class, as many as possible first -/
  | star (p : Char → Bool)
  /-- An optional part, tried first -/
  | opt (r : Re)
  /-- One part followed by another -/
  | seq (r s : Re)
  /-- The sign `$` without the flag m: the end of the text -/
  | eot

/-- Text `s` without the text `l` in front, if `s` starts with `l` -/
def stripLit : Str → Str → Option Str
  | [], s => some s
  | _ :: _, [] => none
  | a :: l, c :: s => if a = c then stripLit l s else none

/-- Backtracking match of a class repeated: the longest run first, then shorter ones;
`k` matches what follows -/
def runStar (p : Char → Bool) (k : Str → Option Str) : Str → Option Str
  | [] => k []
  | c :: cs =>
    if p c then
      match runStar p k cs with
      | some r => some r
      | none => k (c :: cs)
    else k (c :: cs)

/-- Backtracking match of `re` at the start of `s`, in the order of preference of
`regexp` (leftmost-first); `k` matches what follows; the result is the text left
after the whole match -/
def Re.run : Re → Str → (Str → Option Str) → Option Str
  | .lit l, s, k =>
    match stripLit l s with
    | some rest => k rest
    | none => none
  | .plus p, s, k =>
    match s with
    | c :: cs => if p c then runStar p k cs else none
    | [] => none
  | .star p, s, k => runStar p k s
  | .opt r, s, k =>
    match r.run s k with
    | some rest => some rest
    | none => k s
  | .seq a b, s, k => a.run s (fun rest => b.run rest k)
  | .eot, s, k => if s = [] then k [] else none

/-- The preferred match of `re` at the start of `s`: the text that is left after it -/
def Re.matchAt (re : Re) (s : Str) : Option Str := re.run s some

/-- The leftmost match in a text of which `s` is the part from position `pos` on:
start and end position of the match -/
def Re.search (re : Re) : Str → Nat → Option (Nat × Nat)
  | [], pos =>
    match re.matchAt [] with
    | some _ => some (pos, pos)
    | none => none
  | c :: cs, pos =>
    match re.matchAt (c :: cs) with
    | some rest => some (pos, pos + ((c :: cs).length - rest.length))
    | none => re.search cs (pos + 1)

/-- The loop of `Regexp.ReplaceAllString` for a replacement text without the sign `$`:
positions count characters, so the width of the character at `searchPos` is 1 -/
def replaceAllLoop (re : Re) (src repl : Str) : Nat → Nat → Nat → Str → Str
  | 0, lastMatchEnd, _, buf => buf ++ src.drop lastMatchEnd
  | fuel + 1, lastMatchEnd, searchPos, buf =>
    if searchPos ≤ src.length then
      match re.search (src.drop searchPos) searchPos with
      | none => buf ++ src.drop lastMatchEnd
      | some (a0, a1) =>
        -- copy the unmatched characters before this match
        let buf := buf ++ (src.drop lastMatchEnd).take (a0 - lastMatchEnd)
        -- insert the replacement, but not for an empty match right after another match
        let buf := if a1 > lastMatchEnd ∨ a0 = 0 then buf ++ repl else buf
        -- advance past this match; always advance at least one character
        let width := if searchPos < src.length then 1 else 0
        let searchPos :=
          if searchPos + width > a1 then searchPos + width
          else if searchPos + 1 > a1 then searchPos + 1
          else a1
        replaceAllLoop re src repl fuel a1 searchPos buf
    else buf ++ src.drop lastMatchEnd

/-- Go's `re.ReplaceAllString(src, repl)` -/
def Re.ReplaceAllString (re : Re) (src repl : Str) : Str :=
  replaceAllLoop re src repl (src.length + 2) 0 0 []

/-- The loop of `Regexp.FindAllString(s, n)`: `i` counts the matches delivered -/
def findAllLoop (re : Re) (s : Str) (n : Nat) : Nat → Nat → Nat → Int → List Str
  | 0, _, _, _ => []
  | fuel + 1, pos, i, prevMatchEnd =>
    if i < n ∧ pos ≤ s.length then
      match re.search (s.drop pos) pos with
      | none => []
      | some (m0, m1) =>
        -- an empty match right after the previous match is ignored
        let accept := ¬ (m1 = pos ∧ (m0 : Int) = prevMatchEnd)
        let pos1 := if m1 = pos then (if pos < s.length then pos + 1 else s.length + 1) else m1
        if accept then
          (s.drop m0).take (m1 - m0) :: findAllLoop re s n fuel pos1 (i + 1) m1
        else findAllLoop re s n fuel pos1 i m1
    else []

/-- Go's `re.FindAllString(s, -1)`: all matches, at most `len(s) + 1` of them -/
def Re.FindAllString (re : Re) (s : Str) : List Str :=
  findAllLoop re s (s.length + 1) (s.length + 2) 0 0 (-1)

/-- The class `[A-Za-z0-9]` -/
def isAlnum (c : Char) : Bool :=
  decide ((65 ≤ c.toNat ∧ c.toNat ≤ 90) ∨ (97 ≤ c.toNat ∧ c.toNat ≤ 122) ∨ (48 ≤ c.toNat ∧ c.toNat ≤ 57))

/-- The class that only holds the space -/
def isSpace (c : Char) : Bool := decide (c = ' ')

/-- The class `[^<]` -/
def notLt (c : Char) : Bool := decide (c ≠ '<')

/-- The pattern `(FORMAT [A-Za-z0-9]+)? *;? *$` of `Fetch` -/
def formatRe : Re :=
  .seq (.opt (.seq (.lit "FORMAT ".toList) (.plus isAlnum)))
    (.seq (.star isSpace) (.seq (.opt (.lit ";".toList)) (.seq (.star isSpace) .eot)))

/-- The pattern `<title>([^<]+)</title>` of `doQuery` -/
def titleRe : Re :=
  .seq (.lit "<title>".toList) (.seq (.plus notLt) (.lit "</title>".toList))

/-! ## Streams: `io.ReadCloser`, `ioutil.ReadAll`, `bufio.Scanner` -/

/-- An `io.ReadCloser`, such as the body of an HTTP response: the bytes it still
delivers, the error with which the stream ends after them (`none` is `io.EOF`), and
how many times `Close` has been called.  The error, and likewise the end of the stream,
is reported by a read that delivers no byte; what a read after `Close` returns is not
part of the model (the decoder does not read after it has closed the stream) -/
structure ReadCloser where
  data : Str
  err : Option Str := none
  closed : Nat := 0
  deriving DecidableEq, Repr

/-- The method `Close` of the stream -/
def ReadCloser.Close (r : ReadCloser) : ReadCloser := { r with closed := r.closed + 1 }

/-- Go's `ioutil.ReadAll`: all bytes that are left, the error if it is not `io.EOF`,
and the drained stream -/
def ReadAll (r : ReadCloser) : Str × Option Str × ReadCloser :=
  (r.data, r.err, { r with data := [] })

/-- The number of bytes of a character in UTF-8, the encoding of a Go string -/
def utf8Size (c : Char) : Nat :=
  if c.toNat < 0x80 then 1 else if c.toNat < 0x800 then 2 else if c.toNat < 0x10000 then 3 else 4

/-- Go's `len(s)`: the number of bytes of a text -/
def byteLen : Str → Nat
  | [] => 0
  | c :: cs => utf8Size c + byteLen cs

/-- The characters of a text that lie within its first `n` bytes -/
def takeBytes : Nat → Str → Str
  | _, [] => []
  | n, c :: cs => if utf8Size c ≤ n then c :: takeBytes (n - utf8Size c) cs else []

/-- The text without the characters that lie within its first `n` bytes -/
def dropBytes : Nat → Str → Str
  | _, [] => []
  | n, c :: cs => if utf8Size c ≤ n then dropBytes (n - utf8Size c) cs else c :: cs

/-- Go's `bufio.MaxScanTokenSize`: the largest size of the buffer of a scanner made by
`bufio.NewScanner` -/
def MaxScanTokenSize : Nat := 64 * 1024

/-- The text of Go's `bufio.ErrTooLong` -/
def ErrTooLong : Str := "bufio.Scanner: token too long".toList

/-- What a `bufio.Scanner` remembers between calls: the last token, the first error other
than `io.EOF`, and the bytes that it still holds in its buffer once it has stopped with
`ErrTooLong` (a character that the end of the buffer cuts in two is left with the
stream).  Before that, the bytes that the scanner has read ahead are counted as bytes of
the stream -/
structure Scanner where
  tok : Str := []
  err : Option Str := none
  buf : Str := []
  deriving DecidableEq, Repr

/-- Go's `bufio.NewScanner` -/
def NewScanner : Scanner := {}

/-- Go's `dropCR`: the line without a carriage return at its end -/
def dropCR (data : Str) : Str :=
  if data.getLast? = some '\r' then data.dropLast else data

/-- The text up to the first newline, and the text after that newline if there is one -/
def cutLine : Str → Str × Option Str
  | [] => ([], none)
  | c :: cs =>
    if c = '\n' then ([], some cs)
    else
      let (line, rest) := cutLine cs
      (c :: line, rest)

/-- The method `Scan` with the split function `ScanLines`, on the stream it reads from.
A line ends at a newline, or at the end of the stream when it is not empty.  The scanner
finds a line when its buffer, of `MaxScanTokenSize` bytes at most, holds the line and its
newline, or holds the last line and has room left for the read that reports the end of
the stream; when the buffer is full before that, the scanner stops with `ErrTooLong`.
After an error the scanner reads no more: the next call hands out what the buffer holds
as the last token, and the calls after that return false -/
def Scanner.Scan (s : Scanner) (r : ReadCloser) : Bool × Scanner × ReadCloser :=
  if s.err ≠ none then
    if s.buf = [] then (false, { s with tok := [] }, r)
    else (true, { s with tok := dropCR s.buf, buf := [] }, r)
  else if r.data = [] then (false, { tok := [], err := r.err }, r)
  else
    match cutLine r.data with
    | (line, some rest) =>
      if MaxScanTokenSize < byteLen line + 1 then
        (false, { tok := [], err := some ErrTooLong, buf := takeBytes MaxScanTokenSize r.data },
          { r with data := dropBytes MaxScanTokenSize r.data })
      else (true, { s with tok := dropCR line }, { r with data := rest })
    | (line, none) =>
      if MaxScanTokenSize < byteLen line + 1 then
        (false, { tok := [], err := some ErrTooLong, buf := takeBytes MaxScanTokenSize r.data },
          { r with data := dropBytes MaxScanTokenSize r.data })
      else (true, { tok := dropCR line, err := r.err }, { r with data := [] })

/-- The method `Text` of the scanner -/
def Scanner.Text (s : Scanner) : Str := s.tok

/-- The method `Err` of the scanner -/
def Scanner.Err (s : Scanner) : Option Str := s.err

/-- Go's `strings.Split(s, sep)` for a separator of one character -/
def Split (sep : Char) : Str → List Str
  | [] => [[]]
  | c :: cs =>
    if c = sep then [] :: Split sep cs
    else
      match Split sep cs with
      | f :: fs => (c :: f) :: fs
      | [] => [[c]]

/-! ## Connection configuration (source lines 22 to 103) -/

/-- A run-time panic, with its message -/
abbrev Panic := Str

/-- The type `Conn` of the source; the fields of type `int` are integers -/
structure Conn where
  host : Str
  port : Int
  user : Str
  pass : Str
  fqnd : Str
  maxMemoryUsage : Int
  connectTimeout : Int
  sendTimeout : Int
  receiveTimeout : Int
  attemptsAmount : Int
  attemptWait : Int
  deriving DecidableEq, Repr

/-- The function `New` -/
def New (host : Str) (port : Int) (user : Str) (pass : Str) : Conn × Option Str :=
  ({ host := host, port := port, user := user, pass := pass, fqnd := [],
     connectTimeout := 10, receiveTimeout := 300, sendTimeout := 300,
     maxMemoryUsage := 2 * 1024 * 1024 * 1024, attemptsAmount := 1, attemptWait := 0 }, none)

/-- The method `Conn.Attempts` -/
def Conn.Attempts (conn : Conn) (amount : Int) (wait : Int) : Conn :=
  { conn with attemptsAmount := amount, attemptWait := wait }

/-- The method `Conn.MaxMemoryUsage` -/
def Conn.MaxMemoryUsage (conn : Conn) (limit : Int) : Conn :=
  { conn with maxMemoryUsage := limit }

/-- The method `Conn.ConnectTimeout` -/
def Conn.ConnectTimeout (conn : Conn) (timeout : Int) : Conn :=
  { conn with connectTimeout := timeout }

/-- The method `Conn.SendTimeout` -/
def Conn.SendTimeout (conn : Conn) (timeout : Int) : Conn :=
  { conn with sendTimeout := timeout }

/-- The method `Conn.ReceiveTimeout` -/
def Conn.ReceiveTimeout (conn : Conn) (timeout : Int) : Conn :=
  { conn with receiveTimeout := timeout }

/-- The method `Conn.getFQDN`: the target text, computed once and kept in `fqnd` -/
def Conn.getFQDN (conn : Conn) : Str × Conn :=
  if conn.fqnd = [] then
    let fqnd := conn.user ++ ":".toList ++ conn.pass ++ "@".toList ++ conn.host ++ ":".toList
      ++ formatInt conn.port
    (fqnd, { conn with fqnd := fqnd })
  else (conn.fqnd, conn)

/-! ## The HTTP client as the code uses it -/

/-- An `http.Request` as far as the code sets it -/
structure Request where
  Method : Str
  URL : Str
  Body : Str
  Header : GoMap Str
  deriving DecidableEq, Repr

/-- An `http.Response` as far as the code reads it -/
structure Response where
  StatusCode : Int
  Body : ReadCloser
  deriving DecidableEq, Repr

/-- The `http.Client` of one call of `doQuery`: its timeout, in nanoseconds -/
structure Client where
  Timeout : Int
  deriving DecidableEq, Repr

/-- What `client.Do` returns: a response with a nil error, or a nil response with a
transport-level error -/
inductive DoResult where
  /-- A response was received, of whatever status -/
  | response (res : Response)
  /-- No response: DNS, connect, timeout -/
  | failure (err : Str)
  deriving DecidableEq, Repr

/-- The network during one call of `doQuery`: the outcome of the send number `i`
(counted from 0) of a request by a client -/
abbrev Transport := Nat → Client → Request → DoResult

/-- Go's `url.Values.Encode` for values set with `Set`: `key=value` pairs sorted by key
and joined with the ampersand -/
def Encode (L : StdLib) (v : GoMap Str) : Str :=
  let keys := (v.entries.map Prod.fst).insertionSort (fun a b => a ≤ b)
  let pairs := keys.map (fun k => L.QueryEscape k ++ "=".toList ++ L.QueryEscape ((v.get k).getD []))
  "&".toList.intercalate pairs

/-! ## Query executor (source lines 450 to 510) -/

/-- The variables of the retry loop of `doQuery`, and the requests sent so far -/
structure LoopState where
  isDone : Bool := false
  attempts : Int := 0
  res : Option Response := none
  err : Option Str := none
  sent : List Request := []
  deriving DecidableEq, Repr

/-- The body of the retry loop (source lines 478 to 498) -/
def doQueryStep (net : Transport) (client : Client) (req : Request) (st : LoopState) :
    Except Panic LoopState :=
  let st := { st with attempts := st.attempts + 1 }
  match net st.sent.length client req with
  | .failure e => .ok { st with res := none, err := some e, sent := st.sent ++ [req] }
  | .response res =>
    let st := { st with res := some res, err := none, sent := st.sent ++ [req] }
    if res.StatusCode ≠ 200 then
      let (bytes, _, body) := ReadAll res.Body
      let st := { st with res := some { res with Body := body } }
      let text := bytes
      match text with
      | [] => .error "index out of range [0] with length 0".toList
      | c :: _ =>
        if c = '<' then
          match titleRe.FindAllString text with
          | [] => .error "index out of range [0] with length 0".toList
          | t :: _ => .ok { st with err := some t }
        else .ok { st with err := some text }
    else .ok { st with isDone := true }

/-- The retry loop `for !isDone && attempts < conn.attemptsAmount`; the first argument
bounds the number of rounds -/
def doQueryLoop (net : Transport) (client : Client) (req : Request) (attemptsAmount : Int) :
    Nat → LoopState → Except Panic LoopState × List Request
  | 0, st => (.ok st, st.sent)
  | fuel + 1, st =>
    if ¬ st.isDone ∧ st.attempts < attemptsAmount then
      match doQueryStep net client req st with
      | .error p => (.error p, st.sent ++ [req])
      | .ok st1 => doQueryLoop net client req attemptsAmount fuel st1
    else (.ok st, st.sent)

/-- The URL that `doQuery` hands to `http.NewRequest` (source lines 458 to 464) -/
def Conn.requestURL (L : StdLib) (conn : Conn) : Str :=
  let options : GoMap Str := GoMap.empty
  let options := options.set "max_memory_usage".toList (formatInt conn.maxMemoryUsage)
  let options := options.set "connect_timeout".toList (formatInt conn.connectTimeout)
  let options := options.set "max_memory_usage".toList (formatInt conn.maxMemoryUsage)
  let options := options.set "send_timeout".toList (formatInt conn.sendTimeout)
  "http://".toList ++ conn.getFQDN.1 ++ "/?".toList ++ Encode L options

/-- The outcome of a call that talks to the server: the connection afterwards, the
requests that were sent, in order, and the returned values or the panic -/
structure Run (α : Type) where
  conn : Conn
  sent : List Request
  ret : Except Panic α

/-- The client that `doQuery` makes (source lines 451 to 456): its timeout is the sum of
the three timeouts, as a `time.Duration` -/
def Conn.client (conn : Conn) : Client :=
  let timeout := wrapInt 64 (wrapInt 64 (conn.connectTimeout + conn.sendTimeout) + conn.receiveTimeout)
  ⟨wrapInt 64 (timeout * 1000000000)⟩

/-- The request that `doQuery` makes for a URL that `http.NewRequest` accepts, with its
three headers (source lines 464 to 471) -/
def newRequest (url query : Str) : Request :=
  let header : GoMap Str := GoMap.empty
  let header := header.set "Content-Type".toList "text/plain".toList
  let header := header.set "Pragma".toList "no-cache".toList
  let header := header.set "Cache-Control".toList "no-cache".toList
  ⟨"POST".toList, url, query, header⟩

/-- The method `Conn.doQuery`; it returns the body of the response and the error -/
def Conn.doQuery (L : StdLib) (net : Transport) (conn : Conn) (query : Str) :
    Run (Option ReadCloser × Option Str) :=
  let client := conn.client
  let url := conn.requestURL L
  let (fqdn, conn) := conn.getFQDN
  match L.urlError url with
  | some e =>
    ⟨conn, [], .ok (none, some ("Can't connect to host ".toList ++ fqdn ++ ": ".toList ++ e))⟩
  | none =>
    let req := newRequest url query
    match doQueryLoop net client req conn.attemptsAmount conn.attemptsAmount.toNat {} with
    | (.error p, sent) => ⟨conn, sent, .error p⟩
    | (.ok st, sent) =>
      match st.err with
      | some e =>
        ⟨conn, sent, .ok (none, some ("Can't do request to host ".toList ++ fqdn ++ ": ".toList ++ e))⟩
      | none =>
        match st.res with
        | none => ⟨conn, sent, .error "invalid memory address or nil pointer dereference".toList⟩
        | some res =>
          if res.StatusCode ≠ 200 then
            let (bytes, _, _) := ReadAll res.Body
            ⟨conn, sent, .ok (none, some bytes)⟩
          else ⟨conn, sent, .ok (some res.Body, none)⟩

/-! ## Row stream decoder (source lines 146 to 250) -/

/-- The type `Iter` of the source.  `reader` is the stream itself: the scanner and every
copy of the `Iter` share it, so that a `Close` through any of them is seen here.  A
column position is never negative -/
structure Iter where
  columns : GoMap Nat := GoMap.empty
  reader : Option ReadCloser := none
  scanner : Option Scanner := none
  err : Option Str := none
  Result : Result := Result.zero
  isClosed : Bool := false
  deriving DecidableEq, Repr

/-- The zero value `Iter{}` -/
def Iter.zero : Iter := {}

/-- The query that `Fetch` passes to `doQuery` (source lines 150 and 151) -/
def fetchQuery (query : Str) : Str :=
  formatRe.ReplaceAllString query " FORMAT TabSeparatedWithNames".toList

/-- The loop `for index, column := range matches` of `Fetch` -/
def loadColumns : List Str → Nat → GoMap Nat → GoMap Nat
  | [], _, columns => columns
  | column :: rest, index, columns => loadColumns rest (index + 1) (columns.set column index)

/-- The method `Conn.Fetch` -/
def Conn.Fetch (L : StdLib) (net : Transport) (conn : Conn) (query : Str) :
    Run (Iter × Option Str) :=
  let query := fetchQuery query
  let r := conn.doQuery L net query
  match r.ret with
  | .error p => ⟨r.conn, r.sent, .error p⟩
  | .ok (_, some err) => ⟨r.conn, r.sent, .ok (Iter.zero, some err)⟩
  | .ok (none, none) =>
    ⟨r.conn, r.sent, .error "invalid memory address or nil pointer dereference".toList⟩
  | .ok (some reader, none) =>
    let (ok, scanner, reader) := NewScanner.Scan reader
    let iter : Iter := { columns := GoMap.empty, reader := some reader, scanner := some scanner }
    if ok then
      let line := scanner.Text
      let fields := Split '\t' line
      ⟨r.conn, r.sent, .ok ({ iter with columns := loadColumns fields 0 iter.columns }, none)⟩
    else
      match scanner.Err with
      | some err => ⟨r.conn, r.sent, .ok (Iter.zero, some ("Can't fetch response: ".toList ++ err))⟩
      | none => ⟨r.conn, r.sent, .ok (iter, none)⟩

/-- The method `Iter.Close`.  Its receiver is a copy: no field of the `Iter` changes,
only the stream does -/
def Iter.Close (iter : Iter) : Except Panic Iter :=
  if ¬ iter.isClosed then
    match iter.reader with
    | none => .error "invalid memory address or nil pointer dereference".toList
    | some reader => .ok { iter with reader := some reader.Close }
  else .ok iter

/-- The loop `for column, index := range iter.columns` of `Next`: each column gets the
field at its position; a position outside of `fields` (the `matches` of the source) is a
panic.  Go leaves the order of the loop open; the map that results does not depend on it,
and the loop panics in every order if it panics in one -/
def loadRow (fields : List Str) : List (Str × Nat) → GoMap Str → Except Panic (GoMap Str)
  | [], data => .ok data
  | (column, index) :: rest, data =>
    match fields.get? index with
    | none =>
      .error ("index out of range [".toList ++ formatUint index ++ "] with length ".toList
        ++ formatUint fields.length)
    | some field => loadRow fields rest (data.set column field)

/-- The method `Iter.Next`: the returned flag and the `Iter` afterwards -/
def Iter.Next (iter : Iter) : Except Panic (Bool × Iter) :=
  match iter.scanner, iter.reader with
  | some scanner, some reader =>
    let (next, scanner, reader) := scanner.Scan reader
    let iter := { iter with scanner := some scanner, reader := some reader, err := scanner.Err }
    if iter.err ≠ none then .ok (false, iter)
    else if next then
      let line := scanner.Text
      let fields := Split '\t' line
      match loadRow fields iter.columns.entries GoMap.empty with
      | .error p => .error p
      | .ok data => .ok (next, { iter with Result := ⟨data⟩ })
    else
      match iter.Close with
      | .error p => .error p
      | .ok iter => .ok (next, iter)
  | _, _ => .error "invalid memory address or nil pointer dereference".toList

/-- The method `Iter.Err` -/
def Iter.Err (iter : Iter) : Option Str := iter.err

/-- The outcome of `FetchOne`: that of the call, and the stream of the response as it
is when `FetchOne` returns (`none` when no response body was opened) -/
structure FetchOneRun where
  run : Run (Result × Option Str)
  reader : Option ReadCloser

/-- The method `Conn.FetchOne`; the deferred `iter.Close()` runs on the copy of `iter`
made at the `defer` statement, after `Next` -/
def Conn.FetchOne (L : StdLib) (net : Transport) (conn : Conn) (query : Str) : FetchOneRun :=
  let r := conn.Fetch L net query
  match r.ret with
  | .error p => ⟨⟨r.conn, r.sent, .error p⟩, none⟩
  | .ok (_, some err) => ⟨⟨r.conn, r.sent, .ok (Result.zero, some err)⟩, none⟩
  | .ok (iter, none) =>
    match iter.Next with
    | .error p =>
      -- the deferred Close runs while the panic unwinds
      match iter.Close with
      | .error p1 => ⟨⟨r.conn, r.sent, .error p1⟩, iter.reader⟩
      | .ok closed => ⟨⟨r.conn, r.sent, .error p⟩, closed.reader⟩
    | .ok (next, iter1) =>
      let ret := if next then (iter1.Result, none) else (Result.zero, none)
      -- the deferred Close: the fields are those of `iter`, the stream is the current one
      match ({ iter with reader := iter1.reader } : Iter).Close with
      | .error p => ⟨⟨r.conn, r.sent, .error p⟩, iter1.reader⟩
      | .ok closed => ⟨⟨r.conn, r.sent, .ok ret⟩, closed.reader⟩

/-- The method `Conn.Exec`: the error, and the stream of the response when it returns -/
def Conn.Exec (L : StdLib) (net : Transport) (conn : Conn) (query : Str) :
    Run (Option Str) × Option ReadCloser :=
  let r := conn.doQuery L net query
  match r.ret with
  | .error p => (⟨r.conn, r.sent, .error p⟩, none)
  | .ok (_, some err) => (⟨r.conn, r.sent, .ok (some err)⟩, none)
  | .ok (none, none) =>
    (⟨r.conn, r.sent, .error "invalid memory address or nil pointer dereference".toList⟩, none)
  | .ok (some reader, none) =>
    let (_, _, reader) := ReadAll reader
    (⟨r.conn, r.sent, .ok none⟩, some reader.Close)

/-! ## Notions used to state the properties -/

/-- A standard library to run examples with: it quotes with plain double quotes, has a
single float, accepts every URL and escapes nothing -/
def sampleLib : StdLib where
  Quote := fun s => '"' :: s ++ ['"']
  parseErrorText := fun e => "parsing time ".toList ++ e.Value
  F64 := Unit
  F32 := Unit
  zero64 := ()
  ParseFloat := fun _ _ => ((), none)
  toFloat32 := fun _ => ()
  urlError := fun _ => none
  QueryEscape := fun s => s

/-- A connection to run examples with, as `New` makes it -/
def sampleConn : Conn := (New "localhost".toList 8123 "default".toList []).1

/-- A freshly opened response body with the given bytes, ending with `io.EOF` -/
def bodyOf (data : Str) : ReadCloser := { data := data }

/-- The value of a text of decimal digits read after the number `n` -/
def digitsValue : Str → Nat → Nat
  | [], n => n
  | c :: cs, n => digitsValue cs (n * 10 + (c.toNat - 48))

/-- The integer that a base-10 text denotes: an optional sign, then one digit or more -/
def decimalValue (s : Str) : Option Int :=
  match s with
  | [] => none
  | c :: cs =>
    if c = '-' then
      (if cs ≠ [] ∧ cs.all isDigitChar then some (-(digitsValue cs 0 : Int)) else none)
    else if c = '+' then
      (if cs ≠ [] ∧ cs.all isDigitChar then some (digitsValue cs 0 : Int) else none)
    else if s.all isDigitChar then some (digitsValue s 0 : Int) else none

/-- The lines of a text before the carriage return is dropped: a line ends at a newline,
the last line also at the end of the text -/
def rawLines : Str → List Str
  | [] => []
  | c :: cs =>
    if c = '\n' then [] :: rawLines cs
    else
      match rawLines cs with
      | [] => [[c]]
      | line :: rest => (c :: line) :: rest

/-- The lines of a text in the sense of `bufio.ScanLines` -/
def scanLines (data : Str) : List Str := (rawLines data).map dropCR

/-- The `Iter` after `n` calls of `Next`, whatever they returned -/
def Iter.after : Nat → Iter → Except Panic Iter
  | 0, iter => .ok iter
  | n + 1, iter =>
    match iter.Next with
    | .error p => .error p
    | .ok (_, iter1) => iter1.after n

/-- Whether a text holds a FORMAT clause: the word FORMAT, a space, and a letter or digit -/
def hasFormatClause : Str → Bool
  | [] => false
  | c :: cs =>
    (match stripLit "FORMAT ".toList (c :: cs) with
      | some (d :: _) => isAlnum d
      | _ => false) || hasFormatClause cs

/-- The clause that `Fetch` puts at the end of the query -/
def formatClause : Str := " FORMAT TabSeparatedWithNames".toList

/-- What a regular expression matches: `re.Sem u v` says that `re` can match the text `u`
when the text `v` follows it -/
def Re.Sem : Re → Str → Str → Prop
  | .lit l, u, _ => u = l
  | .plus p, u, _ => u ≠ [] ∧ ∀ c ∈ u, p c = true
  | .star p, u, _ => ∀ c ∈ u, p c = true
  | .opt r, u, v => u = [] ∨ r.Sem u v
  | .seq a b, u, v => ∃ u1 u2, u = u1 ++ u2 ∧ a.Sem u1 (u2 ++ v) ∧ b.Sem u2 v
  | .eot, u, v => u = [] ∧ v = []

/-- A transport that answers every send with the status 200 and the given body -/
def okTransport (body : ReadCloser) : Transport := fun _ _ _ => .response ⟨200, body⟩

/-- A transport with a script: the send number `i` gets the outcome number `i` of the
list, and every send after the end of the list gets `last` -/
def scripted (outcomes : List DoResult) (last : DoResult) : Transport :=
  fun i _ _ => outcomes.getD i last

/-- The names of a header with their positions, counted from `i` -/
def indexed : List Str → Nat → List (Str × Nat)
  | [], _ => []
  | c :: cs, i => (c, i) :: indexed cs (i + 1)

/-- The state of an Iter in the middle of a stream: the column index of the header, no
error, and a stream that still holds the lines `rows`, each of which fits into the buffer
of the scanner, and that has been closed `closed` times -/
def Iter.Streaming (iter : Iter) (cols : List Str) (rows : List Str) (closed : Nat) : Prop :=
  iter.columns = ⟨indexed cols 0⟩ ∧ iter.isClosed = false ∧
  ∃ d sc, iter.reader = some { data := d, err := none, closed := closed } ∧
    scanLines d = rows ∧ (∀ l ∈ rawLines d, byteLen l < MaxScanTokenSize) ∧
    iter.scanner = some sc ∧ sc.err = none

/-- The line of a row: its fields with a tab between them (Go's `strings.Join`) -/
def joinFields : List Str → Str
  | [] => []
  | [f] => f
  | f :: g :: fs => f ++ '\t' :: joinFields (g :: fs)

/-- What the pattern of `Fetch` strips besides a FORMAT clause: `n1` spaces, a semicolon
or none, `n2` spaces -/
def queryTail (n1 : Nat) (semi : Bool) (n2 : Nat) : Str :=
  List.replicate n1 ' ' ++ (if semi then [';'] else []) ++ List.replicate n2 ' '

/-- A character that the tail of a query may hold: a space or a semicolon -/
def isJunk (c : Char) : Prop := c = ' ' ∨ c = ';'

/-- The text of a response with the given lines, each ended by a newline -/
def encodeLines : List Str → Str
  | [] => []
  | line :: rest => line ++ '\n' :: encodeLines rest

/-- The state of an Iter at the end of a stream that ended cleanly: no byte is left, no
row has been produced, the scanner has met no error, and the stream has been closed
`closed` times -/
def Iter.Ended (iter : Iter) (closed : Nat) : Prop :=
  iter.isClosed = false ∧ iter.Result = Result.zero ∧
  ∃ sc, iter.scanner = some sc ∧ sc.err = none ∧
    iter.reader = some { data := [], err := none, closed := closed }

/-- A call of one of the setters of the connection configuration -/
inductive Setter where
  /-- The call `conn.Attempts(amount, wait)` -/
  | Attempts (amount wait : Int)
  /-- The call `conn.MaxMemoryUsage(limit)` -/
  | MaxMemoryUsage (limit : Int)
  /-- The call `conn.ConnectTimeout(timeout)` -/
  | ConnectTimeout (timeout : Int)
  /-- The call `conn.SendTimeout(timeout)` -/
  | SendTimeout (timeout : Int)
  /-- The call `conn.ReceiveTimeout(timeout)` -/
  | ReceiveTimeout (timeout : Int)
  deriving DecidableEq, Repr

/-- The connection after a call of a setter -/
def Conn.call (conn : Conn) : Setter → Conn
  | .Attempts amount wait => conn.Attempts amount wait
  | .MaxMemoryUsage limit => conn.MaxMemoryUsage limit
  | .ConnectTimeout timeout => conn.ConnectTimeout timeout
  | .SendTimeout timeout => conn.SendTimeout timeout
  | .ReceiveTimeout timeout => conn.ReceiveTimeout timeout

/-- The connection after a sequence of calls of setters -/
def Conn.calls (conn : Conn) : List Setter → Conn
  | [] => conn
  | s :: rest => (conn.call s).calls rest

/-- Whether a text ends in a FORMAT clause: the word FORMAT, a space, and then letters or
digits up to the end of the text, one at least -/
def endsInFormatClause (b : Str) : Bool :=
  !(b.reverse.takeWhile isAlnum).isEmpty &&
    " TAMROF".toList.isPrefixOf (b.reverse.dropWhile isAlnum)

/-- What the pattern of `Fetch` strips: a FORMAT clause with the given name or none, then
`n1` spaces, a semicolon or none, `n2` spaces -/
def formatTail (name : Option Str) (n1 : Nat) (semi : Bool) (n2 : Nat) : Str :=
  (match name with
    | none => []
    | some a => "FORMAT ".toList ++ a) ++ queryTail n1 semi n2

/-- Whether a text has the strict shape YYYY-MM-DD of a calendar date: four digits, a
dash, the two digits of a month from 01 to 12, a dash, the two digits of a day that the
month has in that year -/
def isStrictDate (s : Str) : Bool :=
  match s with
  | [y1, y2, y3, y4, p1, m1, m2, p2, d1, d2] =>
    [y1, y2, y3, y4, m1, m2, d1, d2].all isDigitChar && p1 == '-' && p2 == '-' &&
    decide (1 ≤ digitsValue [m1, m2] 0 ∧ digitsValue [m1, m2] 0 ≤ 12 ∧
      1 ≤ digitsValue [d1, d2] 0 ∧
      digitsValue [d1, d2] 0 ≤ daysIn (digitsValue [m1, m2] 0) (digitsValue [y1, y2, y3, y4] 0))
  | _ => false

/-- Whether a text has the strict shape of a time of day that follows a date: a space,
then HH:MM:SS with two digits each, the hour below 24, minute and second below 60, and
nothing after the seconds -/
def isStrictClock (s : Str) : Bool :=
  match s with
  | [p0, h1, h2, p1, m1, m2, p2, s1, s2] =>
    [h1, h2, m1, m2, s1, s2].all isDigitChar && p0 == ' ' && p1 == ':' && p2 == ':' &&
    decide (digitsValue [h1, h2] 0 < 24 ∧ digitsValue [m1, m2] 0 < 60 ∧
      digitsValue [s1, s2] 0 < 60)
  | _ => false

/-- Whether a text has the strict shape YYYY-MM-DD HH:MM:SS -/
def isStrictDateTime (s : Str) : Bool :=
  isStrictDate (s.take 10) && isStrictClock (s.drop 10)

/-- The shape of the values that DateTime accepts: a date of the strict shape YYYY-MM-DD,
one space or more, an hour of one or two digits below 24, a colon, the two digits of a
minute below 60, a colon, the two digits of a second below 60, and after them nothing or
a fractional second: a period or a comma, and digits, one at least -/
def DateTimeShape (s : Str) : Prop :=
  ∃ (date spaces hour : Str) (m1 m2 s1 s2 : Char) (frac : Str),
    s = date ++ (' ' :: spaces) ++ hour ++ [':', m1, m2, ':', s1, s2] ++ frac ∧
    isStrictDate date = true ∧ (∀ c ∈ spaces, c = ' ') ∧
    (hour.length = 1 ∨ hour.length = 2) ∧ (hour ++ [m1, m2, s1, s2]).all isDigitChar = true ∧
    digitsValue hour 0 < 24 ∧ digitsValue [m1, m2] 0 < 60 ∧ digitsValue [s1, s2] 0 < 60 ∧
    (frac = [] ∨
      ∃ c ds, frac = c :: ds ∧ (c = '.' ∨ c = ',') ∧ ds ≠ [] ∧ ds.all isDigitChar = true)

/-! # Properties -/

/-! ## Typed accessors: a missing column -/

/-- C4: on a Result whose data has no entry for the column (the zero Result included),
every accessor returns the error of the lookup, and that error is not a conversion error -/
theorem missing_column_is_lookup_error (L : StdLib) (result : Result) (column : Str)
    (h : result = Result.zero ∨ result.data.get column = none) :
    (result.String column = ([], some ("Can't get value by `".toList ++ column ++ "`".toList))
    ∧ result.Bytes column = ([], some ("Can't get value by `".toList ++ column ++ "`".toList))
    ∧ result.Int8 L column = (0, some ("Can't get value by `".toList ++ column ++ "`".toList))
    ∧ result.Int16 L column = (0, some ("Can't get value by `".toList ++ column ++ "`".toList))
    ∧ result.Int32 L column = (0, some ("Can't get value by `".toList ++ column ++ "`".toList))
    ∧ result.Int64 L column = (0, some ("Can't get value by `".toList ++ column ++ "`".toList))
    ∧ result.UInt8 L column = (0, some ("Can't get value by `".toList ++ column ++ "`".toList))
    ∧ result.UInt16 L column = (0, some ("Can't get value by `".toList ++ column ++ "`".toList))
    ∧ result.UInt32 L column = (0, some ("Can't get value by `".toList ++ column ++ "`".toList))
    ∧ result.UInt64 L column = (0, some ("Can't get value by `".toList ++ column ++ "`".toList))
    ∧ result.Float32 L column
        = (L.toFloat32 L.zero64, some ("Can't get value by `".toList ++ column ++ "`".toList))
    ∧ result.Float64 L column
        = (L.zero64, some ("Can't get value by `".toList ++ column ++ "`".toList))
    ∧ result.Date L column
        = (Time.zero, some ("Can't get value by `".toList ++ column ++ "`".toList))
    ∧ result.DateTime L column
        = (Time.zero, some ("Can't get value by `".toList ++ column ++ "`".toList)))
    ∧ ¬ ("Can't convert value".toList <+: "Can't get value by `".toList ++ column ++ "`".toList) := by
  have hget : result.data.get column = none := by
    rcases h with h | h
    · rw [h]; rfl
    · exact h
  have hs : result.String column
      = ([], some ("Can't get value by `".toList ++ column ++ "`".toList)) := by
    simp [Result.String, hget]
  refine ⟨⟨hs, ?_, ?_, ?_, ?_, ?_, ?_, ?_, ?_, ?_, ?_, ?_, ?_, ?_⟩, ?_⟩
  · simp [Result.Bytes, hs]
  · simp [Result.Int8, Result.getInt, hs, wrapInt]
  · simp [Result.Int16, Result.getInt, hs, wrapInt]
  · simp [Result.Int32, Result.getInt, hs, wrapInt]
  · simp [Result.Int64, Result.getInt, hs, wrapInt]
  · simp [Result.UInt8, Result.getUInt, hs]
  · simp [Result.UInt16, Result.getUInt, hs]
  · simp [Result.UInt32, Result.getUInt, hs]
  · simp [Result.UInt64, Result.getUInt, hs]
  · simp [Result.Float32, Result.getFloat, hs]
  · simp [Result.Float64, Result.getFloat, hs]
  · simp [Result.Date, hs]
  · simp [Result.DateTime, hs]
  · simp

theorem missing_column_is_lookup_error_witness :
    ((⟨⟨[("id".toList, "7".toList)]⟩⟩ : Result) = Result.zero ∨
      (⟨⟨[("id".toList, "7".toList)]⟩⟩ : Result).data.get "name".toList = none) ∧
    (⟨⟨[("id".toList, "7".toList)]⟩⟩ : Result).Int8 sampleLib "name".toList
      = (0, some "Can't get value by `name`".toList) :=
  ⟨Or.inr (by decide),
    (missing_column_is_lookup_error sampleLib ⟨⟨[("id".toList, "7".toList)]⟩⟩ "name".toList
      (Or.inr (by decide))).1.2.2.1⟩

/-! ## Typed accessors: integers -/

theorem digitChar_toNat (d : Nat) (h : d < 10) : (digitChar d).toNat = 48 + d := by
  interval_cases d <;> rfl

theorem isDigitChar_iff (c : Char) : isDigitChar c = true ↔ 48 ≤ c.toNat ∧ c.toNat ≤ 57 := by
  simp [isDigitChar]

theorem isDigitChar_digitChar (d : Nat) (h : d < 10) : isDigitChar (digitChar d) = true := by
  rw [isDigitChar_iff, digitChar_toNat d h]; omega

theorem digitsValue_ge (ds : Str) : ∀ n, n ≤ digitsValue ds n := by
  induction ds with
  | nil => intro n; simp [digitsValue]
  | cons c cs ih =>
    intro n
    have := ih (n * 10 + (c.toNat - 48))
    simp only [digitsValue]
    omega

theorem digitsValue_mono (ds : Str) : ∀ m n, m ≤ n → digitsValue ds m ≤ digitsValue ds n := by
  induction ds with
  | nil => intro m n h; simpa [digitsValue] using h
  | cons c cs ih =>
    intro m n h
    simp only [digitsValue]
    apply ih
    omega

/-- The loop of ParseUint computes the value of a text of digits, or reports that the
value exceeds the largest value of the bit size -/
theorem parseUintLoop_spec (maxVal : Nat) (hmax : maxVal < 2 ^ 64) :
    ∀ (ds : Str) (n : Nat), (∀ c ∈ ds, isDigitChar c = true) → n ≤ maxVal →
      parseUintLoop maxVal ds n =
        if digitsValue ds n ≤ maxVal then (digitsValue ds n, none)
        else (maxVal, some NumErrKind.rangeErr) := by
  intro ds
  induction ds with
  | nil => intro n _ hn; simp [parseUintLoop, digitsValue, hn]
  | cons c cs ih =>
    intro n hds hn
    have hc : 48 ≤ c.toNat ∧ c.toNat ≤ 57 := (isDigitChar_iff c).1 (hds c (List.mem_cons_self _ _))
    have hcs : ∀ c ∈ cs, isDigitChar c = true := fun x hx => hds x (List.mem_cons_of_mem _ hx)
    have hge := digitsValue_ge cs (n * 10 + (c.toNat - 48))
    simp only [parseUintLoop, digitsValue, hc, and_self, if_true, maxUint64]
    norm_num only at hmax ⊢
    by_cases h1 : 1844674407370955162 ≤ n
    · have : ¬ digitsValue cs (n * 10 + (c.toNat - 48)) ≤ maxVal := by omega
      simp [h1, this]
    · have h10 : n * 10 % 18446744073709551616 = n * 10 := Nat.mod_eq_of_lt (by omega)
      simp only [ge_iff_le, h1, if_false, h10]
      by_cases h2 : n * 10 + (c.toNat - 48) < 18446744073709551616
      · rw [Nat.mod_eq_of_lt h2]
        by_cases h3 : n * 10 + (c.toNat - 48) ≤ maxVal
        · have : ¬ (n * 10 + (c.toNat - 48) < n * 10 ∨ n * 10 + (c.toNat - 48) > maxVal) := by omega
          rw [if_neg this]
          exact ih _ hcs h3
        · have h4 : (n * 10 + (c.toNat - 48) < n * 10 ∨ n * 10 + (c.toNat - 48) > maxVal) := by omega
          have : ¬ digitsValue cs (n * 10 + (c.toNat - 48)) ≤ maxVal := by omega
          rw [if_pos h4, if_neg this]
      · have h4 : ((n * 10 + (c.toNat - 48)) % 18446744073709551616 < n * 10 ∨
            (n * 10 + (c.toNat - 48)) % 18446744073709551616 > maxVal) := by omega
        have : ¬ digitsValue cs (n * 10 + (c.toNat - 48)) ≤ maxVal := by omega
        rw [if_pos h4, if_neg this]

theorem natDigits_all (fuel : Nat) : ∀ (n : Nat) (acc : Str), (∀ c ∈ acc, isDigitChar c = true) →
    ∀ c ∈ natDigits fuel n acc, isDigitChar c = true := by
  induction fuel with
  | zero => intro n acc h; simpa [natDigits] using h
  | succ fuel ih =>
    intro n acc h
    simp only [natDigits]
    split
    · intro c hc
      rcases List.mem_cons.1 hc with rfl | hc
      · exact isDigitChar_digitChar n (by assumption)
      · exact h c hc
    · apply ih
      intro c hc
      rcases List.mem_cons.1 hc with rfl | hc
      · exact isDigitChar_digitChar _ (Nat.mod_lt _ (by decide))
      · exact h c hc

theorem natDigits_ne_nil (fuel : Nat) : ∀ (n : Nat) (acc : Str), (0 < fuel ∨ acc ≠ []) →
    natDigits fuel n acc ≠ [] := by
  induction fuel with
  | zero => intro n acc h; rcases h with h | h; · omega
            simpa [natDigits] using h
  | succ fuel ih =>
    intro n acc _
    simp only [natDigits]
    split
    · simp
    · exact ih _ _ (Or.inr (by simp))

theorem digitsValue_natDigits (fuel : Nat) : ∀ (n : Nat) (acc : Str), n < fuel →
    digitsValue (natDigits fuel n acc) 0 = digitsValue acc n := by
  induction fuel with
  | zero => intro n acc h; omega
  | succ fuel ih =>
    intro n acc h
    simp only [natDigits]
    split
    · rename_i h10
      simp [digitsValue, digitChar_toNat n h10]
    · rw [ih (n / 10) _ (by omega)]
      simp only [digitsValue]
      rw [digitChar_toNat _ (Nat.mod_lt _ (by decide))]
      congr 1
      omega

theorem formatUint_all (n : Nat) : ∀ c ∈ formatUint n, isDigitChar c = true :=
  natDigits_all _ _ _ (by simp)

theorem formatUint_ne_nil (n : Nat) : formatUint n ≠ [] :=
  natDigits_ne_nil _ _ _ (Or.inl (by omega))

theorem digitsValue_formatUint (n : Nat) : digitsValue (formatUint n) 0 = n := by
  rw [formatUint, digitsValue_natDigits _ _ _ (by omega)]; rfl

theorem wrapInt64_of_lt (x : Int) (h1 : -9223372036854775808 ≤ x) (h2 : x < 9223372036854775808) :
    wrapInt 64 x = x := by
  unfold wrapInt
  norm_num only
  omega

theorem wrapInt64_two_pow : wrapInt 64 9223372036854775808 = -9223372036854775808 := by
  decide

/-- Go's ParseUint on a text of digits: its value if it fits the bit size, else a range error -/
theorem ParseUint_digits (ds : Str) (w : Nat) (hw : 1 ≤ w ∧ w ≤ 64) (hne : ds ≠ [])
    (hds : ∀ c ∈ ds, isDigitChar c = true) :
    ParseUint ds (w : Int) =
      if digitsValue ds 0 ≤ 2 ^ w - 1 then (digitsValue ds 0, none)
      else (2 ^ w - 1, some ⟨"ParseUint".toList, ds, .rangeErr⟩) := by
  have hb1 : ¬ ((w : Int) < 0 ∨ (w : Int) > 64) := by omega
  have hb2 : ¬ ((w : Int) = 0) := by omega
  have hlt : 2 ^ w - 1 < 2 ^ 64 := by
    have : 2 ^ w ≤ 2 ^ 64 := Nat.pow_le_pow_right (by decide) hw.2
    have : 0 < 2 ^ w := Nat.pow_pos (by decide)
    omega
  simp only [ParseUint, hne, if_false, hb1, hb2, Int.toNat_ofNat]
  rw [parseUintLoop_spec _ hlt ds 0 hds (Nat.zero_le _)]
  by_cases h : digitsValue ds 0 ≤ 2 ^ w - 1
  · simp only [h, if_true]
  · simp only [h, if_false]

theorem all_iff (ds : Str) : ds.all isDigitChar = true ↔ ∀ c ∈ ds, isDigitChar c = true := by
  simp [List.all_eq_true]

theorem two_pow_pred (w : Nat) (hw : 2 ≤ w ∧ w ≤ 64) :
    2 ^ w = 2 * 2 ^ (w - 1) ∧ 2 ≤ 2 ^ (w - 1) ∧ 2 ^ (w - 1) ≤ 9223372036854775808 := by
  obtain ⟨k, rfl⟩ : ∃ k, w = k + 1 := ⟨w - 1, by omega⟩
  refine ⟨by simp [pow_succ, Nat.mul_comm], ?_, ?_⟩
  · calc 2 = 2 ^ 1 := rfl
      _ ≤ 2 ^ (k + 1 - 1) := Nat.pow_le_pow_right (by decide) (by omega)
  · calc 2 ^ (k + 1 - 1) ≤ 2 ^ 63 := Nat.pow_le_pow_right (by decide) (by omega)
      _ = 9223372036854775808 := by norm_num

/-- The part of ParseInt after the sign has been picked off -/
theorem ParseInt_core (s ds : Str) (neg : Bool) (w : Nat) (hw : 2 ≤ w ∧ w ≤ 64) (hne : ds ≠ [])
    (hds : ∀ c ∈ ds, isDigitChar c = true) (C : Nat) (hC : C = 2 ^ (w - 1)) :
    parseIntSigned s ds neg (w : Int)
    = if neg then
        (if digitsValue ds 0 ≤ C then (-(digitsValue ds 0 : Int), none)
         else (-(C : Int), some ⟨"ParseInt".toList, s, .rangeErr⟩))
      else
        (if digitsValue ds 0 < C then ((digitsValue ds 0 : Int), none)
         else ((C : Int) - 1, some ⟨"ParseInt".toList, s, .rangeErr⟩)) := by
  obtain ⟨h2, hCge, hCle⟩ := two_pow_pred w hw
  rw [← hC] at h2 hCge hCle
  have hb2 : ¬ ((w : Int) = 0) := by omega
  unfold parseIntSigned
  rw [ParseUint_digits ds w ⟨by omega, hw.2⟩ hne hds]
  simp only [hb2, if_false, Int.toNat_ofNat, ← hC, h2]
  by_cases hfit : digitsValue ds 0 ≤ 2 * C - 1
  · simp only [hfit, if_true]
    cases neg
    · by_cases hlt : digitsValue ds 0 < C
      · have h1 : ¬ (C ≤ digitsValue ds 0) := by omega
        simp [h1, hlt]
        exact wrapInt64_of_lt _ (by omega) (by omega)
      · have h1 : C ≤ digitsValue ds 0 := by omega
        simp [h1, hlt]
    · by_cases hle : digitsValue ds 0 ≤ C
      · have h1 : ¬ (C < digitsValue ds 0) := by omega
        simp [h1, hle]
        by_cases heq : digitsValue ds 0 = 9223372036854775808
        · rw [heq]
          decide
        · rw [wrapInt64_of_lt (digitsValue ds 0 : Int) (by omega) (by omega)]
          exact wrapInt64_of_lt _ (by omega) (by omega)
      · have h1 : C < digitsValue ds 0 := by omega
        simp [h1, hle]
  · simp only [hfit, if_false]
    cases neg
    · have h1 : C ≤ 2 * C - 1 := by omega
      have h3 : ¬ (digitsValue ds 0 < C) := by omega
      simp [h1, h3]
    · have h1 : C < 2 * C - 1 := by omega
      have h3 : ¬ (digitsValue ds 0 ≤ C) := by omega
      simp [h1, h3]

theorem isDigitChar_ne_sign (c : Char) (h : isDigitChar c = true) : c ≠ '-' ∧ c ≠ '+' := by
  rw [isDigitChar_iff] at h
  constructor <;> (rintro rfl; revert h; decide)

/-- Go's ParseInt on a base-10 text: its value if it fits the bit size, else a range error -/
theorem ParseInt_decimal (s : Str) (v : Int) (w : Nat) (hw : 2 ≤ w ∧ w ≤ 64)
    (hv : decimalValue s = some v) :
    ParseInt s (w : Int) =
      if -((2 ^ (w - 1) : Nat) : Int) ≤ v ∧ v < ((2 ^ (w - 1) : Nat) : Int) then (v, none)
      else (if v < 0 then -((2 ^ (w - 1) : Nat) : Int) else ((2 ^ (w - 1) : Nat) : Int) - 1,
        some ⟨"ParseInt".toList, s, .rangeErr⟩) := by
  obtain ⟨-, hCge, -⟩ := two_pow_pred w hw
  generalize hC : 2 ^ (w - 1) = C at hCge ⊢
  cases s with
  | nil => simp [decimalValue] at hv
  | cons c cs =>
    simp only [decimalValue] at hv
    by_cases hm : c = '-'
    · subst hm
      simp only [if_true] at hv
      split at hv
      · rename_i hcs
        injection hv with hv
        have := ParseInt_core ('-' :: cs) cs true w hw hcs.1 ((all_iff cs).1 hcs.2) C hC.symm
        simp only [ParseInt, or_true, if_true, decide_True]
        rw [this]
        simp only [if_true]
        subst hv
        by_cases hle : digitsValue cs 0 ≤ C
        · have : -(C : Int) ≤ -(digitsValue cs 0 : Int) ∧ -(digitsValue cs 0 : Int) < (C : Int) := by
            omega
          simp [hle, this]
        · have : ¬ (-(C : Int) ≤ -(digitsValue cs 0 : Int) ∧ -(digitsValue cs 0 : Int) < (C : Int)) := by
            omega
          have hneg : -(digitsValue cs 0 : Int) < 0 := by omega
          simp only [hle, this, if_false, hneg, if_true]
      · exact absurd hv (by simp)
    · simp only [hm, if_false] at hv
      by_cases hp : c = '+'
      · subst hp
        simp only [if_true] at hv
        split at hv
        · rename_i hcs
          injection hv with hv
          have := ParseInt_core ('+' :: cs) cs false w hw hcs.1 ((all_iff cs).1 hcs.2) C hC.symm
          have hd : decide ('+' = '-') = false := by decide
          simp only [ParseInt, true_or, if_true, hd]
          rw [this]
          subst hv
          by_cases hlt : digitsValue cs 0 < C
          · have : -(C : Int) ≤ (digitsValue cs 0 : Int) ∧ (digitsValue cs 0 : Int) < (C : Int) := by
              omega
            simp [hlt, this]
          · have : ¬ (-(C : Int) ≤ (digitsValue cs 0 : Int) ∧ (digitsValue cs 0 : Int) < (C : Int)) := by
              omega
            have hneg : ¬ ((digitsValue cs 0 : Int) < 0) := by omega
            simp [hlt, this, hneg]
        · exact absurd hv (by simp)
      · simp only [hp, if_false] at hv
        split at hv
        · rename_i hcs
          injection hv with hv
          have := ParseInt_core (c :: cs) (c :: cs) false w hw (by simp) ((all_iff _).1 hcs) C hC.symm
          have hd : decide (c = '-') = false := by simp [hm]
          simp only [ParseInt, hm, hp, or_self, if_false, decide_False]
          rw [this]
          subst hv
          by_cases hlt : digitsValue (c :: cs) 0 < C
          · have : -(C : Int) ≤ (digitsValue (c :: cs) 0 : Int) ∧
                (digitsValue (c :: cs) 0 : Int) < (C : Int) := by omega
            simp [hlt, this]
          · have : ¬ (-(C : Int) ≤ (digitsValue (c :: cs) 0 : Int) ∧
                (digitsValue (c :: cs) 0 : Int) < (C : Int)) := by omega
            have hneg : ¬ ((digitsValue (c :: cs) 0 : Int) < 0) := by omega
            simp [hlt, this, hneg]
        · exact absurd hv (by simp)

theorem decimalValue_formatInt (N : Int) : decimalValue (formatInt N) = some N := by
  unfold formatInt
  by_cases hN : N < 0
  · have h1 := formatUint_ne_nil N.natAbs
    have h2 := (all_iff _).2 (formatUint_all N.natAbs)
    simp only [hN, if_true, decimalValue, ne_eq, h1, not_false_eq_true, h2, and_self,
      digitsValue_formatUint]
    congr 1
    omega
  · have h1 := formatUint_ne_nil N.natAbs
    have h2 := formatUint_all N.natAbs
    have h3 := digitsValue_formatUint N.natAbs
    simp only [hN, if_false]
    cases hf : formatUint N.natAbs with
    | nil => exact absurd hf h1
    | cons c cs =>
      rw [hf] at h2 h3
      have hc := isDigitChar_ne_sign c (h2 c (List.mem_cons_self _ _))
      simp only [decimalValue, hc.1, hc.2, if_false, (all_iff _).2 h2, if_true, h3]
      congr 1
      omega

theorem String_of_get (result : Result) (column value : Str)
    (h : result.data.get column = some value) : result.String column = (value, none) := by
  simp [Result.String, h]

/-- What getInt returns for a column that holds a base-10 text -/
theorem getInt_decimal (L : StdLib) (result : Result) (column s : Str) (v : Int) (w : Nat)
    (hw : 2 ≤ w ∧ w ≤ 64) (hs : result.data.get column = some s)
    (hv : decimalValue s = some v) :
    result.getInt L column (w : Int) =
      if -((2 ^ (w - 1) : Nat) : Int) ≤ v ∧ v < ((2 ^ (w - 1) : Nat) : Int) then (v, none)
      else (0, some ("Can't convert value ".toList ++ s ++ " to int".toList ++ formatInt (w : Int)
        ++ ": ".toList ++ NumError.Error L ⟨"ParseInt".toList, s, .rangeErr⟩)) := by
  simp only [Result.getInt, String_of_get result column s hs, ParseInt_decimal s v w hw hv]
  by_cases h : -((2 ^ (w - 1) : Nat) : Int) ≤ v ∧ v < ((2 ^ (w - 1) : Nat) : Int)
  · simp only [h, and_self, if_true]
  · simp only [h, if_false]

/-- What getUInt returns for a column whose text ParseUint rejects -/
theorem getUInt_error (L : StdLib) (result : Result) (column s : Str) (bitSize : Int)
    (err : NumError) (hs : result.data.get column = some s)
    (he : (ParseUint s bitSize).2 = some err) :
    result.getUInt L column bitSize =
      (0, some ("Can't convert value ".toList ++ s ++ " to uint".toList ++ formatInt bitSize
        ++ ": ".toList ++ err.Error L)) := by
  simp only [Result.getUInt, String_of_get result column s hs]
  cases hp : ParseUint s bitSize with
  | mk n e =>
    rw [hp] at he
    simp only at he
    subst he
    rfl

/-- What getUInt returns for a column whose text ParseUint accepts -/
theorem getUInt_ok (L : StdLib) (result : Result) (column s : Str) (bitSize : Int) (n : Nat)
    (hs : result.data.get column = some s) (hp : ParseUint s bitSize = (n, none)) :
    result.getUInt L column bitSize = (n, none) := by
  simp only [Result.getUInt, String_of_get result column s hs, hp]

/-- ParseUint rejects a base-10 text whose value is negative or exceeds the bit size -/
theorem ParseUint_rejects (s : Str) (v : Int) (w : Nat) (hw : 1 ≤ w ∧ w ≤ 64)
    (hv : decimalValue s = some v) (hout : v < 0 ∨ ((2 ^ w - 1 : Nat) : Int) < v) :
    ∃ err, (ParseUint s (w : Int)).2 = some err := by
  have hb1 : ¬ ((w : Int) < 0 ∨ (w : Int) > 64) := by omega
  cases s with
  | nil => simp [decimalValue] at hv
  | cons c cs =>
    simp only [decimalValue] at hv
    by_cases hsign : c = '-' ∨ c = '+'
    · have hc : ¬ (48 ≤ c.toNat ∧ c.toNat ≤ 57) := by
        rcases hsign with rfl | rfl <;> decide
      refine ⟨⟨"ParseUint".toList, c :: cs, .syntaxErr⟩, ?_⟩
      simp only [ParseUint, reduceCtorEq, if_false, hb1, parseUintLoop, hc]
    · push_neg at hsign
      simp only [hsign.1, hsign.2, if_false] at hv
      split at hv
      · rename_i hall
        injection hv with hv
        rw [ParseUint_digits (c :: cs) w hw (by simp) ((all_iff _).1 hall)]
        have : ¬ digitsValue (c :: cs) 0 ≤ 2 ^ w - 1 := by omega
        simp [this]
      · exact absurd hv (by simp)

theorem wrapInt_of_mem (w : Nat) (v : Int) (hw : w = 8 ∨ w = 16 ∨ w = 32 ∨ w = 64)
    (h : -((2 ^ (w - 1) : Nat) : Int) ≤ v ∧ v < ((2 ^ (w - 1) : Nat) : Int)) : wrapInt w v = v := by
  unfold wrapInt
  rcases hw with rfl | rfl | rfl | rfl <;> norm_num at h ⊢ <;> omega

theorem getInt_round_trip (L : StdLib) (result : Result) (column : Str) (N : Int) (w : Nat)
    (hw : w = 8 ∨ w = 16 ∨ w = 32 ∨ w = 64)
    (h : result.data.get column = some (formatInt N))
    (hN : -((2 ^ (w - 1) : Nat) : Int) ≤ N ∧ N < ((2 ^ (w - 1) : Nat) : Int)) :
    result.getInt L column (w : Int) = (N, none) ∧ wrapInt w N = N := by
  have hw2 : 2 ≤ w ∧ w ≤ 64 := by rcases hw with rfl | rfl | rfl | rfl <;> decide
  rw [getInt_decimal L result column _ N w hw2 h (decimalValue_formatInt N), if_pos hN]
  exact ⟨rfl, wrapInt_of_mem w N hw hN⟩

theorem getUInt_round_trip (L : StdLib) (result : Result) (column : Str) (N : Int) (w : Nat)
    (hw : 1 ≤ w ∧ w ≤ 64)
    (h : result.data.get column = some (formatInt N))
    (hN : 0 ≤ N ∧ N ≤ ((2 ^ w - 1 : Nat) : Int)) :
    result.getUInt L column (w : Int) = (N.toNat, none) ∧ N.toNat % 2 ^ w = N.toNat := by
  have hf : formatInt N = formatUint N.toNat := by
    have : N.natAbs = N.toNat := by omega
    simp [formatInt, not_lt.2 hN.1, this]
  rw [hf] at h
  have hp : ParseUint (formatUint N.toNat) (w : Int) = (N.toNat, none) := by
    rw [ParseUint_digits _ w hw (formatUint_ne_nil _) (formatUint_all _), digitsValue_formatUint,
      if_pos (by omega)]
  refine ⟨getUInt_ok L result column _ _ _ h hp, Nat.mod_eq_of_lt ?_⟩
  have : 0 < 2 ^ w := Nat.pow_pos (by decide)
  omega

/-- C5: a column that holds the base-10 text of an integer N is read back as N, with a nil
error, by every signed accessor whose range holds N and by every unsigned accessor whose
range holds N -/
theorem numeric_round_trip (L : StdLib) (result : Result) (column : Str) (N : Int)
    (h : result.data.get column = some (formatInt N)) :
    (-2 ^ 7 ≤ N ∧ N ≤ 2 ^ 7 - 1 → result.Int8 L column = (N, none)) ∧
    (-2 ^ 15 ≤ N ∧ N ≤ 2 ^ 15 - 1 → result.Int16 L column = (N, none)) ∧
    (-2 ^ 31 ≤ N ∧ N ≤ 2 ^ 31 - 1 → result.Int32 L column = (N, none)) ∧
    (-2 ^ 63 ≤ N ∧ N ≤ 2 ^ 63 - 1 → result.Int64 L column = (N, none)) ∧
    (0 ≤ N ∧ N ≤ 2 ^ 8 - 1 → result.UInt8 L column = (N.toNat, none)) ∧
    (0 ≤ N ∧ N ≤ 2 ^ 16 - 1 → result.UInt16 L column = (N.toNat, none)) ∧
    (0 ≤ N ∧ N ≤ 2 ^ 32 - 1 → result.UInt32 L column = (N.toNat, none)) ∧
    (0 ≤ N ∧ N ≤ 2 ^ 64 - 1 → result.UInt64 L column = (N.toNat, none)) := by
  refine ⟨?_, ?_, ?_, ?_, ?_, ?_, ?_, ?_⟩
  · intro hN
    obtain ⟨h1, h2⟩ := getInt_round_trip L result column N 8 (by decide) h
      (by norm_num at hN ⊢; omega)
    have h1' : result.getInt L column 8 = (N, none) := h1
    simp only [Result.Int8, h1', h2]
  · intro hN
    obtain ⟨h1, h2⟩ := getInt_round_trip L result column N 16 (by decide) h
      (by norm_num at hN ⊢; omega)
    have h1' : result.getInt L column 16 = (N, none) := h1
    simp only [Result.Int16, h1', h2]
  · intro hN
    obtain ⟨h1, h2⟩ := getInt_round_trip L result column N 32 (by decide) h
      (by norm_num at hN ⊢; omega)
    have h1' : result.getInt L column 32 = (N, none) := h1
    simp only [Result.Int32, h1', h2]
  · intro hN
    obtain ⟨h1, h2⟩ := getInt_round_trip L result column N 64 (by decide) h
      (by norm_num at hN ⊢; omega)
    have h1' : result.getInt L column 64 = (N, none) := h1
    simp only [Result.Int64, h1', h2]
  · intro hN
    obtain ⟨h1, h2⟩ := getUInt_round_trip L result column N 8 (by decide) h
      (by norm_num at hN ⊢; omega)
    have h1' : result.getUInt L column 8 = (N.toNat, none) := h1
    simp only [Result.UInt8, h1', h2]
  · intro hN
    obtain ⟨h1, h2⟩ := getUInt_round_trip L result column N 16 (by decide) h
      (by norm_num at hN ⊢; omega)
    have h1' : result.getUInt L column 16 = (N.toNat, none) := h1
    simp only [Result.UInt16, h1', h2]
  · intro hN
    obtain ⟨h1, h2⟩ := getUInt_round_trip L result column N 32 (by decide) h
      (by norm_num at hN ⊢; omega)
    have h1' : result.getUInt L column 32 = (N.toNat, none) := h1
    simp only [Result.UInt32, h1', h2]
  · intro hN
    obtain ⟨h1, h2⟩ := getUInt_round_trip L result column N 64 (by decide) h
      (by norm_num at hN ⊢; omega)
    have h1' : result.getUInt L column 64 = (N.toNat, none) := h1
    simp only [Result.UInt64, h1', h2]

theorem numeric_round_trip_witness :
    (⟨⟨[("n".toList, "-128".toList)]⟩⟩ : Result).data.get "n".toList = some (formatInt (-128)) ∧
    (⟨⟨[("n".toList, "-128".toList)]⟩⟩ : Result).Int8 sampleLib "n".toList = (-128, none) :=
  ⟨by decide, (numeric_round_trip sampleLib ⟨⟨[("n".toList, "-128".toList)]⟩⟩ "n".toList (-128)
    (by decide)).1 (by decide)⟩

theorem getInt_overflow (L : StdLib) (result : Result) (column s : Str) (v : Int) (w : Nat)
    (hw : w = 8 ∨ w = 16 ∨ w = 32 ∨ w = 64) (hs : result.data.get column = some s)
    (hv : decimalValue s = some v)
    (hout : v < -((2 ^ (w - 1) : Nat) : Int) ∨ ((2 ^ (w - 1) : Nat) : Int) - 1 < v) :
    ∃ rest, result.getInt L column (w : Int) =
      (0, some ("Can't convert value ".toList ++ s ++ (" to int".toList ++ formatInt (w : Int))
        ++ rest)) := by
  have hw2 : 2 ≤ w ∧ w ≤ 64 := by rcases hw with rfl | rfl | rfl | rfl <;> decide
  rw [getInt_decimal L result column s v w hw2 hs hv, if_neg (by omega)]
  exact ⟨": ".toList ++ NumError.Error L ⟨"ParseInt".toList, s, .rangeErr⟩,
    by simp only [List.append_assoc]⟩

theorem getUInt_overflow (L : StdLib) (result : Result) (column s : Str) (v : Int) (w : Nat)
    (hw : 1 ≤ w ∧ w ≤ 64) (hs : result.data.get column = some s)
    (hv : decimalValue s = some v) (hout : v < 0 ∨ ((2 ^ w - 1 : Nat) : Int) < v) :
    ∃ rest, result.getUInt L column (w : Int) =
      (0, some ("Can't convert value ".toList ++ s ++ (" to uint".toList ++ formatInt (w : Int))
        ++ rest)) := by
  obtain ⟨err, he⟩ := ParseUint_rejects s v w hw hv hout
  rw [getUInt_error L result column s _ err hs he]
  exact ⟨": ".toList ++ err.Error L, by simp only [List.append_assoc]⟩

/-- C6: for a column that holds a base-10 text whose value lies outside the range of the
requested width, the accessor returns the number 0 and an error that starts with
"Can't convert value", the text itself, and the name of the requested type -/
theorem overflow_is_conversion_error (L : StdLib) (result : Result) (column s : Str) (v : Int)
    (hs : result.data.get column = some s) (hv : decimalValue s = some v) :
    (v < -2 ^ 7 ∨ 2 ^ 7 - 1 < v → ∃ e, result.Int8 L column = (0, some e) ∧
      "Can't convert value ".toList ++ s ++ " to int8".toList <+: e) ∧
    (v < -2 ^ 15 ∨ 2 ^ 15 - 1 < v → ∃ e, result.Int16 L column = (0, some e) ∧
      "Can't convert value ".toList ++ s ++ " to int16".toList <+: e) ∧
    (v < -2 ^ 31 ∨ 2 ^ 31 - 1 < v → ∃ e, result.Int32 L column = (0, some e) ∧
      "Can't convert value ".toList ++ s ++ " to int32".toList <+: e) ∧
    (v < -2 ^ 63 ∨ 2 ^ 63 - 1 < v → ∃ e, result.Int64 L column = (0, some e) ∧
      "Can't convert value ".toList ++ s ++ " to int64".toList <+: e) ∧
    (v < 0 ∨ 2 ^ 8 - 1 < v → ∃ e, result.UInt8 L column = (0, some e) ∧
      "Can't convert value ".toList ++ s ++ " to uint8".toList <+: e) ∧
    (v < 0 ∨ 2 ^ 16 - 1 < v → ∃ e, result.UInt16 L column = (0, some e) ∧
      "Can't convert value ".toList ++ s ++ " to uint16".toList <+: e) ∧
    (v < 0 ∨ 2 ^ 32 - 1 < v → ∃ e, result.UInt32 L column = (0, some e) ∧
      "Can't convert value ".toList ++ s ++ " to uint32".toList <+: e) ∧
    (v < 0 ∨ 2 ^ 64 - 1 < v → ∃ e, result.UInt64 L column = (0, some e) ∧
      "Can't convert value ".toList ++ s ++ " to uint64".toList <+: e) := by
  refine ⟨?_, ?_, ?_, ?_, ?_, ?_, ?_, ?_⟩
  · intro hout
    obtain ⟨rest, h1⟩ := getInt_overflow L result column s v 8 (by decide) hs hv
      (by norm_num at hout ⊢; omega)
    have h1' : result.getInt L column 8 = _ := h1
    exact ⟨_, by simp only [Result.Int8, h1']; rfl, ⟨rest, rfl⟩⟩
  · intro hout
    obtain ⟨rest, h1⟩ := getInt_overflow L result column s v 16 (by decide) hs hv
      (by norm_num at hout ⊢; omega)
    have h1' : result.getInt L column 16 = _ := h1
    exact ⟨_, by simp only [Result.Int16, h1']; rfl, ⟨rest, rfl⟩⟩
  · intro hout
    obtain ⟨rest, h1⟩ := getInt_overflow L result column s v 32 (by decide) hs hv
      (by norm_num at hout ⊢; omega)
    have h1' : result.getInt L column 32 = _ := h1
    exact ⟨_, by simp only [Result.Int32, h1']; rfl, ⟨rest, rfl⟩⟩
  · intro hout
    obtain ⟨rest, h1⟩ := getInt_overflow L result column s v 64 (by decide) hs hv
      (by norm_num at hout ⊢; omega)
    have h1' : result.getInt L column 64 = _ := h1
    exact ⟨_, by simp only [Result.Int64, h1']; rfl, ⟨rest, rfl⟩⟩
  · intro hout
    obtain ⟨rest, h1⟩ := getUInt_overflow L result column s v 8 (by decide) hs hv
      (by norm_num at hout ⊢; omega)
    have h1' : result.getUInt L column 8 = _ := h1
    exact ⟨_, by simp only [Result.UInt8, h1']; rfl, ⟨rest, rfl⟩⟩
  · intro hout
    obtain ⟨rest, h1⟩ := getUInt_overflow L result column s v 16 (by decide) hs hv
      (by norm_num at hout ⊢; omega)
    have h1' : result.getUInt L column 16 = _ := h1
    exact ⟨_, by simp only [Result.UInt16, h1']; rfl, ⟨rest, rfl⟩⟩
  · intro hout
    obtain ⟨rest, h1⟩ := getUInt_overflow L result column s v 32 (by decide) hs hv
      (by norm_num at hout ⊢; omega)
    have h1' : result.getUInt L column 32 = _ := h1
    exact ⟨_, by simp only [Result.UInt32, h1']; rfl, ⟨rest, rfl⟩⟩
  · intro hout
    obtain ⟨rest, h1⟩ := getUInt_overflow L result column s v 64 (by decide) hs hv
      (by norm_num at hout ⊢; omega)
    have h1' : result.getUInt L column 64 = _ := h1
    exact ⟨_, by simp only [Result.UInt64, h1']; rfl, ⟨rest, rfl⟩⟩

theorem overflow_is_conversion_error_witness :
    ((⟨⟨[("n".toList, "300".toList)]⟩⟩ : Result).data.get "n".toList = some "300".toList ∧
      decimalValue "300".toList = some 300 ∧ ((300 : Int) < 0 ∨ 2 ^ 8 - 1 < (300 : Int))) ∧
    ∃ e, (⟨⟨[("n".toList, "300".toList)]⟩⟩ : Result).UInt8 sampleLib "n".toList = (0, some e) ∧
      "Can't convert value ".toList ++ "300".toList ++ " to uint8".toList <+: e :=
  ⟨⟨by decide, by decide, by decide⟩,
    (overflow_is_conversion_error sampleLib ⟨⟨[("n".toList, "300".toList)]⟩⟩ "n".toList
      "300".toList 300 (by decide) (by decide)).2.2.2.2.1 (by decide)⟩

/-! ## Query executor: the retry loop -/

/-- The retry loop on a transport that fails `k` more times and then answers 200 -/
theorem doQueryLoop_retry (net : Transport) (client : Client) (req : Request) (n : Nat)
    (body : ReadCloser)
    (hfail : ∀ i client req, i + 1 < n → ∃ e, net i client req = .failure e)
    (hok : ∀ client req, net (n - 1) client req = .response ⟨200, body⟩) :
    ∀ (k : Nat) (st : LoopState), st.isDone = false → st.sent.length + k + 1 = n →
      st.attempts = (st.sent.length : Int) →
      ∃ st1, doQueryLoop net client req (n : Int) (k + 1) st = (.ok st1, st1.sent) ∧
        st1.sent.length = n ∧ st1.err = none ∧ st1.res = some ⟨200, body⟩ := by
  intro k
  induction k with
  | zero =>
    intro st hd hlen hatt
    have hlt : st.attempts < (n : Int) := by omega
    have hidx : st.sent.length = n - 1 := by omega
    have hn := hok client req
    rw [← hidx] at hn
    refine ⟨⟨true, st.attempts + 1, some ⟨200, body⟩, none, st.sent ++ [req]⟩, ?_, ?_, rfl, rfl⟩
    · simp [doQueryLoop, doQueryStep, hd, hlt, hn]
    · simp; omega
  | succ k ih =>
    intro st hd hlen hatt
    have hlt : st.attempts < (n : Int) := by omega
    obtain ⟨e, he⟩ := hfail st.sent.length client req (by omega)
    obtain ⟨st1, h1, h2⟩ := ih ⟨st.isDone, st.attempts + 1, none, some e, st.sent ++ [req]⟩ hd
      (by simp; omega) (by simp; omega)
    refine ⟨st1, ?_, h2⟩
    rw [← h1]
    simp [doQueryLoop, doQueryStep, hd, hlt, he]

/-- C2: when the transport fails on the first n-1 sends and answers the n-th send with the
status 200, doQuery with n attempts sends exactly n requests and returns the body of that
response with a nil error -/
theorem retry_until_success (L : StdLib) (net : Transport) (conn : Conn) (query : Str) (n : Nat)
    (body : ReadCloser) (hn : 1 ≤ n) (hattempts : conn.attemptsAmount = (n : Int))
    (hurl : L.urlError (conn.requestURL L) = none)
    (hfail : ∀ i client req, i + 1 < n → ∃ e, net i client req = .failure e)
    (hok : ∀ client req, net (n - 1) client req = .response ⟨200, body⟩) :
    (conn.doQuery L net query).sent.length = n ∧
    (conn.doQuery L net query).ret = .ok (some body, none) := by
  have hfq : conn.getFQDN.2.attemptsAmount = (n : Int) := by
    unfold Conn.getFQDN
    split <;> simpa using hattempts
  obtain ⟨k, rfl⟩ : ∃ k, n = k + 1 := ⟨n - 1, by omega⟩
  simp only [Conn.doQuery, hurl, hfq, Int.toNat_ofNat]
  obtain ⟨st1, h1, h2, h3, h4⟩ := doQueryLoop_retry net _ _ (k + 1) body hfail hok k {} rfl
    (by simp) (by simp)
  rw [h1]
  simp [h3, h4, h2]

theorem retry_until_success_witness :
    (1 ≤ 3 ∧ (sampleConn.Attempts 3 0).attemptsAmount = ((3 : Nat) : Int) ∧
      sampleLib.urlError ((sampleConn.Attempts 3 0).requestURL sampleLib) = none ∧
      (∀ i client req, i + 1 < 3 → ∃ e,
        scripted [.failure "connection refused".toList, .failure "i/o timeout".toList]
          (.response ⟨200, bodyOf "a\n1\n".toList⟩) i client req = .failure e) ∧
      (∀ client req,
        scripted [.failure "connection refused".toList, .failure "i/o timeout".toList]
          (.response ⟨200, bodyOf "a\n1\n".toList⟩) (3 - 1) client req
          = .response ⟨200, bodyOf "a\n1\n".toList⟩)) ∧
    ((sampleConn.Attempts 3 0).doQuery sampleLib
      (scripted [.failure "connection refused".toList, .failure "i/o timeout".toList]
        (.response ⟨200, bodyOf "a\n1\n".toList⟩)) "SELECT 1".toList).sent.length = 3 ∧
    ((sampleConn.Attempts 3 0).doQuery sampleLib
      (scripted [.failure "connection refused".toList, .failure "i/o timeout".toList]
        (.response ⟨200, bodyOf "a\n1\n".toList⟩)) "SELECT 1".toList).ret
      = .ok (some (bodyOf "a\n1\n".toList), none) :=
  ⟨⟨by decide, rfl, rfl,
      fun i _ _ hi => by
        have : i = 0 ∨ i = 1 := by omega
        rcases this with rfl | rfl
        · exact ⟨_, rfl⟩
        · exact ⟨_, rfl⟩,
      fun _ _ => rfl⟩,
    retry_until_success sampleLib _ (sampleConn.Attempts 3 0) "SELECT 1".toList 3
      (bodyOf "a\n1\n".toList) (by decide) rfl rfl
      (fun i _ _ hi => by
        have : i = 0 ∨ i = 1 := by omega
        rcases this with rfl | rfl
        · exact ⟨_, rfl⟩
        · exact ⟨_, rfl⟩)
      (fun _ _ => rfl)⟩

theorem doQueryStep_sent (net : Transport) (client : Client) (req : Request)
    (st st1 : LoopState) (h : doQueryStep net client req st = .ok st1) :
    st1.sent = st.sent ++ [req] := by
  unfold doQueryStep at h
  simp only at h
  split at h
  · injection h with h; subst h; rfl
  · split at h
    · simp only [ReadAll] at h
      split at h
      · exact absurd h (by simp)
      · split at h
        · split at h
          · exact absurd h (by simp)
          · injection h with h; subst h; rfl
        · injection h with h; subst h; rfl
    · injection h with h; subst h; rfl

/-- The requests sent by the retry loop include those sent before it -/
theorem doQueryLoop_sent_le (net : Transport) (client : Client) (req : Request) (amount : Int) :
    ∀ (fuel : Nat) (st : LoopState),
      st.sent.length ≤ (doQueryLoop net client req amount fuel st).2.length := by
  intro fuel
  induction fuel with
  | zero => intro st; simp [doQueryLoop]
  | succ fuel ih =>
    intro st
    simp only [doQueryLoop]
    split
    · cases hstep : doQueryStep net client req st with
      | error p => simp
      | ok st1 =>
        have := ih st1
        rw [doQueryStep_sent net client req st st1 hstep] at this
        simp only [List.length_append] at this
        simp only
        omega
    · simp

theorem getFQDN_attemptsAmount (conn : Conn) :
    conn.getFQDN.2.attemptsAmount = conn.attemptsAmount := by
  unfold Conn.getFQDN
  split <;> rfl

/-- The requests that doQuery has sent are those of its retry loop -/
theorem doQuery_sent (L : StdLib) (net : Transport) (conn : Conn) (query : Str)
    (hurl : L.urlError (conn.requestURL L) = none) :
    (conn.doQuery L net query).sent =
      (doQueryLoop net conn.client (newRequest (conn.requestURL L) query) conn.attemptsAmount
        conn.attemptsAmount.toNat {}).2 := by
  simp only [Conn.doQuery, hurl, getFQDN_attemptsAmount]
  change (match doQueryLoop net conn.client (newRequest (conn.requestURL L) query) conn.attemptsAmount
      conn.attemptsAmount.toNat {} with
    | (.error p, sent) => (⟨conn.getFQDN.2, sent, .error p⟩ : Run (Option ReadCloser × Option Str))
    | (.ok st, sent) => _).sent = _
  rcases doQueryLoop net conn.client (newRequest (conn.requestURL L) query) conn.attemptsAmount
      conn.attemptsAmount.toNat {} with ⟨r, sent⟩
  cases r with
  | error p => rfl
  | ok st =>
    simp only
    split
    · rfl
    · split
      · rfl
      · split <;> rfl

/-- C3 counterexample: with two attempts, a first response of status 500 is followed by a
second send, and doQuery returns the body of the second response with a nil error -/
theorem non200_is_followed_by_second_attempt :
    ((sampleConn.Attempts 2 0).doQuery sampleLib
      (scripted [.response ⟨500, bodyOf "Code: 62. Syntax error".toList⟩]
        (.response ⟨200, bodyOf "a\n1\n".toList⟩)) "SELECT 1".toList).sent.length = 2 ∧
    ((sampleConn.Attempts 2 0).doQuery sampleLib
      (scripted [.response ⟨500, bodyOf "Code: 62. Syntax error".toList⟩]
        (.response ⟨200, bodyOf "a\n1\n".toList⟩)) "SELECT 1".toList).ret
      = .ok (some (bodyOf "a\n1\n".toList), none) :=
  ⟨rfl, rfl⟩

/-! ## Row decoder: closing the stream -/

/-- C9: on the Iter that Fetch opens over the response a, b / 1, x, two calls of Close in
succession invoke Close of the underlying stream twice: the count goes from 0 to 1 to 2 -/
theorem close_twice_closes_stream_twice :
    (do
      let (iter, _) ← (sampleConn.Fetch sampleLib (okTransport (bodyOf "a\tb\n1\tx\n".toList))
        "SELECT a, b FROM t".toList).ret
      let it1 ← iter.Close
      let it2 ← it1.Close
      pure (iter.isClosed, iter.reader.map (fun r => r.closed),
        it1.isClosed, it1.reader.map (fun r => r.closed),
        it2.isClosed, it2.reader.map (fun r => r.closed)))
      = (.ok (false, some 0, false, some 1, false, some 2) : Except Panic _) := by
  rfl

/-- C8: FetchOne over a response that holds the header line only, and over an empty
response, returns the zero Result with a nil error, and Close of the underlying stream
has been invoked twice when it returns -/
theorem fetchOne_empty_closes_stream_twice :
    ((sampleConn.FetchOne sampleLib (okTransport (bodyOf "a\tb\n".toList))
        "SELECT a, b FROM t".toList).run.ret = .ok (Result.zero, none) ∧
      (sampleConn.FetchOne sampleLib (okTransport (bodyOf "a\tb\n".toList))
        "SELECT a, b FROM t".toList).reader.map (fun r => r.closed) = some 2) ∧
    ((sampleConn.FetchOne sampleLib (okTransport (bodyOf []))
        "SELECT a, b FROM t".toList).run.ret = .ok (Result.zero, none) ∧
      (sampleConn.FetchOne sampleLib (okTransport (bodyOf []))
        "SELECT a, b FROM t".toList).reader.map (fun r => r.closed) = some 2) :=
  ⟨⟨rfl, rfl⟩, ⟨rfl, rfl⟩⟩

/-- C10: on a stream that delivers the header line a and then fails with a read error,
the first call of Next returns false and Err is that error, but Close of the underlying
stream has not been invoked; on the same bytes ending with a clean end of input, Next
returns false, Err is nil and the stream has been closed once -/
theorem next_read_error_leaves_stream_open :
    (do
      let (iter, _) ← (sampleConn.Fetch sampleLib
        (okTransport { data := "a\n".toList, err := some "unexpected EOF".toList })
        "SELECT a FROM t".toList).ret
      let (next, it1) ← iter.Next
      pure (next, it1.Err, it1.reader.map (fun r => r.closed)))
      = (.ok (false, some "unexpected EOF".toList, some 0) : Except Panic _) ∧
    (do
      let (iter, _) ← (sampleConn.Fetch sampleLib (okTransport (bodyOf "a\n".toList))
        "SELECT a FROM t".toList).ret
      let (next, it1) ← iter.Next
      pure (next, it1.Err, it1.reader.map (fun r => r.closed)))
      = (.ok (false, none, some 1) : Except Panic _) :=
  ⟨rfl, rfl⟩

/-! ## Row decoder: rows in stream order -/

theorem lookup_assign_self {β : Type} (es : List (Str × β)) (k : Str) (v : β) :
    lookupEntry (assignEntry es k v) k = some v := by
  induction es with
  | nil => simp [assignEntry, lookupEntry]
  | cons e es ih =>
    obtain ⟨k1, v1⟩ := e
    by_cases h : k1 = k
    · simp [assignEntry, lookupEntry, h]
    · simp [assignEntry, lookupEntry, h, ih]

theorem lookup_assign_ne {β : Type} (es : List (Str × β)) (k k2 : Str) (v : β) (hne : k ≠ k2) :
    lookupEntry (assignEntry es k v) k2 = lookupEntry es k2 := by
  induction es with
  | nil => simp [assignEntry, lookupEntry, hne]
  | cons e es ih =>
    obtain ⟨k1, v1⟩ := e
    by_cases h : k1 = k
    · subst h
      simp [assignEntry, lookupEntry, hne]
    · by_cases h2 : k1 = k2
      · subst h2
        simp [assignEntry, lookupEntry, h]
      · simp [assignEntry, lookupEntry, h, h2, ih]

theorem GoMap.get_set_self {β : Type} (m : GoMap β) (k : Str) (v : β) :
    (m.set k v).get k = some v := lookup_assign_self _ _ _

theorem GoMap.get_set_ne {β : Type} (m : GoMap β) (k k2 : Str) (v : β) (hne : k ≠ k2) :
    (m.set k v).get k2 = m.get k2 := lookup_assign_ne _ _ _ _ hne

theorem assign_of_not_mem {β : Type} (es : List (Str × β)) (k : Str) (v : β)
    (h : k ∉ es.map Prod.fst) : assignEntry es k v = es ++ [(k, v)] := by
  induction es with
  | nil => rfl
  | cons e es ih =>
    obtain ⟨k1, v1⟩ := e
    simp only [List.map_cons, List.mem_cons, not_or] at h
    have h1 : ¬ k1 = k := fun h' => h.1 h'.symm
    simp [assignEntry, h1, ih h.2]

theorem indexed_keys (cols : List Str) : ∀ i, (indexed cols i).map Prod.fst = cols := by
  induction cols with
  | nil => intro i; rfl
  | cons c cs ih => intro i; simp [indexed, ih]

/-- The column index that Fetch builds from a header of distinct names: the name number
`j` is mapped to `j` -/
theorem loadColumns_indexed (cols : List Str) : ∀ (i : Nat) (es : List (Str × Nat)),
    cols.Nodup → (∀ c ∈ cols, c ∉ es.map Prod.fst) →
    loadColumns cols i ⟨es⟩ = ⟨es ++ indexed cols i⟩ := by
  induction cols with
  | nil => intro i es _ _; simp [loadColumns, indexed]
  | cons c cs ih =>
    intro i es hnd hdis
    have hc : c ∉ es.map Prod.fst := hdis c (List.mem_cons_self _ _)
    rw [List.nodup_cons] at hnd
    simp only [loadColumns, GoMap.set, assign_of_not_mem es c i hc]
    rw [ih (i + 1) (es ++ [(c, i)]) hnd.2]
    · simp [indexed]
    · intro c1 hc1
      simp only [List.map_append, List.map_cons, List.map_nil, List.mem_append,
        List.mem_singleton, not_or]
      refine ⟨hdis c1 (List.mem_cons_of_mem _ hc1), ?_⟩
      rintro rfl
      exact hnd.1 hc1

/-- The loop of Next over the column index of a header of distinct names: each column gets
the field at its position, when the row has a field for each column -/
theorem loadRow_indexed (fields : List Str) (cols : List Str) :
    ∀ (i : Nat) (data : GoMap Str), cols.Nodup → i + cols.length ≤ fields.length →
    ∃ data1, loadRow fields (indexed cols i) data = .ok data1 ∧
      (∀ j c, cols.get? j = some c →
        ∃ field, fields.get? (i + j) = some field ∧ data1.get c = some field) ∧
      (∀ c, c ∉ cols → data1.get c = data.get c) := by
  induction cols with
  | nil =>
    intro i data _ _
    exact ⟨data, rfl, by simp, fun _ _ => rfl⟩
  | cons c cs ih =>
    intro i data hnd hlen
    rw [List.nodup_cons] at hnd
    simp only [List.length_cons] at hlen
    obtain ⟨f, hf⟩ : ∃ f, fields.get? i = some f := by
      have : i < fields.length := by omega
      exact ⟨fields.get ⟨i, this⟩, List.get?_eq_get this⟩
    obtain ⟨data1, h1, h2, h3⟩ := ih (i + 1) (data.set c f) hnd.2 (by omega)
    refine ⟨data1, ?_, ?_, ?_⟩
    · simp only [indexed, loadRow, hf, h1]
    · intro j c1 hj
      cases j with
      | zero =>
        simp only [List.get?_cons_zero, Option.some.injEq] at hj
        subst hj
        refine ⟨f, by simpa using hf, ?_⟩
        rw [h3 c hnd.1, GoMap.get_set_self]
      | succ j =>
        simp only [List.get?_cons_succ] at hj
        obtain ⟨field, hfield, hget⟩ := h2 j c1 hj
        exact ⟨field, by rw [← hfield]; congr 1; omega, hget⟩
    · intro c1 hc1
      simp only [List.mem_cons, not_or] at hc1
      rw [h3 c1 hc1.2, GoMap.get_set_ne _ _ _ _ (fun h => hc1.1 h.symm)]

theorem rawLines_eq_nil (d : Str) : rawLines d = [] ↔ d = [] := by
  cases d with
  | nil => simp [rawLines]
  | cons c cs =>
    simp only [rawLines]
    split
    · simp
    · split <;> simp

theorem scanLines_eq_nil (d : Str) : scanLines d = [] ↔ d = [] := by
  simp [scanLines, rawLines_eq_nil]

/-- The first line that cutLine cuts off is the first of the lines of the text -/
theorem rawLines_cutLine (d : Str) (hd : d ≠ []) :
    (∀ line rest, cutLine d = (line, some rest) → rawLines d = line :: rawLines rest) ∧
    (∀ line, cutLine d = (line, none) → rawLines d = [line]) := by
  induction d with
  | nil => exact absurd rfl hd
  | cons c cs ih =>
    by_cases hc : c = '\n'
    · subst hc
      simp [cutLine, rawLines]
    · by_cases hcs : cs = []
      · subst hcs
        simp [cutLine, rawLines, hc]
      · obtain ⟨ih1, ih2⟩ := ih hcs
        rcases hcut : cutLine cs with ⟨l, r⟩
        cases r with
        | none =>
          have := ih2 l hcut
          simp [cutLine, rawLines, hc, hcut, this]
        | some rest =>
          have := ih1 l rest hcut
          simp [cutLine, rawLines, hc, hcut, this]

theorem byteLen_replicate (n : Nat) (c : Char) (h : utf8Size c = 1) :
    byteLen (List.replicate n c) = n := by
  induction n with
  | zero => rfl
  | succ n ih =>
    rw [List.replicate_succ, byteLen, h, ih]
    omega

/-- A call of Scan on a stream whose lines are `line :: rest`, each short enough for the
buffer of the scanner, and which ends cleanly: it returns true, the token is `line`, and
the stream is left with the lines `rest` -/
theorem Scan_line (s : Scanner) (r : ReadCloser) (line : Str) (rest : List Str)
    (hs : s.err = none) (hr : r.err = none) (hl : scanLines r.data = line :: rest)
    (hfit : ∀ l ∈ rawLines r.data, byteLen l < MaxScanTokenSize) :
    ∃ s1 d1, s.Scan r = (true, s1, { r with data := d1 }) ∧ s1.tok = line ∧ s1.err = none ∧
      scanLines d1 = rest ∧ ∀ l ∈ rawLines d1, byteLen l < MaxScanTokenSize := by
  have hne : r.data ≠ [] := by
    intro h
    rw [h] at hl
    simp [scanLines, rawLines] at hl
  obtain ⟨h1, h2⟩ := rawLines_cutLine r.data hne
  rcases hcut : cutLine r.data with ⟨l, rst⟩
  cases rst with
  | none =>
    have hraw := h2 l hcut
    have hlen : ¬ (MaxScanTokenSize < byteLen l + 1) := by
      have := hfit l (by rw [hraw]; simp)
      omega
    simp only [scanLines, hraw, List.map_cons, List.map_nil, List.cons.injEq] at hl
    refine ⟨{ tok := dropCR l, err := r.err }, [], ?_, hl.1, hr, ?_, ?_⟩
    · simp [Scanner.Scan, hs, hne, hcut, hlen]
    · rw [← hl.2]; rfl
    · simp [rawLines]
  | some d1 =>
    have hraw := h1 l d1 hcut
    have hlen : ¬ (MaxScanTokenSize < byteLen l + 1) := by
      have := hfit l (by rw [hraw]; simp)
      omega
    simp only [scanLines, hraw, List.map_cons, List.cons.injEq] at hl
    refine ⟨{ s with tok := dropCR l }, d1, ?_, hl.1, hs, hl.2, ?_⟩
    · simp [Scanner.Scan, hs, hne, hcut, hlen]
    · intro l1 hl1
      exact hfit l1 (by rw [hraw]; exact List.mem_cons_of_mem _ hl1)

/-- A call of Scan on a stream whose first line does not fit into the buffer of the
scanner: it returns false, and the error of the scanner is ErrTooLong -/
theorem Scan_too_long (s : Scanner) (r : ReadCloser) (line : Str) (rest : Option Str)
    (hs : s.err = none) (hcut : cutLine r.data = (line, rest))
    (hlong : MaxScanTokenSize ≤ byteLen line) :
    ∃ s1 r1, s.Scan r = (false, s1, r1) ∧ s1.err = some ErrTooLong ∧
      r1.closed = r.closed := by
  have hne : r.data ≠ [] := by
    intro h
    rw [h] at hcut
    simp only [cutLine, Prod.mk.injEq] at hcut
    rw [← hcut.1] at hlong
    exact absurd hlong (by decide)
  have hlen : MaxScanTokenSize < byteLen line + 1 := by omega
  refine ⟨{ tok := [], err := some ErrTooLong, buf := takeBytes MaxScanTokenSize r.data },
    { r with data := dropBytes MaxScanTokenSize r.data }, ?_, rfl, rfl⟩
  cases rest with
  | none => simp [Scanner.Scan, hs, hne, hcut, hlen]
  | some d1 => simp [Scanner.Scan, hs, hne, hcut, hlen]

/-- A call of Scan on a stream that has no byte left: it returns false, and the error of
the scanner is the error with which the stream ends -/
theorem Scan_end (s : Scanner) (r : ReadCloser) (hs : s.err = none) (hd : r.data = []) :
    s.Scan r = (false, { tok := [], err := r.err }, r) := by
  simp [Scanner.Scan, hs, hd]

/-- Next on a row: it returns true and the Result maps each column to its field -/
theorem Next_row (iter : Iter) (cols : List Str) (row : Str) (rows : List Str) (closed : Nat)
    (h : iter.Streaming cols (row :: rows) closed) (hnd : cols.Nodup)
    (hlen : cols.length ≤ (Split '\t' row).length) :
    ∃ it1, iter.Next = .ok (true, it1) ∧ it1.Streaming cols rows closed ∧
      ∀ j c, cols.get? j = some c →
        ∃ field, (Split '\t' row).get? j = some field ∧ it1.Result.data.get c = some field := by
  obtain ⟨hcols, hclosed, d, sc, hreader, hlines, hfit, hscanner, herr⟩ := h
  obtain ⟨s1, d1, hscan, htok, herr1, hrest, hfit1⟩ :=
    Scan_line sc { data := d, err := none, closed := closed } row rows herr rfl hlines hfit
  obtain ⟨data1, hload, hget, -⟩ :=
    loadRow_indexed (Split '\t' row) cols 0 GoMap.empty hnd (by omega)
  refine ⟨Iter.mk iter.columns (some ⟨d1, none, closed⟩) (some s1) none ⟨data1⟩ iter.isClosed,
    ?_, ⟨hcols, hclosed, d1, s1, rfl, hrest, hfit1, rfl, herr1⟩, ?_⟩
  · simp only [Iter.Next, hscanner, hreader, hscan, Scanner.Err, herr1, Scanner.Text, htok,
      hcols, hload]
    simp
  · intro j c hj
    obtain ⟨field, hf, hg⟩ := hget j c hj
    exact ⟨field, by simpa using hf, hg⟩

/-- Next at the end of the stream: it returns false, Err is nil and the stream has been
closed once more -/
theorem Next_end (iter : Iter) (cols : List Str) (closed : Nat)
    (h : iter.Streaming cols [] closed) :
    ∃ it1, iter.Next = .ok (false, it1) ∧ it1.Err = none ∧
      it1.reader = some { data := [], err := none, closed := closed + 1 } := by
  obtain ⟨hcols, hclosed, d, sc, hreader, hlines, -, hscanner, herr⟩ := h
  have hd : d = [] := (scanLines_eq_nil d).1 hlines
  subst hd
  refine ⟨Iter.mk iter.columns (some ⟨[], none, closed + 1⟩) (some ⟨[], none, []⟩) none
    iter.Result iter.isClosed, ?_, rfl, rfl⟩
  have hscan := Scan_end sc { data := [], err := none, closed := closed } herr rfl
  simp only [Iter.Next, hscanner, hreader, hscan, Scanner.Err, Iter.Close, hclosed]
  simp [ReadCloser.Close]

/-- The calls of Next over the rows that are left in the stream -/
theorem Next_rows (cols : List Str) (closed : Nat) (hnd : cols.Nodup) :
    ∀ (rows : List Str) (iter : Iter), iter.Streaming cols rows closed →
      (∀ row ∈ rows, cols.length ≤ (Split '\t' row).length) →
      (∀ i row, rows.get? i = some row →
        ∃ it it1, iter.after i = .ok it ∧ it.Next = .ok (true, it1) ∧
          ∀ j c, cols.get? j = some c →
            ∃ field, (Split '\t' row).get? j = some field ∧
              it1.Result.data.get c = some field) ∧
      ∃ it it1, iter.after rows.length = .ok it ∧ it.Next = .ok (false, it1) ∧
        it1.Err = none ∧ it1.reader = some { data := [], err := none, closed := closed + 1 } := by
  intro rows
  induction rows with
  | nil =>
    intro iter hs _
    obtain ⟨it1, h1, h2, h3⟩ := Next_end iter cols closed hs
    exact ⟨by simp, iter, it1, rfl, h1, h2, h3⟩
  | cons row rows ih =>
    intro iter hs hlen
    obtain ⟨it1, hnext, hs1, hres⟩ := Next_row iter cols row rows closed hs hnd
      (hlen row (List.mem_cons_self _ _))
    obtain ⟨ih1, it, it2, ha, hn, he, hr⟩ := ih it1 hs1
      (fun r hr => hlen r (List.mem_cons_of_mem _ hr))
    refine ⟨?_, it, it2, ?_, hn, he, hr⟩
    · intro i r hi
      cases i with
      | zero =>
        simp only [List.get?_cons_zero, Option.some.injEq] at hi
        subst hi
        exact ⟨iter, it1, rfl, hnext, hres⟩
      | succ i =>
        simp only [List.get?_cons_succ] at hi
        obtain ⟨it3, it4, h3, h4, h5⟩ := ih1 i r hi
        exact ⟨it3, it4, by simp only [Iter.after, hnext, h3], h4, h5⟩
    · simp only [List.length_cons, Iter.after, hnext, ha]

/-- What Fetch returns when doQuery has returned a stream with a header line -/
theorem Fetch_header (L : StdLib) (net : Transport) (conn : Conn) (query : Str)
    (body : ReadCloser) (header : Str) (rows : List Str)
    (hq : (conn.doQuery L net (fetchQuery query)).ret = .ok (some body, none))
    (heof : body.err = none) (hlines : scanLines body.data = header :: rows)
    (hfit : ∀ l ∈ rawLines body.data, byteLen l < MaxScanTokenSize)
    (hnd : (Split '\t' header).Nodup) :
    ∃ iter, (conn.Fetch L net query).ret = .ok (iter, none) ∧
      iter.Streaming (Split '\t' header) rows body.closed := by
  obtain ⟨s1, d1, hscan, htok, herr1, hrest, hfit1⟩ :=
    Scan_line NewScanner body header rows rfl heof hlines hfit
  have hcols := loadColumns_indexed (Split '\t' header) 0 [] hnd (by simp)
  refine ⟨Iter.mk ⟨indexed (Split '\t' header) 0⟩ (some ⟨d1, none, body.closed⟩) (some s1) none
    Result.zero false, ?_, rfl, rfl, d1, s1, rfl, hrest, hfit1, rfl, herr1⟩
  simp only [Conn.Fetch, hq, hscan, Scanner.Text, htok, if_true]
  simp only [GoMap.empty, hcols, List.nil_append, heof]

/-- What Fetch returns when doQuery has returned a stream whose first line does not fit
into the buffer of the scanner: the error of the scanner -/
theorem Fetch_header_too_long (L : StdLib) (net : Transport) (conn : Conn) (query : Str)
    (body : ReadCloser) (line : Str) (rest : Option Str)
    (hq : (conn.doQuery L net (fetchQuery query)).ret = .ok (some body, none))
    (hcut : cutLine body.data = (line, rest)) (hlong : MaxScanTokenSize ≤ byteLen line) :
    (conn.Fetch L net query).ret
      = .ok (Iter.zero, some ("Can't fetch response: ".toList ++ ErrTooLong)) := by
  obtain ⟨s1, r1, hscan, herr, -⟩ := Scan_too_long NewScanner body line rest rfl hcut hlong
  simp only [Conn.Fetch, hq, hscan, Scanner.Err, herr]
  simp

/-- Next on a stream whose first line does not fit into the buffer of the scanner: it
returns false, Err is ErrTooLong, and the stream has not been closed -/
theorem Next_too_long (iter : Iter) (sc : Scanner) (r : ReadCloser) (line : Str)
    (rest : Option Str) (hscanner : iter.scanner = some sc) (hreader : iter.reader = some r)
    (hs : sc.err = none) (hcut : cutLine r.data = (line, rest))
    (hlong : MaxScanTokenSize ≤ byteLen line) :
    ∃ it1 r1, iter.Next = .ok (false, it1) ∧ it1.Err = some ErrTooLong ∧
      it1.reader = some r1 ∧ r1.closed = r.closed := by
  obtain ⟨s1, r1, hscan, herr, hclosed⟩ := Scan_too_long sc r line rest hs hcut hlong
  refine ⟨{ iter with scanner := some s1, reader := some r1, err := some ErrTooLong }, r1,
    ?_, rfl, rfl, hclosed⟩
  simp only [Iter.Next, hscanner, hreader, hscan, Scanner.Err, herr]
  simp

theorem rawLines_line (line rest : Str) (h : '\n' ∉ line) :
    rawLines (line ++ '\n' :: rest) = line :: rawLines rest := by
  induction line with
  | nil => simp [rawLines]
  | cons c cs ih =>
    simp only [List.mem_cons, not_or] at h
    have hc : ¬ c = '\n' := fun e => h.1 e.symm
    simp only [List.cons_append, rawLines, List.append_eq, hc, if_false, ih h.2]

theorem cutLine_line (line rest : Str) (h : '\n' ∉ line) :
    cutLine (line ++ '\n' :: rest) = (line, some rest) := by
  induction line with
  | nil => simp [cutLine]
  | cons c cs ih =>
    simp only [List.mem_cons, not_or] at h
    have hc : ¬ c = '\n' := fun e => h.1 e.symm
    simp only [List.cons_append, cutLine, List.append_eq, hc, if_false, ih h.2]

theorem dropCR_of_last (line : Str) (h : line.getLast? ≠ some '\r') : dropCR line = line := by
  simp [dropCR, h]

/-- The lines of a response, in the sense of the scanner, are the lines it was written
with, when no line holds a newline or ends in a carriage return -/
theorem scanLines_encodeLines (ls : List Str)
    (h : ∀ l ∈ ls, '\n' ∉ l ∧ l.getLast? ≠ some '\r') : scanLines (encodeLines ls) = ls := by
  induction ls with
  | nil => rfl
  | cons l ls ih =>
    have hl := h l (List.mem_cons_self _ _)
    have ih' := ih (fun x hx => h x (List.mem_cons_of_mem _ hx))
    unfold scanLines at ih' ⊢
    simp only [encodeLines, rawLines_line l _ hl.1, List.map_cons, dropCR_of_last l hl.2, ih']

theorem Split_field (f : Str) (h : '\t' ∉ f) : Split '\t' f = [f] := by
  induction f with
  | nil => rfl
  | cons c cs ih =>
    simp only [List.mem_cons, not_or] at h
    have hc : ¬ c = '\t' := fun e => h.1 e.symm
    simp only [Split, hc, if_false, ih h.2]

theorem Split_field_tab (f rest : Str) (h : '\t' ∉ f) :
    Split '\t' (f ++ '\t' :: rest) = f :: Split '\t' rest := by
  induction f with
  | nil => simp [Split]
  | cons c cs ih =>
    simp only [List.mem_cons, not_or] at h
    have hc : ¬ c = '\t' := fun e => h.1 e.symm
    simp only [List.cons_append, Split, List.append_eq, hc, if_false, ih h.2]

/-- The fields that Split cuts a line into are the fields that the line was joined from,
when no field holds a tab -/
theorem Split_joinFields (fs : List Str) (hne : fs ≠ []) (h : ∀ f ∈ fs, '\t' ∉ f) :
    Split '\t' (joinFields fs) = fs := by
  induction fs with
  | nil => exact absurd rfl hne
  | cons f fs ih =>
    cases fs with
    | nil => exact Split_field f (h f (List.mem_cons_self _ _))
    | cons g gs =>
      have ih' := ih (by simp) (fun x hx => h x (List.mem_cons_of_mem _ hx))
      simp only [joinFields, Split_field_tab f _ (h f (List.mem_cons_self _ _)), ih']

/-- C1 counterexample: over the response with the header a and one data line of 65536
bytes, Fetch returns an Iter, and the first call of Next returns false with the error
of the scanner, token too long, in Err, without closing the stream -/
theorem next_long_row_is_scanner_error :
    ∃ iter it1 r1,
      (sampleConn.Fetch sampleLib
        (okTransport (bodyOf ("a\n".toList ++ (List.replicate 65536 'x' ++ ['\n']))))
        "SELECT a FROM t".toList).ret = .ok (iter, none) ∧
      iter.Next = .ok (false, it1) ∧
      it1.Err = some "bufio.Scanner: token too long".toList ∧
      it1.reader = some r1 ∧ r1.closed = 0 := by
  have hnl : '\n' ∉ List.replicate 65536 'x' := by
    intro h
    exact absurd (List.eq_of_mem_replicate h) (by decide)
  have hlong : MaxScanTokenSize ≤ byteLen (List.replicate 65536 'x') := by
    rw [byteLen_replicate 65536 'x' rfl]
    decide
  generalize List.replicate 65536 'x' = big at hnl hlong ⊢
  have hq : (sampleConn.doQuery sampleLib (okTransport (bodyOf ("a\n".toList ++ (big ++ ['\n']))))
      (fetchQuery "SELECT a FROM t".toList)).ret
      = .ok (some (bodyOf ("a\n".toList ++ (big ++ ['\n']))), none) := rfl
  have hscan : NewScanner.Scan (bodyOf ("a\n".toList ++ (big ++ ['\n'])))
      = (true, { tok := "a".toList }, bodyOf (big ++ ['\n'])) := by
    have hcut : cutLine (bodyOf ("a\n".toList ++ (big ++ ['\n']))).data
        = ("a".toList, some (big ++ ['\n'])) := cutLine_line "a".toList _ (by decide)
    have hne : (bodyOf ("a\n".toList ++ (big ++ ['\n']))).data ≠ [] := by
      simp [bodyOf]
    have hlen : ¬ (MaxScanTokenSize < byteLen "a".toList + 1) := by decide
    simp only [Scanner.Scan, NewScanner, hne, hcut, hlen, if_false, ne_eq, not_true_eq_false]
    rfl
  obtain ⟨it1, r1, hnext, herr, hreader, hclosed⟩ :=
    Next_too_long
      (Iter.mk (loadColumns (Split '\t' "a".toList) 0 GoMap.empty) (some (bodyOf (big ++ ['\n'])))
        (some { tok := "a".toList }) none Result.zero false)
      { tok := "a".toList } (bodyOf (big ++ ['\n'])) big (some []) rfl rfl rfl
      (cutLine_line big [] hnl) hlong
  refine ⟨_, it1, r1, ?_, hnext, herr, hreader, hclosed⟩
  simp only [Conn.Fetch, hq, hscan, Scanner.Text, if_true]

/-- C1, amended: over a response that ends cleanly and whose lines, each with its newline
no longer than the 64 KiB buffer of the scanner, are a header joined from k distinct
column names, one at least, and n data lines joined from at least k fields each, no name
or field holding a tab: the Iter that Fetch returns answers true to the first n calls of
Next, the Result after the call number i maps each column name number j to the field
number j of the data line number i, and the call number n+1 returns false, with a nil Err,
after closing the stream -/
theorem fetch_yields_rows_in_order (L : StdLib) (net : Transport) (conn : Conn) (query : Str)
    (body : ReadCloser) (cols : List Str) (rows : List (List Str))
    (hq : (conn.doQuery L net (fetchQuery query)).ret = .ok (some body, none))
    (heof : body.err = none)
    (hlines : scanLines body.data = (cols :: rows).map joinFields)
    (hfit : ∀ l ∈ rawLines body.data, byteLen l < MaxScanTokenSize)
    (hcols : cols ≠ []) (hnd : cols.Nodup)
    (htab : ∀ fs ∈ cols :: rows, ∀ f ∈ fs, '\t' ∉ f)
    (hlen : ∀ fs ∈ rows, cols.length ≤ fs.length) :
    ∃ iter, (conn.Fetch L net query).ret = .ok (iter, none) ∧
      (∀ i fs, rows.get? i = some fs →
        ∃ it it1, iter.after i = .ok it ∧ it.Next = .ok (true, it1) ∧
          ∀ j c, cols.get? j = some c →
            ∃ field, fs.get? j = some field ∧ it1.Result.data.get c = some field) ∧
      ∃ it it1, iter.after rows.length = .ok it ∧ it.Next = .ok (false, it1) ∧
        it1.Err = none ∧
        it1.reader = some { data := [], err := none, closed := body.closed + 1 } := by
  have hsplit : ∀ fs ∈ cols :: rows, fs ≠ [] → Split '\t' (joinFields fs) = fs :=
    fun fs hfs hne => Split_joinFields fs hne (htab fs hfs)
  have hheader : Split '\t' (joinFields cols) = cols :=
    hsplit cols (List.mem_cons_self _ _) hcols
  have hrowne : ∀ fs ∈ rows, fs ≠ [] := by
    intro fs hfs h0
    have := hlen fs hfs
    rw [h0] at this
    exact hcols (List.length_eq_zero.1 (Nat.le_zero.1 this))
  simp only [List.map_cons] at hlines
  obtain ⟨iter, hf, hs⟩ := Fetch_header L net conn query body (joinFields cols)
    (rows.map joinFields) hq heof hlines hfit (by rw [hheader]; exact hnd)
  rw [hheader] at hs
  obtain ⟨h1, h2⟩ := Next_rows cols body.closed hnd (rows.map joinFields) iter hs (by
    intro row hrow
    obtain ⟨fs, hfs, rfl⟩ := List.mem_map.1 hrow
    rw [hsplit fs (List.mem_cons_of_mem _ hfs) (hrowne fs hfs)]
    exact hlen fs hfs)
  refine ⟨iter, hf, ?_, by simpa using h2⟩
  intro i fs hi
  have hi' : (rows.map joinFields).get? i = some (joinFields fs) := by
    rw [List.get?_eq_getElem?] at hi ⊢
    rw [List.getElem?_map, hi]
    rfl
  obtain ⟨it, it1, ha, hn, hres⟩ := h1 i (joinFields fs) hi'
  have hfs : fs ∈ rows := List.get?_mem hi
  rw [hsplit fs (List.mem_cons_of_mem _ hfs) (hrowne fs hfs)] at hres
  exact ⟨it, it1, ha, hn, hres⟩

theorem fetch_yields_rows_in_order_witness :
    ((sampleConn.doQuery sampleLib (okTransport (bodyOf "a\tb\n1\tx\n2\ty\n".toList))
        (fetchQuery "SELECT a, b FROM t".toList)).ret
        = .ok (some (bodyOf "a\tb\n1\tx\n2\ty\n".toList), none) ∧
      (bodyOf "a\tb\n1\tx\n2\ty\n".toList).err = none ∧
      scanLines (bodyOf "a\tb\n1\tx\n2\ty\n".toList).data
        = (["a".toList, "b".toList] ::
            [["1".toList, "x".toList], ["2".toList, "y".toList]]).map joinFields ∧
      (∀ l ∈ rawLines (bodyOf "a\tb\n1\tx\n2\ty\n".toList).data, byteLen l < MaxScanTokenSize) ∧
      ["a".toList, "b".toList] ≠ [] ∧ ["a".toList, "b".toList].Nodup ∧
      (∀ fs ∈ ["a".toList, "b".toList] ::
          [["1".toList, "x".toList], ["2".toList, "y".toList]], ∀ f ∈ fs, '\t' ∉ f) ∧
      (∀ fs ∈ [["1".toList, "x".toList], ["2".toList, "y".toList]],
        ["a".toList, "b".toList].length ≤ fs.length)) ∧
    ∃ iter, (sampleConn.Fetch sampleLib (okTransport (bodyOf "a\tb\n1\tx\n2\ty\n".toList))
        "SELECT a, b FROM t".toList).ret = .ok (iter, none) ∧
      (∀ i fs, [["1".toList, "x".toList], ["2".toList, "y".toList]].get? i = some fs →
        ∃ it it1, iter.after i = .ok it ∧ it.Next = .ok (true, it1) ∧
          ∀ j c, ["a".toList, "b".toList].get? j = some c →
            ∃ field, fs.get? j = some field ∧ it1.Result.data.get c = some field) ∧
      ∃ it it1, iter.after [["1".toList, "x".toList], ["2".toList, "y".toList]].length = .ok it ∧
        it.Next = .ok (false, it1) ∧ it1.Err = none ∧
        it1.reader = some ⟨[], none, (bodyOf "a\tb\n1\tx\n2\ty\n".toList).closed + 1⟩ :=
  ⟨⟨rfl, rfl, by decide, by decide, by decide, by decide, by decide, by decide⟩,
    fetch_yields_rows_in_order sampleLib _ sampleConn "SELECT a, b FROM t".toList
      (bodyOf "a\tb\n1\tx\n2\ty\n".toList) ["a".toList, "b".toList]
      [["1".toList, "x".toList], ["2".toList, "y".toList]]
      rfl rfl (by decide) (by decide) (by decide) (by decide) (by decide) (by decide)⟩

/-! ## The rewrite of the query by Fetch -/

theorem stripLit_eq_some (l s rest : Str) : stripLit l s = some rest ↔ s = l ++ rest := by
  induction l generalizing s with
  | nil => simp [stripLit, eq_comm]
  | cons a l ih =>
    cases s with
    | nil => simp [stripLit]
    | cons c s =>
      by_cases h : a = c
      · subst h
        simp [stripLit, ih]
      · have h' : ¬ c = a := fun e => h e.symm
        simp [stripLit, h, h']

/-- A successful match of a repeated class consumed characters of the class only -/
theorem runStar_sound (p : Char → Bool) (k : Str → Option Str) (x : Str) :
    ∀ s, runStar p k s = some x →
      ∃ u v, s = u ++ v ∧ (∀ c ∈ u, p c = true) ∧ k v = some x := by
  intro s
  induction s with
  | nil =>
    intro h
    exact ⟨[], [], rfl, by simp, by simpa [runStar] using h⟩
  | cons c cs ih =>
    intro h
    simp only [runStar] at h
    by_cases hp : p c = true
    · simp only [hp, if_true] at h
      cases hr : runStar p k cs with
      | some r =>
        rw [hr] at h
        simp only [Option.some.injEq] at h
        subst h
        obtain ⟨u, v, huv, hu, hk⟩ := ih hr
        refine ⟨c :: u, v, by simp [huv], ?_, hk⟩
        intro d hd
        rcases List.mem_cons.1 hd with rfl | hd
        · exact hp
        · exact hu d hd
      | none =>
        rw [hr] at h
        exact ⟨[], c :: cs, rfl, by simp, h⟩
    · simp only [hp] at h
      exact ⟨[], c :: cs, rfl, by simp, h⟩

/-- A repeated class matches whenever some run of its characters can be followed by a
match of the rest -/
theorem runStar_complete (p : Char → Bool) (k : Str → Option Str) :
    ∀ (u v : Str), (∀ c ∈ u, p c = true) → (k v).isSome = true →
      (runStar p k (u ++ v)).isSome = true := by
  intro u
  induction u with
  | nil =>
    intro v _ hk
    cases v with
    | nil => simpa [runStar] using hk
    | cons c cs =>
      simp only [List.nil_append, runStar]
      split
      · split
        · rfl
        · exact hk
      · exact hk
  | cons c cs ih =>
    intro v hu hk
    have hc : p c = true := hu c (List.mem_cons_self _ _)
    have := ih v (fun d hd => hu d (List.mem_cons_of_mem _ hd)) hk
    simp only [List.cons_append, runStar, hc, if_true]
    cases hr : runStar p k (cs ++ v) with
    | some r => rfl
    | none => rw [hr] at this; exact absurd this (by simp)

/-- A successful backtracking match is a match in the sense of `Re.Sem` -/
theorem run_sound (re : Re) : ∀ (s : Str) (k : Str → Option Str) (x : Str),
    re.run s k = some x → ∃ u v, s = u ++ v ∧ re.Sem u v ∧ k v = some x := by
  induction re with
  | lit l =>
    intro s k x h
    simp only [Re.run] at h
    cases hl : stripLit l s with
    | none => rw [hl] at h; exact absurd h (by simp)
    | some rest =>
      rw [hl] at h
      exact ⟨l, rest, (stripLit_eq_some l s rest).1 hl, rfl, h⟩
  | plus p =>
    intro s k x h
    cases s with
    | nil => simp [Re.run] at h
    | cons c cs =>
      simp only [Re.run] at h
      by_cases hp : p c = true
      · simp only [hp, if_true] at h
        obtain ⟨u, v, huv, hu, hk⟩ := runStar_sound p k x cs h
        refine ⟨c :: u, v, by simp [huv], ⟨by simp, ?_⟩, hk⟩
        intro d hd
        rcases List.mem_cons.1 hd with rfl | hd
        · exact hp
        · exact hu d hd
      · simp [hp] at h
  | star p =>
    intro s k x h
    simp only [Re.run] at h
    obtain ⟨u, v, huv, hu, hk⟩ := runStar_sound p k x s h
    exact ⟨u, v, huv, hu, hk⟩
  | opt r ih =>
    intro s k x h
    simp only [Re.run] at h
    cases hr : r.run s k with
    | some rest =>
      rw [hr] at h
      simp only [Option.some.injEq] at h
      subst h
      obtain ⟨u, v, huv, hu, hk⟩ := ih s k rest hr
      exact ⟨u, v, huv, Or.inr hu, hk⟩
    | none =>
      rw [hr] at h
      exact ⟨[], s, rfl, Or.inl rfl, h⟩
  | seq a b iha ihb =>
    intro s k x h
    simp only [Re.run] at h
    obtain ⟨u1, v1, h1, hs1, hk1⟩ := iha s _ x h
    obtain ⟨u2, v2, h2, hs2, hk2⟩ := ihb v1 k x hk1
    refine ⟨u1 ++ u2, v2, by rw [h1, h2, List.append_assoc], ⟨u1, u2, rfl, ?_, hs2⟩, hk2⟩
    rw [← h2]
    exact hs1
  | eot =>
    intro s k x h
    simp only [Re.run] at h
    by_cases hs : s = []
    · simp only [hs, if_true] at h
      exact ⟨[], [], by simp [hs], ⟨rfl, rfl⟩, h⟩
    · simp [hs] at h

/-- The backtracking matcher finds a match whenever there is one in the sense of `Re.Sem` -/
theorem run_complete (re : Re) : ∀ (u v : Str) (k : Str → Option Str),
    re.Sem u v → (k v).isSome = true → (re.run (u ++ v) k).isSome = true := by
  induction re with
  | lit l =>
    intro u v k hs hk
    simp only [Re.Sem] at hs
    subst hs
    have : stripLit u (u ++ v) = some v := (stripLit_eq_some u (u ++ v) v).2 rfl
    simp only [Re.run, this]
    exact hk
  | plus p =>
    intro u v k hs hk
    obtain ⟨hne, hall⟩ := hs
    cases u with
    | nil => exact absurd rfl hne
    | cons c cs =>
      have hc : p c = true := hall c (List.mem_cons_self _ _)
      simp only [List.cons_append, Re.run, hc, if_true]
      exact runStar_complete p k cs v (fun d hd => hall d (List.mem_cons_of_mem _ hd)) hk
  | star p =>
    intro u v k hs hk
    simp only [Re.run]
    exact runStar_complete p k u v hs hk
  | opt r ih =>
    intro u v k hs hk
    simp only [Re.run]
    cases hr : r.run (u ++ v) k with
    | some rest => rfl
    | none =>
      rcases hs with rfl | hs
      · simpa using hk
      · have := ih u v k hs hk
        rw [hr] at this
        exact absurd this (by simp)
  | seq a b iha ihb =>
    intro u v k hs hk
    obtain ⟨u1, u2, rfl, hs1, hs2⟩ := hs
    simp only [Re.run, List.append_assoc]
    exact iha u1 (u2 ++ v) _ hs1 (ihb u2 v k hs2 hk)
  | eot =>
    intro u v k hs hk
    obtain ⟨rfl, rfl⟩ := hs
    simpa [Re.run] using hk

theorem isAlnum_not_junk (c : Char) (h : isAlnum c = true) : ¬ isJunk c := by
  rintro (rfl | rfl) <;> exact absurd h (by decide)

theorem isSpace_iff (c : Char) : isSpace c = true ↔ c = ' ' := by
  simp [isSpace]

theorem count_semicolon_spaces (s : Str) (h : ∀ c ∈ s, isSpace c = true) :
    s.count ';' = 0 := by
  rw [List.count_eq_zero]
  intro hm
  exact absurd (h _ hm) (by decide)

theorem count_semicolon_alnum (s : Str) (h : ∀ c ∈ s, isAlnum c = true) :
    s.count ';' = 0 := by
  rw [List.count_eq_zero]
  intro hm
  exact absurd (h _ hm) (by decide)

/-- What a match of the pattern of Fetch looks like: it reaches the end of the text, and
it is an optional FORMAT clause followed by spaces and semicolons, at most one semicolon -/
theorem formatRe_match (s x : Str) (h : formatRe.matchAt s = some x) :
    x = [] ∧ ∃ f j, s = f ++ j ∧
      (f = [] ∨ ∃ a, a ≠ [] ∧ (∀ c ∈ a, isAlnum c = true) ∧ f = "FORMAT ".toList ++ a) ∧
      (∀ c ∈ j, isJunk c) ∧ j.count ';' ≤ 1 := by
  obtain ⟨u, v, huv, hsem, hk⟩ := run_sound formatRe s some x h
  simp only [Option.some.injEq] at hk
  subst hk
  obtain ⟨u1, u2, rfl, hopt, s1, r1, rfl, hs1, sm, r2, rfl, hsm, s2, e, rfl, hs2, rfl, rfl⟩ := hsem
  refine ⟨rfl, u1, s1 ++ (sm ++ (s2 ++ [])), by simpa using huv, ?_, ?_, ?_⟩
  · rcases hopt with h0 | ⟨a, b, hab, ha, hb⟩
    · exact Or.inl h0
    · refine Or.inr ⟨b, hb.1, hb.2, ?_⟩
      simp only [Re.Sem] at ha
      rw [hab, ha]
  · intro c hc
    simp only [List.append_nil, List.mem_append] at hc
    rcases hc with hc | hc | hc
    · exact Or.inl ((isSpace_iff c).1 (hs1 c hc))
    · rcases hsm with rfl | hsm
      · simp at hc
      · simp only [Re.Sem] at hsm
        rw [hsm] at hc
        simp only [String.toList, List.mem_singleton] at hc
        exact Or.inr hc
    · exact Or.inl ((isSpace_iff c).1 (hs2 c hc))
  · simp only [List.append_nil, List.count_append, count_semicolon_spaces s1 hs1,
      count_semicolon_spaces s2 hs2]
    rcases hsm with rfl | hsm
    · simp
    · simp only [Re.Sem] at hsm
      rw [hsm]
      decide

/-- The pattern of Fetch matches every tail of spaces with at most one semicolon -/
theorem formatRe_match_tail (n1 n2 : Nat) (semi : Bool) :
    formatRe.matchAt (queryTail n1 semi n2) = some [] := by
  have hsem : formatRe.Sem (queryTail n1 semi n2) [] := by
    refine ⟨[], queryTail n1 semi n2, rfl, Or.inl rfl, List.replicate n1 ' ',
      (if semi then [';'] else []) ++ List.replicate n2 ' ', by simp [queryTail], ?_,
      (if semi then [';'] else []), List.replicate n2 ' ', rfl, ?_,
      List.replicate n2 ' ', [], by simp, ?_, rfl, rfl⟩
    · intro c hc
      rw [List.eq_of_mem_replicate hc]
      rfl
    · cases semi
      · exact Or.inl rfl
      · exact Or.inr rfl
    · intro c hc
      rw [List.eq_of_mem_replicate hc]
      rfl
  have hsome := run_complete formatRe (queryTail n1 semi n2) [] some hsem rfl
  rw [List.append_nil] at hsome
  cases hm : formatRe.matchAt (queryTail n1 semi n2) with
  | none =>
    unfold Re.matchAt at hm
    rw [hm] at hsome
    exact absurd hsome (by simp)
  | some x => rw [(formatRe_match _ x hm).1]

/-- A text that holds the word FORMAT, a space and a letter or digit has a FORMAT clause -/
theorem hasFormatClause_intro (b0 : Str) (d : Char) (rest : Str) (hd : isAlnum d = true) :
    hasFormatClause (b0 ++ ("FORMAT ".toList ++ d :: rest)) = true := by
  induction b0 with
  | nil =>
    have h : stripLit "FORMAT ".toList ("FORMAT ".toList ++ d :: rest) = some (d :: rest) :=
      (stripLit_eq_some _ _ _).2 rfl
    show hasFormatClause ('F' :: ("ORMAT ".toList ++ d :: rest)) = true
    unfold hasFormatClause
    have h' : stripLit "FORMAT ".toList ('F' :: ("ORMAT ".toList ++ d :: rest))
        = some (d :: rest) := h
    rw [h']
    simp [hd]
  | cons c cs ih =>
    simp only [List.cons_append, hasFormatClause, List.append_eq, ih, Bool.or_true]

/-- A text without FORMAT clause has no FORMAT clause in a part of it -/
theorem hasFormatClause_prefix (u v : Str) (h : hasFormatClause (u ++ v) = false) :
    hasFormatClause u = false := by
  induction u with
  | nil => rfl
  | cons c cs ih =>
    simp only [List.cons_append, hasFormatClause, List.append_eq, Bool.or_eq_false_iff] at h ⊢
    refine ⟨?_, ih h.2⟩
    cases hs : stripLit "FORMAT ".toList (c :: cs) with
    | none => rfl
    | some r =>
      cases r with
      | nil => rfl
      | cons d r =>
        have h1 : c :: cs = "FORMAT ".toList ++ d :: r := (stripLit_eq_some _ _ _).1 hs
        have h2 : stripLit "FORMAT ".toList (c :: (cs ++ v)) = some (d :: (r ++ v)) := by
          rw [stripLit_eq_some, ← List.cons_append, h1]
          simp
        rw [h2] at h
        simpa using h.1

/-- Two texts that end in a character outside of a class and are followed by characters
of the class only are equal when the whole texts are -/
theorem append_junk_unique (X1 X2 J1 J2 : Str) (x1 x2 : Char)
    (h : (X1 ++ [x1]) ++ J1 = (X2 ++ [x2]) ++ J2) (hx1 : ¬ isJunk x1) (hx2 : ¬ isJunk x2)
    (hJ1 : ∀ c ∈ J1, isJunk c) (hJ2 : ∀ c ∈ J2, isJunk c) :
    X1 ++ [x1] = X2 ++ [x2] := by
  rcases List.append_eq_append_iff.1 h with ⟨a, h1, h2⟩ | ⟨a, h1, h2⟩
  · rcases List.eq_nil_or_concat a with rfl | ⟨a0, z, rfl⟩
    · simpa using h1.symm
    · exfalso
      rw [List.concat_eq_append, ← List.append_assoc] at h1
      have hz : x2 = z := by
        have := (List.append_inj' h1 rfl).2
        simpa using this
      apply hx2
      rw [hz]
      apply hJ1
      rw [h2]
      simp
  · rcases List.eq_nil_or_concat a with rfl | ⟨a0, z, rfl⟩
    · simpa using h1
    · exfalso
      rw [List.concat_eq_append, ← List.append_assoc] at h1
      have hz : x1 = z := by
        have := (List.append_inj' h1 rfl).2
        simpa using this
      apply hx1
      rw [hz]
      apply hJ2
      rw [h2]
      simp

theorem queryTail_junk (n1 n2 : Nat) (semi : Bool) : ∀ c ∈ queryTail n1 semi n2, isJunk c := by
  intro c hc
  simp only [queryTail, List.mem_append] at hc
  rcases hc with (hc | hc) | hc
  · exact Or.inl (List.eq_of_mem_replicate hc)
  · cases semi
    · simp at hc
    · simp only [if_true, List.mem_singleton] at hc
      exact Or.inr hc
  · exact Or.inl (List.eq_of_mem_replicate hc)

theorem queryTail_count (n1 n2 : Nat) (semi : Bool) :
    (queryTail n1 semi n2).count ';' = if semi then 1 else 0 := by
  have h : ∀ n, (List.replicate n ' ').count ';' = 0 := by
    intro n
    rw [List.count_eq_zero]
    intro hm
    exact absurd (List.eq_of_mem_replicate hm) (by decide)
  cases semi <;> simp [queryTail, List.count_append, h]

/-- The pattern of Fetch does not match before the tail of the query: not at a position
inside a text without FORMAT clause that ends in neither a space nor, unless the tail has
the one semicolon, a semicolon -/
theorem formatRe_no_match_before (b0 w : Str) (n1 n2 : Nat) (semi : Bool) (hw : w ≠ [])
    (hf : hasFormatClause (b0 ++ w) = false) (hsp : (b0 ++ w).getLast? ≠ some ' ')
    (hsc : semi = false → (b0 ++ w).getLast? ≠ some ';') :
    formatRe.matchAt (w ++ queryTail n1 semi n2) = none := by
  cases hm : formatRe.matchAt (w ++ queryTail n1 semi n2) with
  | none => rfl
  | some r =>
    exfalso
    obtain ⟨-, f, j, hfj, hfmt, hj, hcount⟩ := formatRe_match _ r hm
    rcases List.eq_nil_or_concat w with rfl | ⟨w0, x, rfl⟩
    · exact hw rfl
    rw [List.concat_eq_append] at hfj hf hsp hsc
    have hlast : (b0 ++ (w0 ++ [x])).getLast? = some x := by
      rw [← List.append_assoc, List.getLast?_append]
      simp
    rw [hlast] at hsp hsc
    have hxsp : x ≠ ' ' := fun h => hsp (by rw [h])
    -- the semicolons: at most one in a match
    have hfcount : f.count ';' = 0 := by
      rcases hfmt with rfl | ⟨a, -, ha, rfl⟩
      · rfl
      · rw [List.count_append, count_semicolon_alnum a ha]
        decide
    have hc := congrArg (List.count ';') hfj
    simp only [List.count_append, queryTail_count, hfcount] at hc
    have hxsc : x ≠ ';' := by
      rintro rfl
      cases semi
      · exact hsc rfl rfl
      · simp at hc
        omega
    have hx : ¬ isJunk x := by
      rintro (h | h)
      · exact hxsp h
      · exact hxsc h
    rcases hfmt with rfl | ⟨a, hane, ha, rfl⟩
    · apply hx
      apply hj
      rw [List.nil_append] at hfj
      rw [← hfj]
      simp
    · rcases List.eq_nil_or_concat a with rfl | ⟨a0, y, rfl⟩
      · exact hane rfl
      rw [List.concat_eq_append] at hfj ha
      have hy : isAlnum y = true := ha y (by simp)
      have heq : w0 ++ [x] = ("FORMAT ".toList ++ a0) ++ [y] := by
        apply append_junk_unique w0 ("FORMAT ".toList ++ a0) (queryTail n1 semi n2) j x y _ hx
          (isAlnum_not_junk y hy) (queryTail_junk n1 n2 semi) hj
        rw [hfj]
        simp
      rw [heq] at hf
      cases hd : a0 ++ [y] with
      | nil => simp at hd
      | cons d rest =>
        have hdal : isAlnum d = true := ha d (by rw [hd]; simp)
        have := hasFormatClause_intro b0 d rest hdal
        rw [← hd] at this
        rw [List.append_assoc] at hf
        rw [hf] at this
        exact absurd this (by simp)

/-- The search of the pattern of Fetch in a query finds the tail of the query -/
theorem formatRe_search_tail (n1 n2 : Nat) (semi : Bool) :
    ∀ (w b0 : Str) (pos : Nat), hasFormatClause (b0 ++ w) = false →
      (b0 ++ w).getLast? ≠ some ' ' → (semi = false → (b0 ++ w).getLast? ≠ some ';') →
      formatRe.search (w ++ queryTail n1 semi n2) pos =
        some (pos + w.length, pos + w.length + (queryTail n1 semi n2).length) := by
  intro w
  induction w with
  | nil =>
    intro b0 pos _ _ _
    have hm := formatRe_match_tail n1 n2 semi
    simp only [List.nil_append, List.length_nil, Nat.add_zero]
    cases ht : queryTail n1 semi n2 with
    | nil =>
      rw [ht] at hm
      simp [Re.search, hm]
    | cons c cs =>
      rw [ht] at hm
      simp [Re.search, hm]
  | cons c cs ih =>
    intro b0 pos hf hsp hsc
    have hnone := formatRe_no_match_before b0 (c :: cs) n1 n2 semi (by simp) hf hsp hsc
    have hb : b0 ++ c :: cs = (b0 ++ [c]) ++ cs := by simp
    rw [hb] at hf hsp hsc
    have := ih (b0 ++ [c]) (pos + 1) hf hsp hsc
    rw [List.cons_append] at hnone ⊢
    simp only [Re.search, hnone, this, List.length_cons]
    congr 2 <;> omega

/-- ReplaceAllString for a pattern whose first match runs from `p` to the end of the text
and which matches the empty text: the text before `p`, then the replacement, once -/
theorem replaceAll_to_end (re : Re) (src repl : Str) (p : Nat) (x : Str)
    (hsearch : re.search src 0 = some (p, src.length)) (hend : re.matchAt [] = some x)
    (hp : p ≤ src.length) :
    re.ReplaceAllString src repl = src.take p ++ repl := by
  have hnil : ∀ pos, re.search [] pos = some (pos, pos) := by
    intro pos
    simp [Re.search, hend]
  cases src with
  | nil =>
    have hp0 : p = 0 := by simpa using hp
    subst hp0
    simp [Re.ReplaceAllString, replaceAllLoop, hnil]
  | cons c cs =>
    have hlen : (c :: cs).length = cs.length + 1 := rfl
    unfold Re.ReplaceAllString
    rw [show (c :: cs).length + 2 = (cs.length + 2) + 1 from rfl]
    rw [replaceAllLoop]
    simp only [Nat.zero_le, if_true, List.drop_zero, hsearch, Nat.sub_zero, List.nil_append]
    have h1 : (c :: cs).length > 0 ∨ p = 0 := Or.inl (by simp)
    have h2 : (0 : Nat) < (c :: cs).length := by simp
    have h3 : ¬ (0 + 1 > (c :: cs).length) := by simp
    simp only [h1, if_true, h2, h3, if_false]
    rw [show cs.length + 2 = (cs.length + 1) + 1 from rfl]
    rw [replaceAllLoop]
    have h4 : (c :: cs).length ≤ (c :: cs).length := Nat.le_refl _
    have h5 : ¬ ((c :: cs).length > (c :: cs).length ∨ (c :: cs).length = 0) := by simp
    have h6 : ¬ ((c :: cs).length < (c :: cs).length) := Nat.lt_irrefl _
    have h7 : ¬ ((c :: cs).length + 0 > (c :: cs).length) := by simp
    have h8 : (c :: cs).length + 1 > (c :: cs).length := by simp
    simp only [h4, if_true, List.drop_length, hnil, Nat.sub_self, List.take_zero,
      List.append_nil, h5, if_false, h6, h7, h8]
    rw [replaceAllLoop]
    simp

theorem formatClause_no_border : ∀ d : Fin 29, 0 < d.val →
    ¬ (formatClause.drop d.val <+: formatClause) := by
  decide

theorem hasFormatClause_of_clause (u a : Str) :
    hasFormatClause (u ++ (formatClause ++ a)) = true := by
  have h := hasFormatClause_intro (u ++ [' ']) 'T' ("abSeparatedWithNames".toList ++ a) (by decide)
  have e : u ++ (formatClause ++ a)
      = (u ++ [' ']) ++ ("FORMAT ".toList ++ 'T' :: ("abSeparatedWithNames".toList ++ a)) := by
    simp [formatClause]
  rw [e]
  exact h

/-- The clause occurs exactly once in a text without FORMAT clause followed by the clause -/
theorem formatClause_once (pre u v : Str) (hf : hasFormatClause pre = false)
    (h : pre ++ formatClause = u ++ formatClause ++ v) : u = pre ∧ v = [] := by
  rw [List.append_assoc] at h
  rcases List.append_eq_append_iff.1 h with ⟨a, h1, h2⟩ | ⟨c, h1, h2⟩
  · have hl := congrArg List.length h2
    simp only [List.length_append] at hl
    have ha : a = [] := List.length_eq_zero.1 (by omega)
    have hv : v = [] := List.length_eq_zero.1 (by omega)
    subst ha
    exact ⟨by simpa using h1, hv⟩
  · rcases List.append_eq_append_iff.1 h2 with ⟨a2, h3, -⟩ | ⟨c2, h3, h4⟩
    · exfalso
      rw [h1, h3, hasFormatClause_of_clause] at hf
      exact absurd hf (by simp)
    · by_cases hc : c = []
      · subst hc
        simp only [List.nil_append] at h3
        rw [← h3] at h4
        have hl := congrArg List.length h4
        simp only [List.length_append] at hl
        exact ⟨by simpa using h1.symm, List.length_eq_zero.1 (by omega)⟩
      · exfalso
        have hlen : c.length + c2.length = 29 := by
          have := congrArg List.length h3
          simpa [formatClause] using this.symm
        have hcpos : 0 < c.length := List.length_pos.2 hc
        by_cases hc2 : c2 = []
        · subst hc2
          rw [List.append_nil] at h3
          rw [h1, ← h3] at hf
          have := hasFormatClause_of_clause u []
          rw [List.append_nil, hf] at this
          exact absurd this (by simp)
        · have hc2pos : 0 < c2.length := List.length_pos.2 hc2
          have hdrop : formatClause.drop c.length = c2 := by
            rw [h3]
            simp
          apply formatClause_no_border ⟨c.length, by omega⟩ hcpos
          show formatClause.drop c.length <+: formatClause
          rw [hdrop]
          exact ⟨v, h4.symm⟩

/-- The rewrite of Fetch on a query that is given with its tail -/
theorem fetchQuery_of_tail (b : Str) (n1 n2 : Nat) (semi : Bool)
    (hf : hasFormatClause (b ++ queryTail n1 semi n2) = false)
    (hsp : b.getLast? ≠ some ' ') (hsc : semi = false → b.getLast? ≠ some ';') :
    fetchQuery (b ++ queryTail n1 semi n2) = b ++ formatClause ∧
    ∀ u v, fetchQuery (b ++ queryTail n1 semi n2) = u ++ formatClause ++ v → u = b ∧ v = [] := by
  have hfb : hasFormatClause b = false := hasFormatClause_prefix _ _ hf
  have hsearch := formatRe_search_tail n1 n2 semi b [] 0 (by simpa using hfb)
    (by simpa using hsp) (by simpa using hsc)
  have hq : fetchQuery (b ++ queryTail n1 semi n2) = b ++ formatClause := by
    unfold fetchQuery
    rw [replaceAll_to_end formatRe _ _ b.length [] (by simpa using hsearch) (by decide)
      (by simp)]
    simp [formatClause]
  refine ⟨hq, ?_⟩
  intro u v huv
  rw [hq] at huv
  exact formatClause_once b u v hfb huv

/-- Every text ends in a run of spaces after a text that does not end in a space -/
theorem trailing_spaces (q : Str) :
    ∃ b n, q = b ++ List.replicate n ' ' ∧ b.getLast? ≠ some ' ' := by
  induction q using List.reverseRecOn with
  | nil => exact ⟨[], 0, rfl, by simp⟩
  | append_singleton q x ih =>
    by_cases hx : x = ' '
    · obtain ⟨b, n, hq, hb⟩ := ih
      refine ⟨b, n + 1, ?_, hb⟩
      rw [hq, hx, List.replicate_succ', List.append_assoc]
    · refine ⟨q ++ [x], 0, by simp, ?_⟩
      simpa using hx

/-- Every text is a text that does not end in a space, followed by spaces and at most one
semicolon; the text only ends in a semicolon if one more semicolon follows it -/
theorem queryTail_exists (q : Str) :
    ∃ b n1 semi n2, q = b ++ queryTail n1 semi n2 ∧ b.getLast? ≠ some ' ' ∧
      (semi = false → b.getLast? ≠ some ';') := by
  obtain ⟨q1, n2, hq, hq1⟩ := trailing_spaces q
  by_cases hsc : q1.getLast? = some ';'
  · rcases List.eq_nil_or_concat q1 with rfl | ⟨q2, x, rfl⟩
    · simp at hsc
    · rw [List.concat_eq_append] at hsc hq
      have hx : x = ';' := by simpa using hsc
      subst hx
      obtain ⟨b, n1, hq2, hb⟩ := trailing_spaces q2
      refine ⟨b, n1, true, n2, ?_, hb, by simp⟩
      rw [hq, hq2]
      simp [queryTail]
  · exact ⟨q1, 0, false, n2, by simp [queryTail, hq], hq1, fun _ => hsc⟩

/-- C7, amended: for every query without FORMAT clause, the query that Fetch sends is a
text b followed by the clause FORMAT TabSeparatedWithNames, and the clause occurs exactly
once in it; b is the query without its trailing spaces and without one trailing semicolon
(b does not end in a space, and it ends in a semicolon only if the query had one more
semicolon after it: at most one is removed) -/
theorem fetchQuery_appends_clause_once (q : Str) (hf : hasFormatClause q = false) :
    ∃ b n1 semi n2, q = b ++ queryTail n1 semi n2 ∧ b.getLast? ≠ some ' ' ∧
      (semi = false → b.getLast? ≠ some ';') ∧
      fetchQuery q = b ++ formatClause ∧
      ∀ u v, fetchQuery q = u ++ formatClause ++ v → u = b ∧ v = [] := by
  obtain ⟨b, n1, semi, n2, hq, hsp, hsc⟩ := queryTail_exists q
  subst hq
  obtain ⟨h1, h2⟩ := fetchQuery_of_tail b n1 n2 semi hf hsp hsc
  exact ⟨b, n1, semi, n2, rfl, hsp, hsc, h1, h2⟩

/-- C7 counterexample: the query SELECT 1;; has no FORMAT clause, and after the rewrite of
Fetch a semicolon is left between the statement and the clause -/
theorem fetchQuery_keeps_second_semicolon :
    hasFormatClause "SELECT 1;;".toList = false ∧
    fetchQuery "SELECT 1;;".toList = "SELECT 1;".toList ++ formatClause := by
  decide

theorem fetchQuery_appends_clause_once_witness :
    hasFormatClause "SELECT 1 ;  ".toList = false ∧
    ∃ b n1 semi n2, "SELECT 1 ;  ".toList = b ++ queryTail n1 semi n2 ∧
      b.getLast? ≠ some ' ' ∧ (semi = false → b.getLast? ≠ some ';') ∧
      fetchQuery "SELECT 1 ;  ".toList = b ++ formatClause ∧
      ∀ u v, fetchQuery "SELECT 1 ;  ".toList = u ++ formatClause ++ v → u = b ∧ v = [] :=
  ⟨by decide, fetchQuery_appends_clause_once "SELECT 1 ;  ".toList (by decide)⟩

/-! ## Errors that do not reach the caller, missing checks, the unused wait -/

/-- C11: over a response that delivers the header line a and then fails with a read error,
Next returns false with that error in Err, and FetchOne returns the zero Result with a
nil error: the read error does not reach the caller of FetchOne -/
theorem fetchOne_swallows_read_error :
    (do
      let (iter, _) ← (sampleConn.Fetch sampleLib
        (okTransport { data := "a\n".toList, err := some "unexpected EOF".toList })
        "SELECT a FROM t".toList).ret
      let (next, it1) ← iter.Next
      pure (next, it1.Err))
      = (.ok (false, some "unexpected EOF".toList) : Except Panic _) ∧
    (sampleConn.FetchOne sampleLib
      (okTransport { data := "a\n".toList, err := some "unexpected EOF".toList })
      "SELECT a FROM t".toList).run.ret = .ok (Result.zero, none) :=
  ⟨rfl, rfl⟩

/-- C14: over the header a, b and the data line 1, which has one field only, Next panics
with an index out of range: the position of the column b is looked up without a check -/
theorem next_short_row_panics :
    (do
      let (iter, _) ← (sampleConn.Fetch sampleLib (okTransport (bodyOf "a\tb\n1\n".toList))
        "SELECT a, b FROM t".toList).ret
      iter.Next)
      = .error "index out of range [1] with length 1".toList :=
  rfl

/-- C15: on a response of status 500 with an empty body, doQuery panics with an index out
of range when it looks at the first byte of the body, after one send -/
theorem doQuery_empty_error_body_panics :
    (sampleConn.doQuery sampleLib (scripted [] (.response ⟨500, bodyOf []⟩))
      "SELECT 1".toList).ret = .error "index out of range [0] with length 0".toList ∧
    (sampleConn.doQuery sampleLib (scripted [] (.response ⟨500, bodyOf []⟩))
      "SELECT 1".toList).sent.length = 1 :=
  ⟨rfl, rfl⟩

/-- C19: on a response of status 500 whose body is an HTML page with the title Bad Request,
the message of the error that doQuery returns holds the whole title element, tags
included; on a page without title element doQuery panics; on the body Code: 62 the message
holds the body -/
theorem doQuery_error_keeps_title_tags :
    (sampleConn.doQuery sampleLib (scripted [] (.response ⟨500,
      bodyOf "<html><head><title>Bad Request</title></head></html>".toList⟩))
      "SELECT 1".toList).ret
      = .ok (none, some ("Can't do request to host default:@localhost:8123: ".toList
          ++ "<title>Bad Request</title>".toList)) ∧
    (sampleConn.doQuery sampleLib (scripted [] (.response ⟨500, bodyOf "<html>".toList⟩))
      "SELECT 1".toList).ret = .error "index out of range [0] with length 0".toList ∧
    (sampleConn.doQuery sampleLib (scripted [] (.response ⟨500, bodyOf "Code: 62".toList⟩))
      "SELECT 1".toList).ret
      = .ok (none, some ("Can't do request to host default:@localhost:8123: ".toList
          ++ "Code: 62".toList)) :=
  ⟨rfl, rfl, rfl⟩

/-- C20: the requests that doQuery sends and the values it returns are the same for every
configured attemptWait: no step of doQuery reads it -/
theorem doQuery_ignores_attemptWait (L : StdLib) (net : Transport) (conn : Conn) (query : Str)
    (amount wait : Int) :
    ((conn.Attempts amount wait).doQuery L net query).sent
      = ((conn.Attempts amount 0).doQuery L net query).sent ∧
    ((conn.Attempts amount wait).doQuery L net query).ret
      = ((conn.Attempts amount 0).doQuery L net query).ret := by
  have hurl : (conn.Attempts amount wait).requestURL L = (conn.Attempts amount 0).requestURL L := by
    simp only [Conn.requestURL, Conn.getFQDN, Conn.Attempts]
    split <;> rfl
  have hfq : (conn.Attempts amount wait).getFQDN.1 = (conn.Attempts amount 0).getFQDN.1 := by
    simp only [Conn.getFQDN, Conn.Attempts]
    split <;> rfl
  have hcl : (conn.Attempts amount wait).client = (conn.Attempts amount 0).client := rfl
  have ham1 : (conn.Attempts amount wait).getFQDN.2.attemptsAmount = amount :=
    getFQDN_attemptsAmount _
  have ham2 : (conn.Attempts amount 0).getFQDN.2.attemptsAmount = amount :=
    getFQDN_attemptsAmount _
  simp only [Conn.doQuery, hurl, hfq, hcl, ham1, ham2]
  cases L.urlError ((conn.Attempts amount 0).requestURL L) with
  | some e => exact ⟨rfl, rfl⟩
  | none =>
    simp only
    rcases doQueryLoop net (conn.Attempts amount 0).client
      (newRequest ((conn.Attempts amount 0).requestURL L) query) amount amount.toNat {}
      with ⟨r, sent⟩
    cases r with
    | error p => exact ⟨rfl, rfl⟩
    | ok st =>
      simp only
      cases st.err with
      | some e => exact ⟨rfl, rfl⟩
      | none =>
        simp only
        cases st.res with
        | none => exact ⟨rfl, rfl⟩
        | some res =>
          simp only
          split <;> exact ⟨rfl, rfl⟩

/-! ## Row decoder: responses without rows -/

/-- Next at the end of a stream without rows: it returns false, produces no Result, and
leaves the Iter at the end of the stream -/
theorem Next_ended (iter : Iter) (closed : Nat) (h : iter.Ended closed) :
    ∃ it1, iter.Next = .ok (false, it1) ∧ it1.Err = none ∧ it1.Ended (closed + 1) := by
  obtain ⟨hclosed, hres, sc, hscanner, herr, hreader⟩ := h
  refine ⟨Iter.mk iter.columns (some ⟨[], none, closed + 1⟩) (some ⟨[], none, []⟩) none
    iter.Result iter.isClosed, ?_, rfl, hclosed, hres, ⟨[], none, []⟩, rfl, rfl, rfl⟩
  have hscan := Scan_end sc { data := [], err := none, closed := closed } herr rfl
  simp only [Iter.Next, hscanner, hreader, hscan, Scanner.Err, Iter.Close, hclosed]
  simp [ReadCloser.Close]

theorem after_ended (n : Nat) : ∀ (iter : Iter) (closed : Nat), iter.Ended closed →
    ∃ it, iter.after n = .ok it ∧ it.Ended (closed + n) := by
  induction n with
  | zero => intro iter closed h; exact ⟨iter, rfl, h⟩
  | succ n ih =>
    intro iter closed h
    obtain ⟨it1, h1, -, h3⟩ := Next_ended iter closed h
    obtain ⟨it, h4, h5⟩ := ih it1 (closed + 1) h3
    refine ⟨it, by simp only [Iter.after, h1, h4], ?_⟩
    have : closed + (n + 1) = closed + 1 + n := by omega
    rw [this]
    exact h5

/-- C12 counterexample: over the response that consists of a header line of 65536 bytes
only, Fetch returns the error of the scanner, token too long, and the zero Iter -/
theorem fetch_long_header_is_scanner_error :
    (sampleConn.Fetch sampleLib (okTransport (bodyOf (List.replicate 65536 'a' ++ ['\n'])))
      "SELECT a FROM t".toList).ret
      = .ok (Iter.zero,
          some "Can't fetch response: bufio.Scanner: token too long".toList) := by
  have hnl : '\n' ∉ List.replicate 65536 'a' := by
    intro h
    exact absurd (List.eq_of_mem_replicate h) (by decide)
  have hlong : MaxScanTokenSize ≤ byteLen (List.replicate 65536 'a') := by
    rw [byteLen_replicate 65536 'a' rfl]
    decide
  generalize List.replicate 65536 'a' = big at hnl hlong ⊢
  exact Fetch_header_too_long sampleLib _ sampleConn "SELECT a FROM t".toList
    (bodyOf (big ++ ['\n'])) big (some []) rfl (cutLine_line big [] hnl) hlong

/-- C12, amended: over a response that ends cleanly and is empty or holds the header line
only, the header with its newline no longer than the 64 KiB buffer of the scanner, Fetch
returns an Iter and no error, the column index is empty when the response is empty, and
every call of Next, the first one included, returns false with a nil Err and without a
Result -/
theorem fetch_without_rows (L : StdLib) (net : Transport) (conn : Conn) (query : Str)
    (body : ReadCloser)
    (hq : (conn.doQuery L net (fetchQuery query)).ret = .ok (some body, none))
    (heof : body.err = none)
    (hrows : body.data = [] ∨ ∃ header, scanLines body.data = [header])
    (hfit : ∀ l ∈ rawLines body.data, byteLen l < MaxScanTokenSize) :
    ∃ iter, (conn.Fetch L net query).ret = .ok (iter, none) ∧
      (body.data = [] → iter.columns = GoMap.empty) ∧
      ∀ n, ∃ it it1, iter.after n = .ok it ∧ it.Next = .ok (false, it1) ∧ it1.Err = none ∧
        it1.Result = Result.zero := by
  have key : ∃ iter, (conn.Fetch L net query).ret = .ok (iter, none) ∧
      (body.data = [] → iter.columns = GoMap.empty) ∧ iter.Ended body.closed := by
    rcases hrows with hd | ⟨header, hl⟩
    · have hscan := Scan_end NewScanner body rfl hd
      refine ⟨Iter.mk GoMap.empty (some body) (some ⟨[], body.err, []⟩) none Result.zero false,
        ?_, fun _ => rfl, rfl, rfl, ⟨[], body.err, []⟩, rfl, heof, ?_⟩
      · simp only [Conn.Fetch, hq, hscan, Scanner.Err, heof]
        simp
      · cases body with
        | mk d e c =>
          simp only at hd heof
          rw [hd, heof]
    · obtain ⟨s1, d1, hscan, htok, herr1, hrest, -⟩ :=
        Scan_line NewScanner body header [] rfl heof hl hfit
      have hd1 : d1 = [] := (scanLines_eq_nil d1).1 hrest
      subst hd1
      have hne : body.data ≠ [] := by
        intro h
        rw [h] at hl
        simp [scanLines, rawLines] at hl
      refine ⟨Iter.mk (loadColumns (Split '\t' header) 0 GoMap.empty)
        (some ⟨[], none, body.closed⟩) (some s1) none Result.zero false,
        ?_, fun h => absurd h hne, rfl, rfl, s1, rfl, herr1, rfl⟩
      simp only [Conn.Fetch, hq, hscan, Scanner.Text, htok, if_true, heof]
  obtain ⟨iter, hf, hcols, hend⟩ := key
  refine ⟨iter, hf, hcols, ?_⟩
  intro n
  obtain ⟨it, h1, h2⟩ := after_ended n iter body.closed hend
  obtain ⟨it1, h3, h4, h5⟩ := Next_ended it _ h2
  exact ⟨it, it1, h1, h3, h4, h5.2.1⟩

theorem fetch_without_rows_witness :
    ((sampleConn.doQuery sampleLib (okTransport (bodyOf "a\tb\n".toList))
        (fetchQuery "SELECT a, b FROM t".toList)).ret
        = .ok (some (bodyOf "a\tb\n".toList), none) ∧
      (bodyOf "a\tb\n".toList).err = none ∧
      ((bodyOf "a\tb\n".toList).data = [] ∨
        ∃ header, scanLines (bodyOf "a\tb\n".toList).data = [header]) ∧
      (∀ l ∈ rawLines (bodyOf "a\tb\n".toList).data, byteLen l < MaxScanTokenSize)) ∧
    ∃ iter, (sampleConn.Fetch sampleLib (okTransport (bodyOf "a\tb\n".toList))
        "SELECT a, b FROM t".toList).ret = .ok (iter, none) ∧
      ((bodyOf "a\tb\n".toList).data = [] → iter.columns = GoMap.empty) ∧
      ∀ n, ∃ it it1, iter.after n = .ok it ∧ it.Next = .ok (false, it1) ∧ it1.Err = none ∧
        it1.Result = Result.zero :=
  ⟨⟨rfl, rfl, Or.inr ⟨"a\tb".toList, by decide⟩, by decide⟩,
    fetch_without_rows sampleLib _ sampleConn "SELECT a, b FROM t".toList
      (bodyOf "a\tb\n".toList) rfl rfl (Or.inr ⟨"a\tb".toList, by decide⟩) (by decide)⟩

/-! ## Connection configuration: the attempts count -/

/-- C13 counterexample: after New and the call Attempts(0, 0) the attempts count is 0, and
doQuery sends no request -/
theorem attempts_zero_is_reachable :
    ((New "localhost".toList 8123 "default".toList []).1.calls [.Attempts 0 0]).attemptsAmount
      = 0 ∧
    (((New "localhost".toList 8123 "default".toList []).1.calls [.Attempts 0 0]).doQuery
      sampleLib (okTransport (bodyOf "a\n".toList)) "SELECT 1".toList).sent = [] :=
  ⟨rfl, rfl⟩

theorem calls_attemptsAmount (calls : List Setter) : ∀ (conn : Conn),
    1 ≤ conn.attemptsAmount → (∀ a w, Setter.Attempts a w ∈ calls → 1 ≤ a) →
    1 ≤ (conn.calls calls).attemptsAmount := by
  induction calls with
  | nil => intro conn h _; exact h
  | cons s rest ih =>
    intro conn h hs
    apply ih
    · cases s with
      | Attempts a w => exact hs a w (List.mem_cons_self _ _)
      | MaxMemoryUsage l => exact h
      | ConnectTimeout t => exact h
      | SendTimeout t => exact h
      | ReceiveTimeout t => exact h
    · intro a w hm
      exact hs a w (List.mem_cons_of_mem _ hm)

/-- With an attempts count of 1 or more, doQuery sends a request at least once -/
theorem doQuery_sends_once (L : StdLib) (net : Transport) (conn : Conn) (query : Str)
    (hatt : 1 ≤ conn.attemptsAmount) (hurl : L.urlError (conn.requestURL L) = none) :
    1 ≤ (conn.doQuery L net query).sent.length := by
  rw [doQuery_sent L net conn query hurl]
  obtain ⟨k, hk⟩ : ∃ k, conn.attemptsAmount.toNat = k + 1 :=
    ⟨conn.attemptsAmount.toNat - 1, by omega⟩
  have hpos : (0 : Int) < conn.attemptsAmount := by omega
  rw [hk]
  simp only [doQueryLoop, LoopState.isDone, LoopState.attempts, Bool.false_eq_true,
    not_false_eq_true, hpos, and_self, if_true]
  cases hstep : doQueryStep net conn.client (newRequest (conn.requestURL L) query) {} with
  | error p => simp
  | ok st1 =>
    have hle := doQueryLoop_sent_le net conn.client (newRequest (conn.requestURL L) query)
      conn.attemptsAmount k st1
    rw [doQueryStep_sent _ _ _ _ _ hstep] at hle
    simpa using hle

/-- C13, amended: a connection made by New and changed by any sequence of calls of the
setters in which every call of Attempts has an amount of 1 or more has an attempts count of
1 or more, and every call of doQuery on it, for a URL that is accepted, sends a request at
least once -/
theorem attempts_at_least_one (host : Str) (port : Int) (user pass : Str) (calls : List Setter)
    (h : ∀ a w, Setter.Attempts a w ∈ calls → 1 ≤ a) :
    1 ≤ ((New host port user pass).1.calls calls).attemptsAmount ∧
    ∀ (L : StdLib) (net : Transport) (query : Str),
      L.urlError (((New host port user pass).1.calls calls).requestURL L) = none →
      1 ≤ (((New host port user pass).1.calls calls).doQuery L net query).sent.length := by
  have h1 := calls_attemptsAmount calls (New host port user pass).1 (by simp [New]) h
  exact ⟨h1, fun L net query hurl => doQuery_sends_once L net _ query h1 hurl⟩

theorem attempts_at_least_one_witness :
    (∀ a w, Setter.Attempts a w ∈ [Setter.ConnectTimeout 5, Setter.Attempts 3 1] → 1 ≤ a) ∧
    1 ≤ ((New "localhost".toList 8123 "default".toList []).1.calls
      [Setter.ConnectTimeout 5, Setter.Attempts 3 1]).attemptsAmount :=
  ⟨by
      intro a w hm
      simp only [List.mem_cons, List.mem_singleton, reduceCtorEq, false_or,
        Setter.Attempts.injEq, List.mem_nil_iff, or_false] at hm
      omega,
    (attempts_at_least_one "localhost".toList 8123 "default".toList []
      [Setter.ConnectTimeout 5, Setter.Attempts 3 1] (by
        intro a w hm
        simp only [List.mem_cons, List.mem_singleton, reduceCtorEq, false_or,
          Setter.Attempts.injEq, List.mem_nil_iff, or_false] at hm
        omega)).1⟩

/-! ## Query executor: the bound on the retries -/

/-- What a round of the retry loop that does not panic leaves behind -/
theorem doQueryStep_ok (net : Transport) (client : Client) (req : Request)
    (st st1 : LoopState) (h : doQueryStep net client req st = .ok st1) :
    st1.sent = st.sent ++ [req] ∧ st1.attempts = st.attempts + 1 ∧
    (∀ res, net st.sent.length client req = .response res → res.StatusCode = 200 →
      st1.isDone = true) := by
  unfold doQueryStep at h
  simp only at h
  cases hnet : net st.sent.length client req with
  | failure e =>
    rw [hnet] at h
    simp only at h
    injection h with h
    subst h
    exact ⟨rfl, rfl, fun res hres => by simp at hres⟩
  | response res =>
    rw [hnet] at h
    simp only at h
    by_cases hs : res.StatusCode = 200
    · simp only [hs, ne_eq, not_true_eq_false, if_false] at h
      injection h with h
      subst h
      exact ⟨rfl, rfl, fun _ _ _ => rfl⟩
    · have key : st1.sent = st.sent ++ [req] ∧ st1.attempts = st.attempts + 1 := by
        simp only [ne_eq, hs, not_false_eq_true, if_true, ReadAll] at h
        split at h
        · exact absurd h (by simp)
        · split at h
          · split at h
            · exact absurd h (by simp)
            · injection h with h; subst h; exact ⟨rfl, rfl⟩
          · injection h with h; subst h; exact ⟨rfl, rfl⟩
      refine ⟨key.1, key.2, ?_⟩
      intro res2 hres hs2
      simp only [DoResult.response.injEq] at hres
      subst hres
      exact absurd hs2 hs

/-- A round of the retry loop only panics on a response that is not a 200 -/
theorem doQueryStep_error (net : Transport) (client : Client) (req : Request)
    (st : LoopState) (p : Panic) (h : doQueryStep net client req st = .error p) :
    ∀ res, net st.sent.length client req = .response res → res.StatusCode ≠ 200 := by
  intro res hres hs
  unfold doQueryStep at h
  simp only [hres, hs, ne_eq, not_true_eq_false, if_false] at h
  exact absurd h (by simp)

/-- The retry loop sends at most as many requests as the attempts count -/
theorem doQueryLoop_bound (net : Transport) (client : Client) (req : Request) (n : Nat) :
    ∀ (fuel : Nat) (st : LoopState), st.attempts = (st.sent.length : Int) →
      st.sent.length ≤ n → (doQueryLoop net client req (n : Int) fuel st).2.length ≤ n := by
  intro fuel
  induction fuel with
  | zero => intro st _ h; simpa [doQueryLoop] using h
  | succ fuel ih =>
    intro st hatt hlen
    simp only [doQueryLoop]
    split
    · rename_i hc
      have hlt : st.sent.length < n := by omega
      cases hstep : doQueryStep net client req st with
      | error p => simp; omega
      | ok st1 =>
        obtain ⟨h1, h2, -⟩ := doQueryStep_ok net client req st st1 hstep
        simp only
        apply ih
        · rw [h2, h1, hatt]; simp
        · rw [h1]; simp; omega
    · exact hlen

/-- The retry loop stops at the first response of status 200 -/
theorem doQueryLoop_stops (net : Transport) (client : Client) (req : Request) (amount : Int) :
    ∀ (fuel : Nat) (st : LoopState),
      (∀ i res, i < st.sent.length → net i client req = .response res →
        res.StatusCode = 200 → st.isDone = true ∧ st.sent.length = i + 1) →
      ∀ i res, i < (doQueryLoop net client req amount fuel st).2.length →
        net i client req = .response res → res.StatusCode = 200 →
        (doQueryLoop net client req amount fuel st).2.length = i + 1 := by
  intro fuel
  induction fuel with
  | zero =>
    intro st hq i res hi hres hs
    exact (hq i res (by simpa [doQueryLoop] using hi) hres hs).2
  | succ fuel ih =>
    intro st hq
    simp only [doQueryLoop]
    split
    · rename_i hc
      have hnd : st.isDone = false := by
        cases hd : st.isDone with
        | false => rfl
        | true => rw [hd] at hc; simp at hc
      cases hstep : doQueryStep net client req st with
      | error p =>
        intro i res hi hres hs
        simp only [List.length_append, List.length_singleton] at hi ⊢
        by_cases hlt : i < st.sent.length
        · have := (hq i res hlt hres hs).1
          rw [hnd] at this
          exact absurd this (by simp)
        · have hieq : i = st.sent.length := by omega
          subst hieq
          exact absurd hs (doQueryStep_error net client req st p hstep res hres)
      | ok st1 =>
        obtain ⟨h1, -, h3⟩ := doQueryStep_ok net client req st st1 hstep
        simp only
        apply ih
        intro i res hi hres hs
        rw [h1] at hi ⊢
        simp only [List.length_append, List.length_singleton] at hi ⊢
        by_cases hlt : i < st.sent.length
        · have := (hq i res hlt hres hs).1
          rw [hnd] at this
          exact absurd this (by simp)
        · have hieq : i = st.sent.length := by omega
          subst hieq
          exact ⟨h3 res hres hs, rfl⟩
    · intro i res hi hres hs
      exact (hq i res hi hres hs).2

/-- The retry loop on a transport that fails on every send: it uses up the attempts and
keeps the last error -/
theorem doQueryLoop_all_fail (net : Transport) (client : Client) (req : Request) (n : Nat)
    (hfail : ∀ i client req, i < n → ∃ e, net i client req = .failure e) :
    ∀ (k : Nat) (st : LoopState), st.isDone = false → st.sent.length + k + 1 = n →
      st.attempts = (st.sent.length : Int) →
      ∃ st1, doQueryLoop net client req (n : Int) (k + 1) st = (.ok st1, st1.sent) ∧
        st1.sent.length = n ∧
        ∀ e, net (n - 1) client req = .failure e → st1.err = some e := by
  intro k
  induction k with
  | zero =>
    intro st hd hlen hatt
    have hlt : st.attempts < (n : Int) := by omega
    have hidx : n - 1 = st.sent.length := by omega
    obtain ⟨e, he⟩ := hfail st.sent.length client req (by omega)
    refine ⟨⟨st.isDone, st.attempts + 1, none, some e, st.sent ++ [req]⟩, ?_, ?_, ?_⟩
    · simp [doQueryLoop, doQueryStep, hd, hlt, he]
    · simp; omega
    · intro e2 he2
      rw [hidx, he] at he2
      simp only [DoResult.failure.injEq] at he2
      rw [he2]
  | succ k ih =>
    intro st hd hlen hatt
    have hlt : st.attempts < (n : Int) := by omega
    obtain ⟨e, he⟩ := hfail st.sent.length client req (by omega)
    obtain ⟨st1, h1, h2⟩ := ih ⟨st.isDone, st.attempts + 1, none, some e, st.sent ++ [req]⟩ hd
      (by simp; omega) (by simp; omega)
    refine ⟨st1, ?_, h2⟩
    rw [← h1]
    simp [doQueryLoop, doQueryStep, hd, hlt, he]

theorem doQuery_sent_rejected (L : StdLib) (net : Transport) (conn : Conn) (query : Str)
    (e : Str) (hurl : L.urlError (conn.requestURL L) = some e) :
    (conn.doQuery L net query).sent = [] := by
  simp only [Conn.doQuery, hurl]

/-- C18: with an attempts count n of 1 or more, doQuery sends at most n requests on every
transport; a response of status 200 is the last request sent; and on a transport that
fails on every send, for a URL that is accepted, doQuery sends exactly n requests and
returns an error whose text ends with the text of the last transport error -/
theorem bounded_retry (L : StdLib) (net : Transport) (conn : Conn) (query : Str) (n : Nat)
    (hn : 1 ≤ n) (hatt : conn.attemptsAmount = (n : Int)) :
    (conn.doQuery L net query).sent.length ≤ n ∧
    (∀ i res, i < (conn.doQuery L net query).sent.length →
      net i conn.client (newRequest (conn.requestURL L) query) = .response res →
      res.StatusCode = 200 → (conn.doQuery L net query).sent.length = i + 1) ∧
    (L.urlError (conn.requestURL L) = none →
      (∀ i client req, i < n → ∃ e, net i client req = .failure e) →
      (conn.doQuery L net query).sent.length = n ∧
      ∀ e, net (n - 1) conn.client (newRequest (conn.requestURL L) query) = .failure e →
        (conn.doQuery L net query).ret = .ok (none,
          some ("Can't do request to host ".toList ++ conn.getFQDN.1 ++ ": ".toList ++ e))) := by
  cases hurl : L.urlError (conn.requestURL L) with
  | some e0 =>
    rw [doQuery_sent_rejected L net conn query e0 hurl]
    exact ⟨by simp, fun i res hi => by simp at hi, fun h => by simp at h⟩
  | none =>
    rw [doQuery_sent L net conn query hurl, hatt]
    refine ⟨?_, ?_, ?_⟩
    · exact doQueryLoop_bound net _ _ n _ {} rfl (by simp)
    · exact doQueryLoop_stops net _ _ _ _ {} (fun i res hi => by simp at hi)
    · intro _ hfail
      obtain ⟨k, rfl⟩ : ∃ k, n = k + 1 := ⟨n - 1, by omega⟩
      obtain ⟨st1, h1, h2, h3⟩ := doQueryLoop_all_fail net conn.client
        (newRequest (conn.requestURL L) query) (k + 1) hfail k {} rfl (by simp) rfl
      simp only [Int.toNat_ofNat]
      rw [h1]
      refine ⟨h2, ?_⟩
      intro e he
      have herr := h3 e he
      simp only [Conn.doQuery, hurl, getFQDN_attemptsAmount, hatt, Int.toNat_ofNat, h1, herr]

theorem bounded_retry_witness :
    (1 ≤ 2 ∧ (sampleConn.Attempts 2 0).attemptsAmount = ((2 : Nat) : Int)) ∧
    ((sampleConn.Attempts 2 0).doQuery sampleLib
      (scripted [] (.failure "connection refused".toList)) "SELECT 1".toList).sent.length ≤ 2 ∧
    ((sampleConn.Attempts 2 0).doQuery sampleLib
      (scripted [] (.failure "connection refused".toList)) "SELECT 1".toList).sent.length = 2 ∧
    ((sampleConn.Attempts 2 0).doQuery sampleLib
      (scripted [] (.failure "connection refused".toList)) "SELECT 1".toList).ret
      = .ok (none, some ("Can't do request to host ".toList ++ (sampleConn.Attempts 2 0).getFQDN.1
          ++ ": ".toList ++ "connection refused".toList)) :=
  ⟨⟨by decide, rfl⟩,
    (bounded_retry sampleLib (scripted [] (.failure "connection refused".toList))
      (sampleConn.Attempts 2 0) "SELECT 1".toList 2 (by decide) rfl).1,
    ((bounded_retry sampleLib (scripted [] (.failure "connection refused".toList))
      (sampleConn.Attempts 2 0) "SELECT 1".toList 2 (by decide) rfl).2.2 rfl
      (fun _ _ _ _ => ⟨_, rfl⟩)).1,
    ((bounded_retry sampleLib (scripted [] (.failure "connection refused".toList))
      (sampleConn.Attempts 2 0) "SELECT 1".toList 2 (by decide) rfl).2.2 rfl
      (fun _ _ _ _ => ⟨_, rfl⟩)).2 _ rfl⟩

/-! ## Query rewrite of Fetch: what is stripped before the clause -/

/-- A text that ends in the word FORMAT, a space and letters or digits ends in a FORMAT
clause -/
theorem endsInFormatClause_intro (b0 a : Str) (hne : a ≠ [])
    (ha : ∀ c ∈ a, isAlnum c = true) :
    endsInFormatClause (b0 ++ ("FORMAT ".toList ++ a)) = true := by
  have hrev : (b0 ++ ("FORMAT ".toList ++ a)).reverse
      = a.reverse ++ (" TAMROF".toList ++ b0.reverse) := by
    simp [List.reverse_append]
  have hall : ∀ c ∈ a.reverse, isAlnum c = true := fun c hc => ha c (List.mem_reverse.1 hc)
  have ht : (a.reverse ++ (" TAMROF".toList ++ b0.reverse)).takeWhile isAlnum = a.reverse := by
    rw [List.takeWhile_append_of_pos hall]
    have : (" TAMROF".toList ++ b0.reverse).takeWhile isAlnum = [] := by
      show (' ' :: ("TAMROF".toList ++ b0.reverse)).takeWhile isAlnum = []
      rw [List.takeWhile_cons]
      rfl
    rw [this, List.append_nil]
  have hd : (a.reverse ++ (" TAMROF".toList ++ b0.reverse)).dropWhile isAlnum
      = " TAMROF".toList ++ b0.reverse := by
    rw [List.dropWhile_append_of_pos hall]
    show (' ' :: ("TAMROF".toList ++ b0.reverse)).dropWhile isAlnum = _
    rw [List.dropWhile_cons]
    rfl
  unfold endsInFormatClause
  rw [hrev, ht, hd]
  have h1 : a.reverse.isEmpty = false := by
    cases h : a.reverse with
    | nil => exact absurd (List.reverse_eq_nil_iff.1 h) hne
    | cons c cs => rfl
  have h2 : " TAMROF".toList.isPrefixOf (" TAMROF".toList ++ b0.reverse) = true := by
    rw [List.isPrefixOf_iff_prefix]
    exact List.prefix_append _ _
  rw [h1, h2]
  rfl

theorem space_mem_drop_format : ∀ k : Fin 7, ' ' ∈ ("FORMAT ".toList).drop k.val := by
  decide

/-- The word FORMAT and a space cannot come after the start of a FORMAT clause -/
theorem format_not_inside_clause (w a1 a : Str) (hw : w ≠ [])
    (ha : ∀ c ∈ a, isAlnum c = true)
    (h : w ++ ("FORMAT ".toList ++ a1) = "FORMAT ".toList ++ a) : False := by
  have hdrop : a = (w ++ ("FORMAT ".toList ++ a1)).drop 7 := by
    rw [h]
    rfl
  have hmem : ' ' ∈ a := by
    rw [hdrop, List.drop_append_eq_append_drop]
    apply List.mem_append_right
    rw [List.drop_append_eq_append_drop]
    apply List.mem_append_left
    have hk : 7 - w.length < 7 := by
      have := List.length_pos.2 hw
      omega
    exact space_mem_drop_format ⟨7 - w.length, hk⟩
  exact absurd (ha ' ' hmem) (by decide)

theorem formatTail_split (name : Option Str) (n1 n2 : Nat) (semi : Bool)
    (hname : ∀ a, name = some a → a ≠ [] ∧ ∀ c ∈ a, isAlnum c = true) :
    ∃ f, formatTail name n1 semi n2 = f ++ queryTail n1 semi n2 ∧
      (f = [] ∨ ∃ a, a ≠ [] ∧ (∀ c ∈ a, isAlnum c = true) ∧ f = "FORMAT ".toList ++ a) := by
  cases name with
  | none => exact ⟨[], rfl, Or.inl rfl⟩
  | some a =>
    obtain ⟨h1, h2⟩ := hname a rfl
    exact ⟨"FORMAT ".toList ++ a, rfl, Or.inr ⟨a, h1, h2, rfl⟩⟩

/-- The pattern of Fetch matches every tail: an optional FORMAT clause, then spaces with
at most one semicolon -/
theorem formatRe_match_formatTail (name : Option Str) (n1 n2 : Nat) (semi : Bool)
    (hname : ∀ a, name = some a → a ≠ [] ∧ ∀ c ∈ a, isAlnum c = true) :
    formatRe.matchAt (formatTail name n1 semi n2) = some [] := by
  obtain ⟨f, hf, hfmt⟩ := formatTail_split name n1 n2 semi hname
  rw [hf]
  have hsem : formatRe.Sem (f ++ queryTail n1 semi n2) [] := by
    refine ⟨f, queryTail n1 semi n2, rfl, ?_, List.replicate n1 ' ',
      (if semi then [';'] else []) ++ List.replicate n2 ' ', by simp [queryTail], ?_,
      (if semi then [';'] else []), List.replicate n2 ' ', rfl, ?_,
      List.replicate n2 ' ', [], by simp, ?_, rfl, rfl⟩
    · rcases hfmt with h0 | ⟨a, hne, ha, rfl⟩
      · exact Or.inl h0
      · exact Or.inr ⟨"FORMAT ".toList, a, rfl, rfl, hne, ha⟩
    · intro c hc
      rw [List.eq_of_mem_replicate hc]
      rfl
    · cases semi
      · exact Or.inl rfl
      · exact Or.inr rfl
    · intro c hc
      rw [List.eq_of_mem_replicate hc]
      rfl
  have hsome := run_complete formatRe (f ++ queryTail n1 semi n2) [] some hsem rfl
  rw [List.append_nil] at hsome
  cases hm : formatRe.matchAt (f ++ queryTail n1 semi n2) with
  | none =>
    unfold Re.matchAt at hm
    rw [hm] at hsome
    exact absurd hsome (by simp)
  | some x => rw [(formatRe_match _ x hm).1]

/-- The pattern of Fetch does not match before the tail: not at a position inside a text
that ends in neither a space, nor a semicolon, nor a FORMAT clause -/
theorem formatRe_no_match_before_formatTail (b0 w : Str) (name : Option Str)
    (n1 n2 : Nat) (semi : Bool) (hw : w ≠ [])
    (hname : ∀ a, name = some a → a ≠ [] ∧ ∀ c ∈ a, isAlnum c = true)
    (hsp : (b0 ++ w).getLast? ≠ some ' ') (hsc : (b0 ++ w).getLast? ≠ some ';')
    (hfc : endsInFormatClause (b0 ++ w) = false) :
    formatRe.matchAt (w ++ formatTail name n1 semi n2) = none := by
  cases hm : formatRe.matchAt (w ++ formatTail name n1 semi n2) with
  | none => rfl
  | some r =>
    exfalso
    obtain ⟨-, f, j, hfj, hfmt, hj, -⟩ := formatRe_match _ r hm
    rcases List.eq_nil_or_concat w with rfl | ⟨w0, x, rfl⟩
    · exact hw rfl
    rw [List.concat_eq_append] at hfj hsp hsc hfc hw
    have hlast : (b0 ++ (w0 ++ [x])).getLast? = some x := by
      rw [← List.append_assoc, List.getLast?_append]
      simp
    rw [hlast] at hsp hsc
    have hx : ¬ isJunk x := by
      rintro (h | h)
      · exact hsp (by rw [h])
      · exact hsc (by rw [h])
    cases name with
    | none =>
      have ht : formatTail none n1 semi n2 = queryTail n1 semi n2 := rfl
      rw [ht] at hfj
      rcases hfmt with rfl | ⟨a, hane, ha, rfl⟩
      · apply hx
        apply hj
        rw [List.nil_append] at hfj
        rw [← hfj]
        simp
      · rcases List.eq_nil_or_concat a with rfl | ⟨a0, y, rfl⟩
        · exact hane rfl
        rw [List.concat_eq_append] at hfj ha hane
        have hy : isAlnum y = true := ha y (by simp)
        have heq : w0 ++ [x] = ("FORMAT ".toList ++ a0) ++ [y] := by
          apply append_junk_unique w0 ("FORMAT ".toList ++ a0) (queryTail n1 semi n2) j x y _ hx
            (isAlnum_not_junk y hy) (queryTail_junk n1 n2 semi) hj
          rw [hfj]
          simp
        rw [heq, List.append_assoc] at hfc
        rw [endsInFormatClause_intro b0 (a0 ++ [y]) hane ha] at hfc
        exact absurd hfc (by simp)
    | some a1 =>
      obtain ⟨h1ne, h1⟩ := hname a1 rfl
      have ht : formatTail (some a1) n1 semi n2
          = ("FORMAT ".toList ++ a1) ++ queryTail n1 semi n2 := rfl
      rw [ht] at hfj
      rcases List.eq_nil_or_concat a1 with rfl | ⟨a10, y1, rfl⟩
      · exact h1ne rfl
      rw [List.concat_eq_append] at hfj h1 h1ne
      have hy1 : isAlnum y1 = true := h1 y1 (by simp)
      rcases hfmt with rfl | ⟨a, hane, ha, rfl⟩
      · apply isAlnum_not_junk y1 hy1
        apply hj
        rw [List.nil_append] at hfj
        rw [← hfj]
        simp
      · rcases List.eq_nil_or_concat a with rfl | ⟨a0, y, rfl⟩
        · exact hane rfl
        rw [List.concat_eq_append] at hfj ha hane
        have hy : isAlnum y = true := ha y (by simp)
        have heq : ((w0 ++ [x]) ++ ("FORMAT ".toList ++ a10)) ++ [y1]
            = ("FORMAT ".toList ++ a0) ++ [y] := by
          apply append_junk_unique _ ("FORMAT ".toList ++ a0) (queryTail n1 semi n2) j y1 y _
            (isAlnum_not_junk y1 hy1) (isAlnum_not_junk y hy) (queryTail_junk n1 n2 semi) hj
          simpa using hfj
        apply format_not_inside_clause (w0 ++ [x]) (a10 ++ [y1]) (a0 ++ [y]) hw ha
        rw [← List.append_assoc "FORMAT ".toList a0, ← heq]
        simp

/-- The search of the pattern of Fetch in a query finds the tail of the query -/
theorem formatRe_search_formatTail (name : Option Str) (n1 n2 : Nat) (semi : Bool)
    (hname : ∀ a, name = some a → a ≠ [] ∧ ∀ c ∈ a, isAlnum c = true) :
    ∀ (w b0 : Str) (pos : Nat), (b0 ++ w).getLast? ≠ some ' ' →
      (b0 ++ w).getLast? ≠ some ';' → endsInFormatClause (b0 ++ w) = false →
      formatRe.search (w ++ formatTail name n1 semi n2) pos =
        some (pos + w.length, pos + w.length + (formatTail name n1 semi n2).length) := by
  intro w
  induction w with
  | nil =>
    intro b0 pos _ _ _
    have hm := formatRe_match_formatTail name n1 n2 semi hname
    simp only [List.nil_append, List.length_nil, Nat.add_zero]
    cases ht : formatTail name n1 semi n2 with
    | nil =>
      rw [ht] at hm
      simp [Re.search, hm]
    | cons c cs =>
      rw [ht] at hm
      simp [Re.search, hm]
  | cons c cs ih =>
    intro b0 pos hsp hsc hfc
    have hnone := formatRe_no_match_before_formatTail b0 (c :: cs) name n1 n2 semi (by simp)
      hname hsp hsc hfc
    have hb : b0 ++ c :: cs = (b0 ++ [c]) ++ cs := by simp
    rw [hb] at hsp hsc hfc
    have := ih (b0 ++ [c]) (pos + 1) hsp hsc hfc
    rw [List.cons_append] at hnone ⊢
    simp only [Re.search, hnone, this, List.length_cons]
    congr 2 <;> omega

/-- C17: for every base query b that ends in neither a space, nor a semicolon, nor a
FORMAT clause (the word FORMAT, a space, letters or digits), and every tail made of an
optional FORMAT clause, spaces, at most one semicolon and spaces, the query that Fetch
sends for b followed by the tail is exactly b followed by the clause
FORMAT TabSeparatedWithNames with its leading space -/
theorem fetchQuery_strips_tail (b : Str) (name : Option Str) (n1 n2 : Nat) (semi : Bool)
    (hname : ∀ a, name = some a → a ≠ [] ∧ ∀ c ∈ a, isAlnum c = true)
    (hsp : b.getLast? ≠ some ' ') (hsc : b.getLast? ≠ some ';')
    (hfc : endsInFormatClause b = false) :
    fetchQuery (b ++ formatTail name n1 semi n2)
      = b ++ " FORMAT TabSeparatedWithNames".toList := by
  have hsearch := formatRe_search_formatTail name n1 n2 semi hname b [] 0
    (by simpa using hsp) (by simpa using hsc) (by simpa using hfc)
  unfold fetchQuery
  rw [replaceAll_to_end formatRe _ _ b.length [] (by simpa using hsearch) (by decide)
    (by simp)]
  simp

theorem fetchQuery_strips_tail_witness :
    "SELECT 1".toList.getLast? ≠ some ' ' ∧ "SELECT 1".toList.getLast? ≠ some ';' ∧
    endsInFormatClause "SELECT 1".toList = false ∧
    fetchQuery ("SELECT 1".toList ++ formatTail (some "JSON".toList) 2 true 1)
      = "SELECT 1".toList ++ " FORMAT TabSeparatedWithNames".toList :=
  ⟨by decide, by decide, by decide,
    fetchQuery_strips_tail "SELECT 1".toList (some "JSON".toList) 2 1 true
      (by
        intro a ha
        cases ha
        exact ⟨by decide, by decide⟩)
      (by decide) (by decide) (by decide)⟩

/-! ## Typed accessors: dates and times -/

theorem skip_dash (v : Str) :
    skip 2 v ['-'] = match v with
      | c :: rest => if c = '-' then .ok rest else .error v
      | [] => .error v := by
  cases v with
  | nil => rfl
  | cons c rest =>
    by_cases h : c = '-'
    · subst h
      rfl
    · simp [skip, h]

theorem getnum_fixed (s : Str) :
    getnum s true = match s with
      | c0 :: c1 :: rest =>
        if isDigitChar c0 = true ∧ isDigitChar c1 = true then
          some (digitsValue [c0, c1] 0, rest) else none
      | _ => none := by
  rcases s with _ | ⟨c0, _ | ⟨c1, rest⟩⟩
  · rfl
  · simp [getnum]
  · by_cases h0 : isDigitChar c0 = true <;> by_cases h1 : isDigitChar c1 = true <;>
      simp [getnum, h0, h1, digitsValue]

theorem skip_nil (v : Str) : skip 1 v [] = .ok v := rfl

theorem skip_dash_ok (v v1 : Str) : skip 2 v ['-'] = .ok v1 ↔ v = '-' :: v1 := by
  rw [skip_dash]
  cases v with
  | nil => simp
  | cons c rest =>
    by_cases h : c = '-'
    · simp [h]
    · simp [h]

theorem getnum_fixed_some (s : Str) (n : Nat) (rest : Str) :
    getnum s true = some (n, rest) ↔
      ∃ c0 c1, s = c0 :: c1 :: rest ∧ isDigitChar c0 = true ∧ isDigitChar c1 = true ∧
        n = digitsValue [c0, c1] 0 := by
  rw [getnum_fixed]
  rcases s with _ | ⟨c0, _ | ⟨c1, r⟩⟩
  · simp
  · simp
  · by_cases h : isDigitChar c0 = true ∧ isDigitChar c1 = true
    · simp only [h, and_self, if_true, Option.some.injEq, Prod.mk.injEq, List.cons.injEq]
      constructor
      · rintro ⟨rfl, rfl⟩
        exact ⟨c0, c1, ⟨rfl, rfl, rfl⟩, h.1, h.2, rfl⟩
      · rintro ⟨a0, a1, ⟨rfl, rfl, rfl⟩, -, -, rfl⟩
        exact ⟨rfl, rfl⟩
    · simp only [h, if_false, false_iff, reduceCtorEq]
      rintro ⟨a0, a1, hs, h0, h1, -⟩
      simp only [List.cons.injEq] at hs
      obtain ⟨rfl, rfl, -⟩ := hs
      exact h ⟨h0, h1⟩

theorem parseStd_year (st : ParseState) :
    parseStd .stdLongYear st = match st.value with
      | y1 :: y2 :: y3 :: y4 :: rest =>
        if isDigitChar y1 = true ∧ isDigitChar y2 = true ∧ isDigitChar y3 = true
            ∧ isDigitChar y4 = true then
          .ok { st with year := digitsValue [y1, y2, y3, y4] 0, value := rest }
        else .error (.cannotParse, st.value)
      | _ => .error (.cannotParse, st.value) := by
  rcases st with ⟨a, b, c, d, e, f, g, v⟩
  rcases v with _ | ⟨y1, _ | ⟨y2, _ | ⟨y3, _ | ⟨y4, rest⟩⟩⟩⟩
  · simp [parseStd]
  · simp [parseStd]
  · simp [parseStd]
  · simp [parseStd]
  · by_cases h1 : isDigitChar y1 = true <;> by_cases h2 : isDigitChar y2 = true <;>
      by_cases h3 : isDigitChar y3 = true <;> by_cases h4 : isDigitChar y4 = true <;>
      simp [parseStd, isDigit, atoiDigits, digitsValue, h1, h2, h3, h4]

theorem parseStd_year_ok (st st1 : ParseState) :
    parseStd .stdLongYear st = .ok st1 ↔
      ∃ y1 y2 y3 y4 rest, st.value = y1 :: y2 :: y3 :: y4 :: rest ∧
        isDigitChar y1 = true ∧ isDigitChar y2 = true ∧ isDigitChar y3 = true ∧
        isDigitChar y4 = true ∧
        st1 = { st with year := digitsValue [y1, y2, y3, y4] 0, value := rest } := by
  rw [parseStd_year]
  rcases st with ⟨a, b, c, d, e, f, g, v⟩
  rcases v with _ | ⟨y1, _ | ⟨y2, _ | ⟨y3, _ | ⟨y4, rest⟩⟩⟩⟩
  · simp
  · simp
  · simp
  · simp
  · by_cases h : isDigitChar y1 = true ∧ isDigitChar y2 = true ∧ isDigitChar y3 = true
        ∧ isDigitChar y4 = true
    · simp only [h, and_self, if_true, Except.ok.injEq, List.cons.injEq]
      constructor
      · rintro rfl
        exact ⟨y1, y2, y3, y4, rest, ⟨rfl, rfl, rfl, rfl, rfl⟩, h.1, h.2.1, h.2.2.1, h.2.2.2, rfl⟩
      · rintro ⟨a1, a2, a3, a4, r, ⟨rfl, rfl, rfl, rfl, rfl⟩, -, -, -, -, rfl⟩
        rfl
    · simp only [h, if_false, reduceCtorEq, false_iff, List.cons.injEq]
      rintro ⟨a1, a2, a3, a4, r, ⟨rfl, rfl, rfl, rfl, rfl⟩, h1, h2, h3, h4, -⟩
      exact h ⟨h1, h2, h3, h4⟩

theorem parseStd_month_ok (st st1 : ParseState) :
    parseStd .stdZeroMonth st = .ok st1 ↔
      ∃ c0 c1 rest, st.value = c0 :: c1 :: rest ∧ isDigitChar c0 = true ∧
        isDigitChar c1 = true ∧ 1 ≤ digitsValue [c0, c1] 0 ∧ digitsValue [c0, c1] 0 ≤ 12 ∧
        st1 = { st with month := digitsValue [c0, c1] 0, value := rest } := by
  unfold parseStd
  cases hg : getnum st.value true with
  | none =>
    simp only [reduceCtorEq, false_iff]
    rintro ⟨c0, c1, rest, hv, h0, h1, -, -, -⟩
    have := (getnum_fixed_some st.value _ rest).2 ⟨c0, c1, hv, h0, h1, rfl⟩
    rw [hg] at this
    exact absurd this (by simp)
  | some p =>
    obtain ⟨m, rest⟩ := p
    obtain ⟨c0, c1, hv, h0, h1, rfl⟩ := (getnum_fixed_some _ _ _).1 hg
    by_cases hm : digitsValue [c0, c1] 0 = 0 ∨ 12 < digitsValue [c0, c1] 0
    · simp only [hm, if_true, reduceCtorEq, false_iff]
      rintro ⟨a0, a1, r, hv1, -, -, hlo, hhi, -⟩
      rw [hv] at hv1
      simp only [List.cons.injEq] at hv1
      obtain ⟨rfl, rfl, rfl⟩ := hv1
      omega
    · simp only [hm, if_false, Except.ok.injEq]
      constructor
      · rintro rfl
        exact ⟨c0, c1, rest, hv, h0, h1, by omega, by omega, rfl⟩
      · rintro ⟨a0, a1, r, hv1, -, -, -, -, rfl⟩
        rw [hv] at hv1
        simp only [List.cons.injEq] at hv1
        obtain ⟨rfl, rfl, rfl⟩ := hv1
        rfl

theorem parseStd_day_ok (st st1 : ParseState) :
    parseStd .stdZeroDay st = .ok st1 ↔
      ∃ c0 c1 rest, st.value = c0 :: c1 :: rest ∧ isDigitChar c0 = true ∧
        isDigitChar c1 = true ∧
        st1 = { st with day := digitsValue [c0, c1] 0, value := rest } := by
  unfold parseStd
  cases hg : getnum st.value true with
  | none =>
    simp only [reduceCtorEq, false_iff]
    rintro ⟨c0, c1, rest, hv, h0, h1, -⟩
    have := (getnum_fixed_some st.value _ rest).2 ⟨c0, c1, hv, h0, h1, rfl⟩
    rw [hg] at this
    exact absurd this (by simp)
  | some p =>
    obtain ⟨m, rest⟩ := p
    obtain ⟨c0, c1, hv, h0, h1, rfl⟩ := (getnum_fixed_some _ _ _).1 hg
    simp only [Except.ok.injEq]
    constructor
    · rintro rfl
      exact ⟨c0, c1, rest, hv, h0, h1, rfl⟩
    · rintro ⟨a0, a1, r, hv1, -, -, rfl⟩
      rw [hv] at hv1
      simp only [List.cons.injEq] at hv1
      obtain ⟨rfl, rfl, rfl⟩ := hv1
      rfl

theorem parseChunks_cons_ok (layout value pre : Str) (std : Std) (chunks : List (Str × Std))
    (st st2 : ParseState) :
    parseChunks layout value ((pre, std) :: chunks) st = .ok st2 ↔
      ∃ v st1, skip (pre.length + 1) st.value pre = .ok v ∧
        parseStd std { st with value := v } = .ok st1 ∧
        parseChunks layout value chunks st1 = .ok st2 := by
  rw [parseChunks]
  cases hs : skip (pre.length + 1) st.value pre with
  | error e => simp
  | ok v =>
    cases hp : parseStd std { st with value := v } with
    | error e =>
      obtain ⟨msg, elem⟩ := e
      simp [hp]
    | ok st1 => simp [hp]

theorem timeParse_ok (layout : Str) (chunks : List (Str × Std)) (value : Str) (t : Time) :
    timeParse layout chunks value = .ok t ↔
      ∃ st, parseChunks layout value chunks { value := value } = .ok st ∧ st.value = [] ∧
        1 ≤ st.day ∧ st.day ≤ daysIn st.month st.year ∧
        t = ⟨st.year, st.month, st.day, st.hour, st.min, st.sec, st.nsec⟩ := by
  unfold timeParse
  cases hp : parseChunks layout value chunks { value := value } with
  | error e => simp
  | ok st =>
    by_cases hv : st.value = []
    · by_cases hd : st.day < 1 ∨ st.day > daysIn st.month st.year
      · simp only [hv, ne_eq, not_true_eq_false, if_false, hd, if_true, reduceCtorEq,
          Except.ok.injEq, exists_eq_left', true_and, false_iff]
        rintro ⟨h1, h2, -⟩
        omega
      · simp only [hv, ne_eq, not_true_eq_false, if_false, hd, Except.ok.injEq,
          exists_eq_left', true_and]
        constructor
        · rintro rfl
          exact ⟨by omega, by omega, rfl⟩
        · rintro ⟨-, -, rfl⟩
          rfl
    · simp [hv]

theorem parseChunks_nil_ok (layout value : Str) (st st2 : ParseState) :
    parseChunks layout value [] st = .ok st2 ↔ st2 = st := by
  simp [parseChunks, eq_comm]

/-- What the three elements of the date layout read: four digits, a dash, two digits of a
month from 1 to 12, a dash, two digits -/
theorem parseChunks_date_ok (layout value : Str) (st0 st : ParseState) :
    parseChunks layout value dateLayout st0 = .ok st ↔
      ∃ y1 y2 y3 y4 m1 m2 d1 d2 rest,
        st0.value = y1 :: y2 :: y3 :: y4 :: '-' :: m1 :: m2 :: '-' :: d1 :: d2 :: rest ∧
        [y1, y2, y3, y4, m1, m2, d1, d2].all isDigitChar = true ∧
        1 ≤ digitsValue [m1, m2] 0 ∧ digitsValue [m1, m2] 0 ≤ 12 ∧
        st = { st0 with year := digitsValue [y1, y2, y3, y4] 0, month := digitsValue [m1, m2] 0,
                        day := digitsValue [d1, d2] 0, value := rest } := by
  simp only [dateLayout, parseChunks_cons_ok, parseChunks_nil_ok, List.length_nil,
    List.length_cons, Nat.zero_add, Nat.reduceAdd, skip_nil, skip_dash_ok, parseStd_year_ok,
    parseStd_month_ok, parseStd_day_ok, Except.ok.injEq]
  constructor
  · rintro ⟨v1, st1, rfl, ⟨y1, y2, y3, y4, r1, hv1, hy1, hy2, hy3, hy4, rfl⟩,
      v2, st2, hv2, ⟨m1, m2, r2, hv3, hm1, hm2, hlo, hhi, rfl⟩,
      v3, st3, hv4, ⟨d1, d2, r3, hv5, hd1, hd2, rfl⟩, rfl⟩
    simp only at hv1 hv2 hv3 hv4 hv5
    subst hv5 hv4 hv3 hv2
    exact ⟨y1, y2, y3, y4, m1, m2, d1, d2, r3, hv1, by simp [hy1, hy2, hy3, hy4, hm1, hm2, hd1, hd2],
      hlo, hhi, rfl⟩
  · rintro ⟨y1, y2, y3, y4, m1, m2, d1, d2, rest, hv, hall, hlo, hhi, rfl⟩
    simp only [List.all_cons, List.all_nil, Bool.and_true, Bool.and_eq_true] at hall
    obtain ⟨hy1, hy2, hy3, hy4, hm1, hm2, hd1, hd2⟩ := hall
    exact ⟨_, _, rfl, ⟨y1, y2, y3, y4, _, hv, hy1, hy2, hy3, hy4, rfl⟩,
      _, _, rfl, ⟨m1, m2, _, rfl, hm1, hm2, hlo, hhi, rfl⟩,
      _, _, rfl, ⟨d1, d2, _, rfl, hd1, hd2, rfl⟩, rfl⟩

theorem isStrictDate_iff (s : Str) :
    isStrictDate s = true ↔
      ∃ y1 y2 y3 y4 m1 m2 d1 d2,
        s = [y1, y2, y3, y4, '-', m1, m2, '-', d1, d2] ∧
        [y1, y2, y3, y4, m1, m2, d1, d2].all isDigitChar = true ∧
        1 ≤ digitsValue [m1, m2] 0 ∧ digitsValue [m1, m2] 0 ≤ 12 ∧
        1 ≤ digitsValue [d1, d2] 0 ∧
        digitsValue [d1, d2] 0 ≤ daysIn (digitsValue [m1, m2] 0) (digitsValue [y1, y2, y3, y4] 0) := by
  constructor
  · intro h
    rcases s with _ | ⟨y1, _ | ⟨y2, _ | ⟨y3, _ | ⟨y4, _ | ⟨p1, _ | ⟨m1, _ | ⟨m2, _ | ⟨p2, _ | ⟨d1, _ | ⟨d2, _ | ⟨x, rest⟩⟩⟩⟩⟩⟩⟩⟩⟩⟩⟩
    all_goals try (simp [isStrictDate] at h; done)
    simp only [isStrictDate, Bool.and_eq_true, beq_iff_eq, decide_eq_true_eq] at h
    obtain ⟨⟨⟨hall, rfl⟩, rfl⟩, h1, h2, h3, h4⟩ := h
    exact ⟨y1, y2, y3, y4, m1, m2, d1, d2, rfl, hall, h1, h2, h3, h4⟩
  · rintro ⟨y1, y2, y3, y4, m1, m2, d1, d2, rfl, hall, h1, h2, h3, h4⟩
    simp only [isStrictDate, Bool.and_eq_true, beq_iff_eq, decide_eq_true_eq]
    exact ⟨⟨⟨hall, trivial⟩, trivial⟩, h1, h2, h3, h4⟩

/-- The layout of Date accepts exactly the texts of the strict shape -/
theorem timeParse_date_ok (layout s : Str) :
    (∃ t, timeParse layout dateLayout s = .ok t) ↔ isStrictDate s = true := by
  rw [isStrictDate_iff]
  simp only [timeParse_ok, parseChunks_date_ok]
  constructor
  · rintro ⟨t, st, ⟨y1, y2, y3, y4, m1, m2, d1, d2, rest, hv, hall, hlo, hhi, rfl⟩, hnil, hd1, hd2, -⟩
    simp only at hv hnil hd1 hd2
    subst hnil
    exact ⟨y1, y2, y3, y4, m1, m2, d1, d2, hv, hall, hlo, hhi, hd1, hd2⟩
  · rintro ⟨y1, y2, y3, y4, m1, m2, d1, d2, rfl, hall, hlo, hhi, hd1, hd2⟩
    exact ⟨_, _, ⟨y1, y2, y3, y4, m1, m2, d1, d2, [], rfl, hall, hlo, hhi, rfl⟩, rfl, hd1, hd2, rfl⟩

theorem parseChunks_append_ok (layout value : Str) (a b : List (Str × Std)) :
    ∀ (st st2 : ParseState), parseChunks layout value (a ++ b) st = .ok st2 ↔
      ∃ st1, parseChunks layout value a st = .ok st1 ∧
        parseChunks layout value b st1 = .ok st2 := by
  induction a with
  | nil =>
    intro st st2
    simp [parseChunks_nil_ok]
  | cons c cs ih =>
    intro st st2
    obtain ⟨pre, std⟩ := c
    simp only [List.cons_append, parseChunks_cons_ok, ih]
    constructor
    · rintro ⟨v, st1, h1, h2, st3, h3, h4⟩
      exact ⟨st3, ⟨v, st1, h1, h2, h3⟩, h4⟩
    · rintro ⟨st3, ⟨v, st1, h1, h2, h3⟩, h4⟩
      exact ⟨v, st1, h1, h2, st3, h3, h4⟩

theorem cutspace_digit (c : Char) (s : Str) (h : isDigitChar c = true) :
    cutspace (c :: s) = c :: s := by
  have hc : c ≠ ' ' := by
    rintro rfl
    exact absurd h (by decide)
  rw [cutspace]
  intro s1 h1
  simp only [List.cons.injEq] at h1
  exact hc h1.1

theorem skip_space_digit (c : Char) (s : Str) (h : isDigitChar c = true) :
    skip 2 (' ' :: c :: s) [' '] = .ok (c :: s) := by
  simp [skip, cutspace, cutspace_digit c s h]

theorem skip_colon (s : Str) : skip 2 (':' :: s) [':'] = .ok s := by
  simp [skip]

theorem getnum_two_digits (c0 c1 : Char) (rest : Str) (fixed : Bool)
    (h0 : isDigitChar c0 = true) (h1 : isDigitChar c1 = true) :
    getnum (c0 :: c1 :: rest) fixed = some (digitsValue [c0, c1] 0, rest) := by
  simp [getnum, h0, h1, digitsValue]

/-- The elements of the layout after the date, read from a time of day of the strict
shape -/
theorem parseChunks_clock (layout value : Str) (st : ParseState) (h1 h2 m1 m2 s1 s2 : Char)
    (hd : [h1, h2, m1, m2, s1, s2].all isDigitChar = true)
    (hh : digitsValue [h1, h2] 0 < 24) (hm : digitsValue [m1, m2] 0 < 60)
    (hs : digitsValue [s1, s2] 0 < 60)
    (hv : st.value = [' ', h1, h2, ':', m1, m2, ':', s1, s2]) :
    parseChunks layout value [([' '], .stdHour), ([':'], .stdZeroMinute), ([':'], .stdZeroSecond)] st
      = .ok { st with hour := digitsValue [h1, h2] 0, min := digitsValue [m1, m2] 0,
                      sec := digitsValue [s1, s2] 0, value := [] } := by
  simp only [List.all_cons, List.all_nil, Bool.and_true, Bool.and_eq_true] at hd
  obtain ⟨hh1, hh2, hm1, hm2, hs1, hs2⟩ := hd
  have e1 : ¬ (24 ≤ digitsValue [h1, h2] 0) := by omega
  have e2 : ¬ (60 ≤ digitsValue [m1, m2] 0) := by omega
  have e3 : ¬ (60 ≤ digitsValue [s1, s2] 0) := by omega
  simp only [parseChunks, hv, List.length_cons, List.length_nil, Nat.zero_add, Nat.reduceAdd,
    skip_space_digit h1 _ hh1, skip_colon, parseStd, getnum_two_digits h1 h2 _ false hh1 hh2,
    getnum_two_digits m1 m2 _ true hm1 hm2, getnum_two_digits s1 s2 _ true hs1 hs2,
    e1, e2, e3, if_false, parseFraction]

/-- The elements of the layout after the date leave year, month and day as they are -/
theorem parseStd_keeps_date (std : Std) (st st1 : ParseState)
    (hstd : std = .stdHour ∨ std = .stdZeroMinute ∨ std = .stdZeroSecond)
    (h : parseStd std st = .ok st1) :
    st1.year = st.year ∧ st1.month = st.month ∧ st1.day = st.day := by
  rcases hstd with rfl | rfl | rfl
  · unfold parseStd at h
    simp only at h
    split at h
    · split at h
      · exact absurd h (by simp)
      · simp only [Except.ok.injEq] at h
        subst h
        exact ⟨rfl, rfl, rfl⟩
    · exact absurd h (by simp)
  · unfold parseStd at h
    simp only at h
    split at h
    · split at h
      · exact absurd h (by simp)
      · simp only [Except.ok.injEq] at h
        subst h
        exact ⟨rfl, rfl, rfl⟩
    · exact absurd h (by simp)
  · unfold parseStd at h
    simp only at h
    split at h
    · split at h
      · exact absurd h (by simp)
      · simp only [Except.ok.injEq] at h
        subst h
        unfold parseFraction
        simp only
        split
        · split
          · split
            · exact ⟨rfl, rfl, rfl⟩
            · exact ⟨rfl, rfl, rfl⟩
          · exact ⟨rfl, rfl, rfl⟩
        · exact ⟨rfl, rfl, rfl⟩
    · exact absurd h (by simp)

theorem isStrictClock_iff (s : Str) :
    isStrictClock s = true ↔
      ∃ h1 h2 m1 m2 s1 s2,
        s = [' ', h1, h2, ':', m1, m2, ':', s1, s2] ∧
        [h1, h2, m1, m2, s1, s2].all isDigitChar = true ∧
        digitsValue [h1, h2] 0 < 24 ∧ digitsValue [m1, m2] 0 < 60 ∧
        digitsValue [s1, s2] 0 < 60 := by
  constructor
  · intro h
    rcases s with _ | ⟨p0, _ | ⟨h1, _ | ⟨h2, _ | ⟨p1, _ | ⟨m1, _ | ⟨m2, _ | ⟨p2, _ | ⟨s1, _ | ⟨s2, _ | ⟨x, rest⟩⟩⟩⟩⟩⟩⟩⟩⟩⟩
    all_goals try (simp [isStrictClock] at h; done)
    simp only [isStrictClock, Bool.and_eq_true, beq_iff_eq, decide_eq_true_eq] at h
    obtain ⟨⟨⟨⟨hall, rfl⟩, rfl⟩, rfl⟩, h1, h2, h3⟩ := h
    exact ⟨_, _, _, _, _, _, rfl, hall, h1, h2, h3⟩
  · rintro ⟨h1, h2, m1, m2, s1, s2, rfl, hall, hh, hm, hs⟩
    simp only [isStrictClock, Bool.and_eq_true, beq_iff_eq, decide_eq_true_eq]
    exact ⟨⟨⟨⟨hall, trivial⟩, trivial⟩, trivial⟩, hh, hm, hs⟩

/-- The layout of DateTime accepts every text of the strict shape -/
theorem timeParse_datetime_strict (layout s : Str) (h : isStrictDateTime s = true) :
    ∃ t, timeParse layout dateTimeLayout s = .ok t := by
  simp only [isStrictDateTime, Bool.and_eq_true] at h
  obtain ⟨hdate, hclock⟩ := h
  obtain ⟨y1, y2, y3, y4, m1, m2, d1, d2, htake, hall, hlo, hhi, hd1, hd2⟩ :=
    (isStrictDate_iff _).1 hdate
  obtain ⟨h1, h2, mi1, mi2, s1, s2, hdrop, hcall, hh, hm, hs⟩ := (isStrictClock_iff _).1 hclock
  have hshape : s = [y1, y2, y3, y4, '-', m1, m2, '-', d1, d2]
      ++ [' ', h1, h2, ':', mi1, mi2, ':', s1, s2] := by
    rw [← htake, ← hdrop, List.take_append_drop]
  simp only [timeParse_ok, dateTimeLayout, parseChunks_append_ok, parseChunks_date_ok]
  refine ⟨_, _, ⟨_, ⟨y1, y2, y3, y4, m1, m2, d1, d2, _, hshape, hall, hlo, hhi, rfl⟩,
    parseChunks_clock layout s _ h1 h2 mi1 mi2 s1 s2 hcall hh hm hs rfl⟩, rfl, hd1, hd2, rfl⟩

/-- The layout of DateTime only accepts a text that starts with a date of the strict shape -/
theorem timeParse_datetime_date (layout s : Str) (t : Time)
    (h : timeParse layout dateTimeLayout s = .ok t) : isStrictDate (s.take 10) = true := by
  simp only [timeParse_ok, dateTimeLayout, parseChunks_append_ok, parseChunks_date_ok,
    parseChunks_cons_ok, parseChunks_nil_ok] at h
  obtain ⟨st, ⟨st1, ⟨y1, y2, y3, y4, m1, m2, d1, d2, rest, hv, hall, hlo, hhi, rfl⟩,
    v1, st2, -, hp1, v2, st3, -, hp2, v3, st4, -, hp3, rfl⟩, -, hd1, hd2, -⟩ := h
  obtain ⟨e1, e2, e3⟩ := parseStd_keeps_date _ _ _ (Or.inl rfl) hp1
  obtain ⟨f1, f2, f3⟩ := parseStd_keeps_date _ _ _ (Or.inr (Or.inl rfl)) hp2
  obtain ⟨g1, g2, g3⟩ := parseStd_keeps_date _ _ _ (Or.inr (Or.inr rfl)) hp3
  simp only at hv e1 e2 e3 f1 f2 f3 g1 g2 g3
  rw [g1, f1, e1, g2, f2, e2, g3, f3, e3] at hd2
  rw [g3, f3, e3] at hd1
  rw [isStrictDate_iff]
  refine ⟨y1, y2, y3, y4, m1, m2, d1, d2, ?_, hall, hlo, hhi, hd1, hd2⟩
  rw [hv]
  rfl

/-- C16 counterexample: DateTime returns a time and a nil error for two values that do not
have the strict shape YYYY-MM-DD HH:MM:SS, one with a fractional second after the seconds
and one with an hour of one digit -/
theorem datetime_accepts_other_shapes :
    isStrictDateTime "2020-01-02 03:04:05.5".toList = false ∧
    Result.DateTime sampleLib ⟨⟨[("t".toList, "2020-01-02 03:04:05.5".toList)]⟩⟩ "t".toList
      = (⟨2020, 1, 2, 3, 4, 5, 500000000⟩, none) ∧
    isStrictDateTime "2020-01-02 3:04:05".toList = false ∧
    Result.DateTime sampleLib ⟨⟨[("t".toList, "2020-01-02 3:04:05".toList)]⟩⟩ "t".toList
      = (⟨2020, 1, 2, 3, 4, 5, 0⟩, none) := by
  refine ⟨by decide, rfl, by decide, rfl⟩

/-! ## Query executor: the error made from a response that is not a 200 -/

/-- A repeated class takes the longest run: all the characters of the class up to the
first character outside of it, when what follows matches there -/
theorem runStar_greedy (p : Char → Bool) (k : Str → Option Str) (r : Str) (d : Char) (t : Str)
    (hd : p d = false) (hk : k (d :: t) = some r) :
    ∀ cs : Str, (∀ c ∈ cs, p c = true) → runStar p k (cs ++ d :: t) = some r := by
  intro cs
  induction cs with
  | nil =>
    intro _
    simp [runStar, hd, hk]
  | cons c cs ih =>
    intro h
    have hc : p c = true := h c (List.mem_cons_self _ _)
    have := ih (fun x hx => h x (List.mem_cons_of_mem _ hx))
    simp [runStar, hc, this]

/-- The pattern of the title matches a title element at the start of a text, and what is
left is the text after the element -/
theorem titleRe_match (x post : Str) (hx : x ≠ []) (hlt : '<' ∉ x) :
    titleRe.matchAt ("<title>".toList ++ x ++ "</title>".toList ++ post) = some post := by
  cases x with
  | nil => exact absurd rfl hx
  | cons c cs =>
    simp only [List.mem_cons, not_or] at hlt
    have hc : notLt c = true := by
      simp only [notLt, decide_eq_true_eq]
      exact fun e => hlt.1 e.symm
    have hcs : ∀ y ∈ cs, notLt y = true := by
      intro y hy
      simp only [notLt, decide_eq_true_eq]
      rintro rfl
      exact hlt.2 hy
    have hstrip : stripLit "<title>".toList
        ("<title>".toList ++ (c :: cs) ++ "</title>".toList ++ post)
        = some (c :: (cs ++ '<' :: ("/title>".toList ++ post))) := by
      rw [stripLit_eq_some]
      simp
    have hk : (fun rest => (Re.lit "</title>".toList).run rest some)
        ('<' :: ("/title>".toList ++ post)) = some post := by
      have : stripLit "</title>".toList ('<' :: ("/title>".toList ++ post)) = some post := by
        rw [stripLit_eq_some]
        rfl
      simp only [Re.run, this]
    have hstar := runStar_greedy notLt (fun rest => (Re.lit "</title>".toList).run rest some)
      post '<' ("/title>".toList ++ post) (by decide) hk cs hcs
    simp only [Re.matchAt, titleRe, Re.run, hstrip, hc, if_true]
    exact hstar

theorem lt_not_in_title_tail : ∀ k : Fin 8, 0 < k.val → '<' ∉ ("<title>".toList).drop k.val := by
  decide

/-- The pattern of the title does not match at a position before a title element, in a
text that does not hold the opening tag of the title -/
theorem titleRe_no_match_before (p1 p2 rest : Str) (hp2 : p2 ≠ [])
    (hpre : ¬ "<title>".toList <:+: p1 ++ p2) :
    titleRe.matchAt (p2 ++ ("<title>".toList ++ rest)) = none := by
  cases hm : stripLit "<title>".toList (p2 ++ ("<title>".toList ++ rest)) with
  | none => simp only [Re.matchAt, titleRe, Re.run, hm]
  | some r =>
    exfalso
    rw [stripLit_eq_some] at hm
    rcases List.append_eq_append_iff.1 hm with ⟨a, h1, h2⟩ | ⟨c, h1, h2⟩
    · -- the tag starts in p2 and ends after it
      by_cases ha : a = []
      · subst ha
        rw [List.append_nil] at h1
        exact hpre ⟨p1, [], by rw [h1]; simp⟩
      · have hlen : p2.length + a.length = 7 := by
          have := congrArg List.length h1
          simpa using this.symm
        have hp2len : 0 < p2.length := List.length_pos.2 hp2
        have halen : 0 < a.length := List.length_pos.2 ha
        have hdrop : ("<title>".toList).drop p2.length = a := by
          rw [h1]
          simp
        have hmem : '<' ∈ a := by
          cases a with
          | nil => exact absurd rfl ha
          | cons a0 as =>
            have : ('<' :: ("title>".toList ++ rest)) = a0 :: (as ++ r) := h2
            simp only [List.cons.injEq] at this
            rw [← this.1]
            exact List.mem_cons_self _ _
        rw [← hdrop] at hmem
        exact lt_not_in_title_tail ⟨p2.length, by omega⟩ hp2len hmem
    · -- the tag lies in p2
      exact hpre ⟨p1, c, by rw [h1]; simp⟩

/-- The search of the pattern of the title finds the first title element of a text -/
theorem titleRe_search (x post : Str) (hx : x ≠ []) (hlt : '<' ∉ x) :
    ∀ (p2 p1 : Str) (pos : Nat), ¬ "<title>".toList <:+: p1 ++ p2 →
      titleRe.search (p2 ++ ("<title>".toList ++ x ++ "</title>".toList ++ post)) pos
        = some (pos + p2.length,
            pos + p2.length + ("<title>".toList ++ x ++ "</title>".toList).length) := by
  intro p2
  induction p2 with
  | nil =>
    intro p1 pos _
    have hm := titleRe_match x post hx hlt
    have hs : "<title>".toList ++ x ++ "</title>".toList ++ post
        = '<' :: ("title>".toList ++ x ++ "</title>".toList ++ post) := rfl
    rw [List.nil_append, hs, Re.search, ← hs, hm]
    simp only [List.length_nil, Nat.add_zero, Option.some.injEq, Prod.mk.injEq, true_and]
    rw [hs]
    simp only [List.length_cons, List.length_append, show "title>".toList.length = 6 from rfl,
      show "<title>".toList.length = 7 from rfl, show "</title>".toList.length = 8 from rfl]
    omega
  | cons c cs ih =>
    intro p1 pos hpre
    have hnone := titleRe_no_match_before p1 (c :: cs)
      (x ++ "</title>".toList ++ post) (by simp) hpre
    have hassoc : "<title>".toList ++ (x ++ "</title>".toList ++ post)
        = "<title>".toList ++ x ++ "</title>".toList ++ post := by simp
    rw [hassoc] at hnone
    have hb : p1 ++ c :: cs = (p1 ++ [c]) ++ cs := by simp
    rw [hb] at hpre
    have := ih (p1 ++ [c]) (pos + 1) hpre
    rw [List.cons_append] at hnone ⊢
    simp only [Re.search, hnone, this, List.length_cons]
    congr 2 <;> omega

/-- FindAllString with the pattern of the title, on a text with a title element and no
opening tag of the title before it: the first match is that element, tags included -/
theorem titleRe_FindAllString (pre x post : Str) (hx : x ≠ []) (hlt : '<' ∉ x)
    (hpre : ¬ "<title>".toList <:+: pre) :
    ∃ more, titleRe.FindAllString (pre ++ "<title>".toList ++ x ++ "</title>".toList ++ post)
      = ("<title>".toList ++ x ++ "</title>".toList) :: more := by
  have hsearch := titleRe_search x post hx hlt pre [] 0 (by simpa using hpre)
  have hassoc : pre ++ ("<title>".toList ++ x ++ "</title>".toList ++ post)
      = pre ++ "<title>".toList ++ x ++ "</title>".toList ++ post := by simp
  rw [hassoc] at hsearch
  generalize hs : pre ++ "<title>".toList ++ x ++ "</title>".toList ++ post = s at hsearch
  have hsdef : s = pre ++ (("<title>".toList ++ x ++ "</title>".toList) ++ post) := by
    rw [← hs]
    simp
  have hlen : 0 < ("<title>".toList ++ x ++ "</title>".toList).length := by
    simp
  unfold Re.FindAllString
  rw [show s.length + 2 = (s.length + 1) + 1 from rfl, findAllLoop]
  have h1 : (0 < s.length + 1 ∧ 0 ≤ s.length) := ⟨by omega, by omega⟩
  simp only [h1, and_self, if_true, List.drop_zero, hsearch, Nat.zero_add]
  have hacc : ¬ (pre.length + ("<title>".toList ++ x ++ "</title>".toList).length = 0 ∧
      ((pre.length : Nat) : Int) = -1) := by
    rintro ⟨h, -⟩
    omega
  simp only [hacc, not_false_eq_true, if_true]
  refine ⟨_, congrArg₂ List.cons ?_ rfl⟩
  rw [hsdef, List.drop_left, Nat.add_sub_cancel_left, List.take_left]

/-- The first round of the retry loop on a response that is not a 200: the error text is
the body, or the first match of the pattern of the title when the body begins with the
sign < -/
theorem doQueryStep_non200 (net : Transport) (client : Client) (req : Request)
    (status : Int) (body : ReadCloser) (c : Char) (cs msg : Str)
    (hfirst : net 0 client req = .response ⟨status, body⟩) (hstatus : status ≠ 200)
    (hbody : body.data = c :: cs)
    (hmsg : if c = '<' then ∃ more, titleRe.FindAllString body.data = msg :: more
      else msg = body.data) :
    ∃ st1, doQueryStep net client req {} = .ok st1 ∧ st1.isDone = false ∧ st1.attempts = 1 ∧
      st1.sent = [req] ∧ st1.err = some msg := by
  have h0 : net ([] : List Request).length client req = .response ⟨status, body⟩ := hfirst
  by_cases hc : c = '<'
  · simp only [hc, if_true] at hmsg
    obtain ⟨more, hf⟩ := hmsg
    rw [hbody] at hf
    refine ⟨⟨false, 1, some ⟨status, { body with data := [] }⟩, some msg, [req]⟩, ?_,
      rfl, rfl, rfl, rfl⟩
    subst hc
    simp only [doQueryStep, h0, ReadAll, hbody]
    simp [hstatus, hf]
  · simp only [hc, if_false] at hmsg
    rw [hbody] at hmsg
    subst hmsg
    refine ⟨⟨false, 1, some ⟨status, { body with data := [] }⟩, some (c :: cs), [req]⟩, ?_,
      rfl, rfl, rfl, rfl⟩
    simp only [doQueryStep, h0, ReadAll, hbody]
    simp [hstatus, hc]

/-- C3, amended: when the first response is not a 200 and has a body that is not empty and
either does not begin with the sign <, or holds a title element (the opening tag, a text
without the sign < that is not empty, the closing tag) with no opening tag of the title
before it, then doQuery with one attempt sends exactly one request and returns the error
Can't do request to host, the host, a colon, and the body text, or for a body that begins
with the sign < the title element with its tags; and doQuery with two attempts or more
sends a further request -/
theorem non200_one_attempt_is_protocol_error (L : StdLib) (net : Transport) (conn : Conn)
    (query : Str) (n : Nat) (status : Int) (body : ReadCloser) (c : Char) (cs : Str)
    (pre x post : Str)
    (hn : 1 ≤ n) (hattempts : conn.attemptsAmount = (n : Int))
    (hurl : L.urlError (conn.requestURL L) = none)
    (hfirst : ∀ client req, net 0 client req = .response ⟨status, body⟩)
    (hstatus : status ≠ 200) (hbody : body.data = c :: cs)
    (htitle : c = '<' →
      body.data = pre ++ "<title>".toList ++ x ++ "</title>".toList ++ post ∧
      ¬ "<title>".toList <:+: pre ∧ x ≠ [] ∧ '<' ∉ x) :
    (n = 1 → (conn.doQuery L net query).sent.length = 1 ∧
      (conn.doQuery L net query).ret = .ok (none,
        some ("Can't do request to host ".toList ++ conn.getFQDN.1 ++ ": ".toList ++
          (if c = '<' then "<title>".toList ++ x ++ "</title>".toList else body.data)))) ∧
    (2 ≤ n → 2 ≤ (conn.doQuery L net query).sent.length) := by
  have hmsg : if c = '<' then ∃ more, titleRe.FindAllString body.data
        = (if c = '<' then "<title>".toList ++ x ++ "</title>".toList else body.data) :: more
      else (if c = '<' then "<title>".toList ++ x ++ "</title>".toList else body.data)
        = body.data := by
    by_cases hc : c = '<'
    · obtain ⟨hshape, hpre, hx, hlt⟩ := htitle hc
      simp only [hc, if_true]
      rw [hshape]
      exact titleRe_FindAllString pre x post hx hlt hpre
    · simp only [hc, if_false]
  obtain ⟨st1, hstep, hdone, hatt, hsent, herr⟩ :=
    doQueryStep_non200 net conn.client (newRequest (conn.requestURL L) query) status body c cs
      _ (hfirst _ _) hstatus hbody hmsg
  constructor
  · rintro rfl
    have hloop : doQueryLoop net conn.client (newRequest (conn.requestURL L) query) 1 1 {}
        = (.ok st1, st1.sent) := by
      simp [doQueryLoop, hstep]
    refine ⟨?_, ?_⟩
    · rw [doQuery_sent L net conn query hurl, hattempts]
      simp only [Nat.cast_one, Int.toNat_one, hloop, hsent, List.length_singleton]
    · simp only [Conn.doQuery, hurl, getFQDN_attemptsAmount, hattempts, Nat.cast_one,
        Int.toNat_one, hloop, herr]
  · intro h2
    obtain ⟨k, rfl⟩ : ∃ k, n = k + 2 := ⟨n - 2, by omega⟩
    rw [doQuery_sent L net conn query hurl, hattempts]
    have h1lt : st1.attempts < ((k + 2 : Nat) : Int) := by rw [hatt]; omega
    simp only [Int.toNat_ofNat, doQueryLoop, hstep]
    simp only [LoopState.isDone, LoopState.attempts, Bool.false_eq_true, not_false_eq_true,
      true_and, Nat.cast_add, Nat.cast_ofNat]
    have hpos : (0 : Int) < (k : Int) + 2 := by omega
    simp only [hpos, if_true, hdone, Bool.false_eq_true, not_false_eq_true, true_and]
    have h1lt' : st1.attempts < (k : Int) + 2 := by rw [hatt]; omega
    simp only [h1lt', if_true]
    cases hstep2 : doQueryStep net conn.client (newRequest (conn.requestURL L) query) st1 with
    | error p => simp [hsent]
    | ok st2 =>
      have hle := doQueryLoop_sent_le net conn.client (newRequest (conn.requestURL L) query)
        ((k : Int) + 2) k st2
      rw [doQueryStep_sent _ _ _ _ _ hstep2, hsent] at hle
      simpa using hle

theorem non200_one_attempt_is_protocol_error_witness :
    (1 ≤ 1 ∧ sampleConn.attemptsAmount = ((1 : Nat) : Int) ∧
      sampleLib.urlError (sampleConn.requestURL sampleLib) = none ∧
      (∀ client req,
        scripted [] (.response ⟨500, bodyOf "<html><title>Bad Request</title></html>".toList⟩)
          0 client req
        = .response ⟨500, bodyOf "<html><title>Bad Request</title></html>".toList⟩) ∧
      (500 : Int) ≠ 200 ∧
      (bodyOf "<html><title>Bad Request</title></html>".toList).data
        = '<' :: "html><title>Bad Request</title></html>".toList ∧
      ('<' = '<' →
        (bodyOf "<html><title>Bad Request</title></html>".toList).data
          = "<html>".toList ++ "<title>".toList ++ "Bad Request".toList ++ "</title>".toList
            ++ "</html>".toList ∧
        ¬ "<title>".toList <:+: "<html>".toList ∧ "Bad Request".toList ≠ [] ∧
        '<' ∉ "Bad Request".toList)) ∧
    (sampleConn.doQuery sampleLib
      (scripted [] (.response ⟨500, bodyOf "<html><title>Bad Request</title></html>".toList⟩))
      "SELECT 1".toList).sent.length = 1 ∧
    (sampleConn.doQuery sampleLib
      (scripted [] (.response ⟨500, bodyOf "<html><title>Bad Request</title></html>".toList⟩))
      "SELECT 1".toList).ret = .ok (none,
        some ("Can't do request to host ".toList ++ sampleConn.getFQDN.1 ++ ": ".toList ++
          (if '<' = '<' then "<title>".toList ++ "Bad Request".toList ++ "</title>".toList
            else (bodyOf "<html><title>Bad Request</title></html>".toList).data))) :=
  ⟨⟨by decide, rfl, rfl, fun _ _ => rfl, by decide, rfl,
      fun _ => ⟨rfl, by decide, by decide, by decide⟩⟩,
    (non200_one_attempt_is_protocol_error sampleLib _ sampleConn "SELECT 1".toList 1 500
      (bodyOf "<html><title>Bad Request</title></html>".toList) '<'
      "html><title>Bad Request</title></html>".toList "<html>".toList "Bad Request".toList
      "</html>".toList (by decide) rfl rfl (fun _ _ => rfl)
      (by decide) rfl (fun _ => ⟨rfl, by decide, by decide, by decide⟩)).1 rfl⟩

/-! ## Typed accessors: what DateTime accepts -/

theorem cutspace_spaces (spaces w : Str) (hsp : ∀ c ∈ spaces, c = ' ')
    (hw : ∀ c r, w = c :: r → c ≠ ' ') : cutspace (spaces ++ w) = w := by
  induction spaces with
  | nil =>
    rw [List.nil_append]
    cases w with
    | nil => rfl
    | cons c r =>
      have hc := hw c r rfl
      rw [cutspace]
      intro s1 h1
      simp only [List.cons.injEq] at h1
      exact hc h1.1
  | cons c cs ih =>
    have hc : c = ' ' := hsp c (List.mem_cons_self _ _)
    subst hc
    rw [List.cons_append, cutspace]
    exact ih (fun x hx => hsp x (List.mem_cons_of_mem _ hx))

theorem cutspace_spec (t : Str) :
    ∃ spaces, (∀ c ∈ spaces, c = ' ') ∧ t = spaces ++ cutspace t ∧
      ∀ c r, cutspace t = c :: r → c ≠ ' ' := by
  induction t with
  | nil => exact ⟨[], by simp, rfl, by simp [cutspace]⟩
  | cons c cs ih =>
    by_cases hc : c = ' '
    · subst hc
      obtain ⟨sp, h1, h2, h3⟩ := ih
      refine ⟨' ' :: sp, ?_, ?_, ?_⟩
      · intro x hx
        rcases List.mem_cons.1 hx with rfl | hx
        · rfl
        · exact h1 x hx
      · rw [cutspace, List.cons_append, ← h2]
      · rw [cutspace]
        exact h3
    · have hcut : cutspace (c :: cs) = c :: cs := by
        rw [cutspace]
        intro s1 h1
        simp only [List.cons.injEq] at h1
        exact hc h1.1
      refine ⟨[], by simp, by rw [hcut]; rfl, ?_⟩
      rw [hcut]
      intro c1 r h
      simp only [List.cons.injEq] at h
      rw [← h.1]
      exact hc

theorem skip_space_ok (v v1 : Str) :
    skip 2 v [' '] = .ok v1 ↔ (v = [] ∧ v1 = []) ∨ ∃ t, v = ' ' :: t ∧ v1 = cutspace t := by
  cases v with
  | nil => simp [skip, cutspace, eq_comm]
  | cons c t =>
    by_cases hc : c = ' '
    · subst hc
      simp [skip, cutspace, eq_comm]
    · simp [skip, hc]

theorem skip_colon_ok (v v1 : Str) : skip 2 v [':'] = .ok v1 ↔ v = ':' :: v1 := by
  cases v with
  | nil => simp [skip]
  | cons c rest =>
    by_cases h : c = ':'
    · simp [skip, h]
    · simp [skip, h]

/-- What the element of the hour reads: one digit that no digit follows, or two digits -/
theorem getnum_free_some (s : Str) (n : Nat) (rest : Str) :
    getnum s false = some (n, rest) ↔
      ∃ hour, s = hour ++ rest ∧ (hour.length = 1 ∨ hour.length = 2) ∧
        hour.all isDigitChar = true ∧
        (hour.length = 1 → ∀ c r, rest = c :: r → isDigitChar c = false) ∧
        n = digitsValue hour 0 := by
  constructor
  · intro h
    rcases s with _ | ⟨c0, _ | ⟨c1, r⟩⟩
    · simp [getnum] at h
    · by_cases h0 : isDigitChar c0 = true
      · simp only [getnum, h0, not_true_eq_false, if_false, Bool.false_eq_true,
          Option.some.injEq, Prod.mk.injEq] at h
        obtain ⟨rfl, rfl⟩ := h
        exact ⟨[c0], rfl, Or.inl rfl, by simp [h0], by simp, by simp [digitsValue]⟩
      · simp [getnum, h0] at h
    · by_cases h0 : isDigitChar c0 = true
      · by_cases h1 : isDigitChar c1 = true
        · simp only [getnum, h0, h1, not_true_eq_false, if_false, Option.some.injEq,
            Prod.mk.injEq] at h
          obtain ⟨rfl, rfl⟩ := h
          exact ⟨[c0, c1], rfl, Or.inr rfl, by simp [h0, h1], by simp, by simp [digitsValue]⟩
        · simp only [getnum, h0, h1, not_true_eq_false, if_false, not_false_eq_true, if_true,
            Bool.false_eq_true, Option.some.injEq, Prod.mk.injEq] at h
          obtain ⟨rfl, rfl⟩ := h
          refine ⟨[c0], rfl, Or.inl rfl, by simp [h0], ?_, by simp [digitsValue]⟩
          intro _ c r hr
          simp only [List.cons.injEq] at hr
          rw [← hr.1]
          simpa using h1
      · simp [getnum, h0] at h
  · rintro ⟨hour, rfl, hlen, hall, hnext, rfl⟩
    rcases hlen with hlen | hlen
    · obtain ⟨c0, rfl⟩ : ∃ c0, hour = [c0] := List.length_eq_one.1 hlen
      have h0 : isDigitChar c0 = true := by simpa using hall
      cases rest with
      | nil => simp [getnum, h0, digitsValue]
      | cons c1 r =>
        have h1 : isDigitChar c1 = false := hnext rfl c1 r rfl
        simp [getnum, h0, h1, digitsValue]
    · obtain ⟨c0, c1, rfl⟩ : ∃ c0 c1, hour = [c0, c1] := List.length_eq_two.1 hlen
      simp only [List.all_cons, List.all_nil, Bool.and_true, Bool.and_eq_true] at hall
      simp [getnum, hall.1, hall.2, digitsValue]

theorem parseStd_hour_ok (st st1 : ParseState) :
    parseStd .stdHour st = .ok st1 ↔
      ∃ hour rest, st.value = hour ++ rest ∧ (hour.length = 1 ∨ hour.length = 2) ∧
        hour.all isDigitChar = true ∧
        (hour.length = 1 → ∀ c r, rest = c :: r → isDigitChar c = false) ∧
        digitsValue hour 0 < 24 ∧
        st1 = { st with hour := digitsValue hour 0, value := rest } := by
  unfold parseStd
  cases hg : getnum st.value false with
  | none =>
    simp only [reduceCtorEq, false_iff]
    rintro ⟨hour, rest, hv, hlen, hall, hnext, -, -⟩
    have := (getnum_free_some st.value _ rest).2 ⟨hour, hv, hlen, hall, hnext, rfl⟩
    rw [hg] at this
    exact absurd this (by simp)
  | some p =>
    obtain ⟨n, rest⟩ := p
    obtain ⟨hour, hv, hlen, hall, hnext, rfl⟩ := (getnum_free_some _ _ _).1 hg
    have huniq : ∀ hour1 rest1, st.value = hour1 ++ rest1 →
        (hour1.length = 1 ∨ hour1.length = 2) → hour1.all isDigitChar = true →
        (hour1.length = 1 → ∀ c r, rest1 = c :: r → isDigitChar c = false) →
        digitsValue hour1 0 = digitsValue hour 0 ∧ rest1 = rest := by
      intro hour1 rest1 hv1 hlen1 hall1 hnext1
      have := (getnum_free_some st.value _ rest1).2 ⟨hour1, hv1, hlen1, hall1, hnext1, rfl⟩
      rw [hg] at this
      simp only [Option.some.injEq, Prod.mk.injEq] at this
      exact ⟨this.1.symm, this.2.symm⟩
    by_cases hm : 24 ≤ digitsValue hour 0
    · simp only [hm, if_true, reduceCtorEq, false_iff]
      rintro ⟨hour1, rest1, hv1, hlen1, hall1, hnext1, hlt, -⟩
      obtain ⟨e1, -⟩ := huniq hour1 rest1 hv1 hlen1 hall1 hnext1
      omega
    · simp only [hm, if_false, Except.ok.injEq]
      constructor
      · rintro rfl
        exact ⟨hour, rest, hv, hlen, hall, hnext, by omega, rfl⟩
      · rintro ⟨hour1, rest1, hv1, hlen1, hall1, hnext1, -, rfl⟩
        obtain ⟨e1, e2⟩ := huniq hour1 rest1 hv1 hlen1 hall1 hnext1
        rw [e1, e2]

theorem parseStd_minute_ok (st st1 : ParseState) :
    parseStd .stdZeroMinute st = .ok st1 ↔
      ∃ c0 c1 rest, st.value = c0 :: c1 :: rest ∧ isDigitChar c0 = true ∧
        isDigitChar c1 = true ∧ digitsValue [c0, c1] 0 < 60 ∧
        st1 = { st with min := digitsValue [c0, c1] 0, value := rest } := by
  unfold parseStd
  cases hg : getnum st.value true with
  | none =>
    simp only [reduceCtorEq, false_iff]
    rintro ⟨c0, c1, rest, hv, h0, h1, -, -⟩
    have := (getnum_fixed_some st.value _ rest).2 ⟨c0, c1, hv, h0, h1, rfl⟩
    rw [hg] at this
    exact absurd this (by simp)
  | some p =>
    obtain ⟨m, rest⟩ := p
    obtain ⟨c0, c1, hv, h0, h1, rfl⟩ := (getnum_fixed_some _ _ _).1 hg
    by_cases hm : 60 ≤ digitsValue [c0, c1] 0
    · simp only [hm, if_true, reduceCtorEq, false_iff]
      rintro ⟨a0, a1, r, hv1, -, -, hlt, -⟩
      rw [hv] at hv1
      simp only [List.cons.injEq] at hv1
      obtain ⟨rfl, rfl, rfl⟩ := hv1
      omega
    · simp only [hm, if_false, Except.ok.injEq]
      constructor
      · rintro rfl
        exact ⟨c0, c1, rest, hv, h0, h1, by omega, rfl⟩
      · rintro ⟨a0, a1, r, hv1, -, -, -, rfl⟩
        rw [hv] at hv1
        simp only [List.cons.injEq] at hv1
        obtain ⟨rfl, rfl, rfl⟩ := hv1
        rfl

theorem parseStd_second_ok (st st1 : ParseState) :
    parseStd .stdZeroSecond st = .ok st1 ↔
      ∃ c0 c1 rest, st.value = c0 :: c1 :: rest ∧ isDigitChar c0 = true ∧
        isDigitChar c1 = true ∧ digitsValue [c0, c1] 0 < 60 ∧
        st1 = parseFraction { st with sec := digitsValue [c0, c1] 0, value := rest } := by
  unfold parseStd
  cases hg : getnum st.value true with
  | none =>
    simp only [reduceCtorEq, false_iff]
    rintro ⟨c0, c1, rest, hv, h0, h1, -, -⟩
    have := (getnum_fixed_some st.value _ rest).2 ⟨c0, c1, hv, h0, h1, rfl⟩
    rw [hg] at this
    exact absurd this (by simp)
  | some p =>
    obtain ⟨m, rest⟩ := p
    obtain ⟨c0, c1, hv, h0, h1, rfl⟩ := (getnum_fixed_some _ _ _).1 hg
    by_cases hm : 60 ≤ digitsValue [c0, c1] 0
    · simp only [hm, if_true, reduceCtorEq, false_iff]
      rintro ⟨a0, a1, r, hv1, -, -, hlt, -⟩
      rw [hv] at hv1
      simp only [List.cons.injEq] at hv1
      obtain ⟨rfl, rfl, rfl⟩ := hv1
      omega
    · simp only [hm, if_false, Except.ok.injEq]
      constructor
      · rintro rfl
        exact ⟨c0, c1, rest, hv, h0, h1, by omega, rfl⟩
      · rintro ⟨a0, a1, r, hv1, -, -, -, rfl⟩
        rw [hv] at hv1
        simp only [List.cons.injEq] at hv1
        obtain ⟨rfl, rfl, rfl⟩ := hv1
        rfl

theorem atoiDigits_some (l : Str) : ∀ k, (∀ c ∈ l, isDigitChar c = true) →
    ∃ n, atoiDigits l k = some n := by
  induction l with
  | nil => intro k _; exact ⟨k, rfl⟩
  | cons c cs ih =>
    intro k h
    have hc := h c (List.mem_cons_self _ _)
    obtain ⟨n, hn⟩ := ih (k * 10 + (c.toNat - 48)) (fun x hx => h x (List.mem_cons_of_mem _ hx))
    exact ⟨n, by simp [atoiDigits, hc, hn]⟩

/-- The fractional second that is read after the seconds: the calendar fields stay as
they are, and no text is left exactly when nothing follows the seconds or a period or
comma and digits only, one at least, follow them -/
theorem parseFraction_spec (st : ParseState) :
    (parseFraction st).year = st.year ∧ (parseFraction st).month = st.month ∧
    (parseFraction st).day = st.day ∧
    ((parseFraction st).value = [] ↔
      st.value = [] ∨ ∃ c ds, st.value = c :: ds ∧ (c = '.' ∨ c = ',') ∧ ds ≠ [] ∧
        ds.all isDigitChar = true) := by
  rcases st with ⟨y, mo, d, h, mi, se, ns, v⟩
  rcases v with _ | ⟨c, _ | ⟨d1, rest⟩⟩
  · simp [parseFraction]
  · simp [parseFraction]
  · by_cases hcond : (c = '.' ∨ c = ',') ∧ isDigitChar d1 = true
    · have hused : ∀ x ∈ ((d1 :: rest).takeWhile isDigitChar).take 9, isDigitChar x = true := by
        intro x hx
        exact (List.mem_takeWhile_imp (List.mem_of_mem_take hx))
      obtain ⟨n, hn⟩ := atoiDigits_some _ 0 hused
      simp only [parseFraction, hcond, and_self, if_true, hn, true_and]
      rw [List.dropWhile_eq_nil_iff]
      constructor
      · intro hall
        refine Or.inr ⟨c, d1 :: rest, rfl, hcond.1, by simp, ?_⟩
        rw [List.all_eq_true]
        exact hall
      · rintro (h0 | ⟨c1, ds, hv, -, -, hall⟩)
        · exact absurd h0 (by simp)
        · simp only [List.cons.injEq] at hv
          rw [← hv.2] at hall
          rw [List.all_eq_true] at hall
          exact hall
    · simp only [parseFraction, hcond, if_false, true_and, reduceCtorEq, false_iff, not_or,
        not_exists, not_and, not_false_eq_true, List.cons.injEq, and_imp]
      intro c1 ds hc hds hor _ hall
      subst hc hds
      apply hcond
      refine ⟨hor, ?_⟩
      simp only [List.all_cons, Bool.and_eq_true] at hall
      exact hall.1

/-- The layout of DateTime accepts exactly the texts of the shape of DateTimeShape -/
theorem timeParse_datetime_ok (layout s : Str) :
    (∃ t, timeParse layout dateTimeLayout s = .ok t) ↔ DateTimeShape s := by
  simp only [timeParse_ok, dateTimeLayout, parseChunks_append_ok, parseChunks_date_ok,
    parseChunks_cons_ok, parseChunks_nil_ok, List.length_cons, List.length_nil, Nat.zero_add,
    Nat.reduceAdd, skip_space_ok, skip_colon_ok, parseStd_hour_ok, parseStd_minute_ok,
    parseStd_second_ok]
  constructor
  · rintro ⟨t, st, ⟨st1, ⟨y1, y2, y3, y4, m1, m2, d1, d2, rest, hv, hall, hlo, hhi, rfl⟩,
      v1, st2, hskip, ⟨hour, r1, hv1, hlen, hhall, hnext, hh, rfl⟩,
      v2, st3, hv2, ⟨mi1, mi2, r2, hv3, hmi1, hmi2, hmi, rfl⟩,
      v3, st4, hv4, ⟨s1, s2, r3, hv5, hs1, hs2, hs, rfl⟩, rfl⟩, hnil, hd1, hd2, -⟩
    simp only at hv hskip hv1 hv2 hv3 hv4 hv5
    obtain ⟨e1, e2, e3, hfrac⟩ := parseFraction_spec
      { year := digitsValue [y1, y2, y3, y4] 0, month := digitsValue [m1, m2] 0,
        day := digitsValue [d1, d2] 0, hour := digitsValue hour 0,
        min := digitsValue [mi1, mi2] 0, sec := digitsValue [s1, s2] 0, nsec := 0, value := r3 }
    rw [e1, e2, e3] at hd2
    rw [e3] at hd1
    simp only at hd1 hd2
    have hfr := hfrac.1 hnil
    simp only at hfr
    have hhour_ne : hour ≠ [] := by
      rintro rfl
      rcases hlen with h | h <;> simp at h
    rcases hskip with ⟨h0, rfl⟩ | ⟨t1, ht1, rfl⟩
    · exfalso
      have := congrArg List.length hv1
      simp only [List.length_nil, List.length_append] at this
      have := List.length_pos.2 hhour_ne
      omega
    · obtain ⟨spaces, hsp, hsplit, -⟩ := cutspace_spec t1
      refine ⟨[y1, y2, y3, y4, '-', m1, m2, '-', d1, d2], spaces, hour, mi1, mi2, s1, s2, r3,
        ?_, ?_, hsp, hlen, ?_, hh, hmi, hs, hfr⟩
      · rw [hv, ht1, hsplit, hv1, hv2, hv3, hv4, hv5]
        simp
      · rw [isStrictDate_iff]
        exact ⟨y1, y2, y3, y4, m1, m2, d1, d2, rfl, hall, hlo, hhi, hd1, hd2⟩
      · rw [List.all_append, hhall]
        simp [hmi1, hmi2, hs1, hs2]
  · rintro ⟨date, spaces, hour, mi1, mi2, s1, s2, frac, rfl, hdate, hsp, hlen, hall, hh, hmi, hs,
      hfr⟩
    obtain ⟨y1, y2, y3, y4, m1, m2, d1, d2, rfl, hdall, hlo, hhi, hd1, hd2⟩ :=
      (isStrictDate_iff _).1 hdate
    rw [List.all_append, Bool.and_eq_true] at hall
    obtain ⟨hhall, hrest⟩ := hall
    simp only [List.all_cons, List.all_nil, Bool.and_true, Bool.and_eq_true] at hrest
    obtain ⟨hmi1, hmi2, hs1, hs2⟩ := hrest
    have hhour_ne : hour ≠ [] := by
      rintro rfl
      rcases hlen with h | h <;> simp at h
    obtain ⟨e1, e2, e3, hfrac⟩ := parseFraction_spec
      { year := digitsValue [y1, y2, y3, y4] 0, month := digitsValue [m1, m2] 0,
        day := digitsValue [d1, d2] 0, hour := digitsValue hour 0,
        min := digitsValue [mi1, mi2] 0, sec := digitsValue [s1, s2] 0, nsec := 0,
        value := frac }
    have hcut : cutspace (spaces ++ (hour ++ (':' :: mi1 :: mi2 :: ':' :: s1 :: s2 :: frac)))
        = hour ++ (':' :: mi1 :: mi2 :: ':' :: s1 :: s2 :: frac) := by
      apply cutspace_spaces _ _ hsp
      intro c r hcr
      cases hour with
      | nil => exact absurd rfl hhour_ne
      | cons h0 hs0 =>
        simp only [List.cons_append, List.cons.injEq] at hcr
        rw [← hcr.1]
        have : isDigitChar h0 = true := by
          simp only [List.all_cons, Bool.and_eq_true] at hhall
          exact hhall.1
        rintro rfl
        exact absurd this (by decide)
    refine ⟨_, _, ⟨_, ⟨y1, y2, y3, y4, m1, m2, d1, d2,
        (' ' :: spaces) ++ hour ++ [':', mi1, mi2, ':', s1, s2] ++ frac,
        by simp, hdall, hlo, hhi, rfl⟩,
      _, _, Or.inr ⟨spaces ++ (hour ++ (':' :: mi1 :: mi2 :: ':' :: s1 :: s2 :: frac)),
        by simp, rfl⟩,
      ⟨hour, ':' :: mi1 :: mi2 :: ':' :: s1 :: s2 :: frac, hcut, hlen, hhall,
        fun _ c r hcr => by
          simp only [List.cons.injEq] at hcr
          rw [← hcr.1]
          decide,
        hh, rfl⟩,
      _, _, rfl, ⟨mi1, mi2, _, rfl, hmi1, hmi2, hmi, rfl⟩,
      _, _, rfl, ⟨s1, s2, frac, rfl, hs1, hs2, hs, rfl⟩, rfl⟩, ?_, ?_, ?_, rfl⟩
    · exact hfrac.2 hfr
    · rw [e3]
      exact hd1
    · rw [e1, e2, e3]
      exact hd2

/-- DateTime returns an error for a value with other text after the date, with the
letter T between date and time, and with the hour 25 -/
theorem datetime_rejects_other_text :
    (Result.DateTime sampleLib ⟨⟨[("t".toList, "2020-01-02 garbage".toList)]⟩⟩ "t".toList).2
      ≠ none ∧
    (Result.DateTime sampleLib ⟨⟨[("t".toList, "2020-01-02T03:04:05".toList)]⟩⟩ "t".toList).2
      ≠ none ∧
    (Result.DateTime sampleLib ⟨⟨[("t".toList, "2020-01-02 25:00:00".toList)]⟩⟩ "t".toList).2
      ≠ none := by
  decide

/-- C16, amended: for a column that holds the value s, Date returns a nil error exactly
when s has the strict shape YYYY-MM-DD of a calendar date; DateTime returns a nil error
exactly when s has the shape of DateTimeShape: a strict date, one space or more, an hour
of one or two digits, minute and second of two digits, and nothing or a fractional second
after them; this holds for every s of the strict shape YYYY-MM-DD HH:MM:SS, and only for
values whose first ten characters are a date of the strict shape; and an error of Date or
DateTime comes with the zero time and is the text Can't convert value, s, to date: or to
datetime:, and the text of the parse error -/
theorem date_datetime_accepted_shapes (L : StdLib) (result : Result) (column s : Str)
    (h : result.data.get column = some s) :
    ((result.Date L column).2 = none ↔ isStrictDate s = true) ∧
    ((result.DateTime L column).2 = none ↔ DateTimeShape s) ∧
    (isStrictDateTime s = true → (result.DateTime L column).2 = none) ∧
    ((result.DateTime L column).2 = none → isStrictDate (s.take 10) = true) ∧
    (∀ e, (result.Date L column).2 = some e →
      (result.Date L column).1 = Time.zero ∧
      ∃ rest, e = "Can't convert value ".toList ++ s ++ " to date: ".toList ++ rest) ∧
    (∀ e, (result.DateTime L column).2 = some e →
      (result.DateTime L column).1 = Time.zero ∧
      ∃ rest, e = "Can't convert value ".toList ++ s ++ " to datetime: ".toList ++ rest) := by
  have hstr : result.String column = (s, none) := by
    simp [Result.String, h]
  refine ⟨?_, ?_, ?_, ?_, ?_, ?_⟩
  · rw [← timeParse_date_ok "2006-01-02".toList s]
    unfold Result.Date
    rw [hstr]
    dsimp only
    cases hp : timeParse "2006-01-02".toList dateLayout s with
    | error err => simp
    | ok t => simp
  · rw [← timeParse_datetime_ok "2006-01-02 15:04:05".toList s]
    unfold Result.DateTime
    rw [hstr]
    dsimp only
    cases hp : timeParse "2006-01-02 15:04:05".toList dateTimeLayout s with
    | error err => simp
    | ok t => simp
  · intro hs
    obtain ⟨t, ht⟩ := timeParse_datetime_strict "2006-01-02 15:04:05".toList s hs
    unfold Result.DateTime
    rw [hstr]
    dsimp only
    simp only [ht]
  · unfold Result.DateTime
    rw [hstr]
    dsimp only
    cases hp : timeParse "2006-01-02 15:04:05".toList dateTimeLayout s with
    | error err => simp
    | ok t =>
      intro _
      exact timeParse_datetime_date _ s t hp
  · unfold Result.Date
    rw [hstr]
    dsimp only
    cases hp : timeParse "2006-01-02".toList dateLayout s with
    | error err =>
      intro e he
      simp only [Option.some.injEq] at he
      exact ⟨rfl, L.parseErrorText err, he.symm⟩
    | ok t => simp
  · unfold Result.DateTime
    rw [hstr]
    dsimp only
    cases hp : timeParse "2006-01-02 15:04:05".toList dateTimeLayout s with
    | error err =>
      intro e he
      simp only [Option.some.injEq] at he
      exact ⟨rfl, L.parseErrorText err, he.symm⟩
    | ok t => simp

theorem date_datetime_accepted_shapes_witness :
    (⟨⟨[("d".toList, "2020-02-29".toList)]⟩⟩ : Result).data.get "d".toList
      = some "2020-02-29".toList ∧
    (((⟨⟨[("d".toList, "2020-02-29".toList)]⟩⟩ : Result).Date sampleLib "d".toList).2 = none ↔
      isStrictDate "2020-02-29".toList = true) ∧
    (((⟨⟨[("d".toList, "2020-02-29".toList)]⟩⟩ : Result).DateTime sampleLib "d".toList).2 = none ↔
      DateTimeShape "2020-02-29".toList) ∧
    (isStrictDateTime "2020-02-29".toList = true →
      ((⟨⟨[("d".toList, "2020-02-29".toList)]⟩⟩ : Result).DateTime sampleLib "d".toList).2
        = none) ∧
    (((⟨⟨[("d".toList, "2020-02-29".toList)]⟩⟩ : Result).DateTime sampleLib "d".toList).2 = none →
      isStrictDate ("2020-02-29".toList.take 10) = true) ∧
    (∀ e, ((⟨⟨[("d".toList, "2020-02-29".toList)]⟩⟩ : Result).Date sampleLib "d".toList).2
        = some e →
      ((⟨⟨[("d".toList, "2020-02-29".toList)]⟩⟩ : Result).Date sampleLib "d".toList).1
        = Time.zero ∧
      ∃ rest, e = "Can't convert value ".toList ++ "2020-02-29".toList ++ " to date: ".toList
        ++ rest) ∧
    (∀ e, ((⟨⟨[("d".toList, "2020-02-29".toList)]⟩⟩ : Result).DateTime sampleLib "d".toList).2
        = some e →
      ((⟨⟨[("d".toList, "2020-02-29".toList)]⟩⟩ : Result).DateTime sampleLib "d".toList).1
        = Time.zero ∧
      ∃ rest, e = "Can't convert value ".toList ++ "2020-02-29".toList
        ++ " to datetime: ".toList ++ rest) :=
  ⟨rfl, date_datetime_accepted_shapes sampleLib ⟨⟨[("d".toList, "2020-02-29".toList)]⟩⟩
    "d".toList "2020-02-29".toList rfl⟩

end Clickhouse
